import Mathlib

/-!
TestLora: secure pairing and fragmented delivery over LoRa

A shallow embedding of the protocol engine of the repository
(`src/protocol/FragmentManager.cpp`, `src/security/PairingManager.cpp`,
`src/security/SecurityManager.cpp`) together with theorems
about it.

Conventions of the embedding:

* a byte (`uint8_t`) is a `Fin 256`; wider machine integers are `Nat` with an
  explicit reduction modulo `2^w` wherever the C++ code narrows a value;
* a `std::vector<uint8_t>` and an Arduino `String` are `List Byte`;
* the mbedtls primitives (SHA-256, AES-CTR, P-256) are not part of the
  repository: they are fields of the structure `Crypto`, and every property a
  theorem needs of them is an explicit hypothesis of that theorem;
* `millis()`, `esp_random()` and the radio are the environment: clock readings
  and random words are arguments, and every packet handed to
  `LoRaModule::sendPacket` is recorded in a `sent` list;
* text printed on `Serial` is not modelled, except that the message a receiver
  prints after decryption is recorded as `delivered`.
-/

namespace TestLora

/-! ## Bytes and big-endian fields -/

/-- One `uint8_t`. -/
abbrev Byte := Fin 256

/-- Narrowing conversion to `uint8_t`. -/
def toByte (n : Nat) : Byte := ⟨n % 256, Nat.mod_lt _ (by decide)⟩

/-- The four `push_back` calls that write a `uint32_t` big-endian
(`(x >> 24) & 0xFF`, ..., `x & 0xFF`). -/
def be32 (x : Nat) : List Byte :=
  [toByte ((x >>> 24) &&& 0xFF), toByte ((x >>> 16) &&& 0xFF),
   toByte ((x >>> 8) &&& 0xFF), toByte (x &&& 0xFF)]

/-- The two `push_back` calls that write a `uint16_t` big-endian. -/
def be16 (x : Nat) : List Byte :=
  [toByte ((x >>> 8) &&& 0xFF), toByte (x &&& 0xFF)]

/-- Value of `packet[i]` as an integer (only used at indices the code has
checked to be in bounds; out of bounds it reads 0). -/
def byteAt (p : List Byte) (i : Nat) : Nat := (p.getD i 0).val

/-- The expression `((uint32_t)p[i] << 24) | ((uint32_t)p[i+1] << 16) |
((uint32_t)p[i+2] << 8) | p[i+3]`. -/
def rdU32 (p : List Byte) (i : Nat) : Nat :=
  (byteAt p i <<< 24) ||| (byteAt p (i + 1) <<< 16) ||| (byteAt p (i + 2) <<< 8) |||
    byteAt p (i + 3)

/-- The expression `((uint16_t)p[i] << 8) | p[i+1]`. -/
def rdU16 (p : List Byte) (i : Nat) : Nat :=
  (byteAt p i <<< 8) ||| byteAt p (i + 1)

/-- A buffer of exactly `n` bytes, zero-initialised, into which the first `n`
bytes of `l` have been written (a fixed-size C array or a pre-sized vector
filled by a library call). -/
def fixLen (n : Nat) (l : List Byte) : List Byte :=
  l.take n ++ List.replicate (n - l.length) 0

/-! ## SecurityManager: the primitives -/

/-- The mbedtls primitives used by `SecurityManager`, which are outside the
repository. A private key is the big integer `ecdhD`; public keys and shared
secrets are their binary encodings. -/
structure Crypto where
  /-- SHA-256 of a byte string (`mbedtls_sha256_*`). -/
  sha256Raw : List Byte → List Byte
  /-- AES-128-CTR (`mbedtls_aes_crypt_ctr` with `nc_off = 0`): key, IV, input. -/
  aesCtrRaw : List Byte → List Byte → List Byte → List Byte
  /-- Uncompressed binary encoding of the public point of a private key. -/
  pubOf : Nat → List Byte
  /-- The X coordinate of `d * Qp` in minimal big-endian encoding, or `none`
  when the peer point does not parse or the multiplication fails. -/
  ecdhRaw : Nat → List Byte → Option (List Byte)

/-- `SecurityManager::sha256`: the digest is the 32-byte array `out32`. -/
def sha256 (c : Crypto) (data : List Byte) : List Byte :=
  fixLen 32 (c.sha256Raw data)

/-- `SecurityManager::hmacSha256Trunc16` with `keyLen` the length of `key`:
the first 16 bytes of `sha256 (key ‖ msg)`. -/
def hmacSha256Trunc16 (c : Crypto) (key msg : List Byte) : List Byte :=
  (sha256 c (key ++ msg)).take 16

/-- `SecurityManager::aesCtrCrypt`: the output buffer has the length of the
input (`len`), whatever the cipher writes. -/
def aesCtrCrypt (c : Crypto) (key iv inp : List Byte) : List Byte :=
  fixLen inp.length (c.aesCtrRaw key iv inp)

/-- `SecurityManager::deriveSessionKeyFromShared`: the first 16 bytes of
`sha256 (shared ‖ nonceI ‖ nonceR)`. -/
def deriveSessionKeyFromShared (c : Crypto) (shared nonceI nonceR : List Byte) :
    List Byte :=
  (sha256 c (shared ++ nonceI ++ nonceR)).take 16

/-- `SecurityManager::generateRandomBytes(out, len)`: byte `i` is the low byte
of the `i`-th word returned by `esp_random()`. -/
def generateRandomBytes (rnd : Nat → Nat) (len : Nat) : List Byte :=
  (List.range len).map (fun i => toByte (rnd i &&& 0xFF))

/-! ## FragmentManager: data model -/

/-- `struct PendingPacket`. -/
structure PendingPacket where
  seq : Nat
  fragId : Nat
  packetData : List Byte
  lastSentMs : Nat
  retryCount : Nat
  acked : Bool
  deriving DecidableEq, Repr

/-- `struct PendingMessage`. -/
structure PendingMessage where
  seq : Nat
  totalFrags : Nat
  packets : List PendingPacket
  firstSentMs : Nat
  deriving DecidableEq, Repr

/-- `struct FragmentBuffer`. -/
structure FragmentBuffer where
  seq : Nat
  totalFrags : Nat
  iv : List Byte
  fragments : List (List Byte)
  firstSeenMs : Nat
  complete : Bool
  hasIv : Bool
  deriving DecidableEq, Repr

/-- The mutable members of `class FragmentManager`. -/
structure FragmentManager where
  pendingMessages : List PendingMessage
  fragmentBuffers : List FragmentBuffer
  deriving DecidableEq, Repr

/-- `FragmentManager::MAX_FRAGMENT_PAYLOAD`. -/
def MAX_FRAGMENT_PAYLOAD : Nat := 156

/-- `FragmentManager::FRAGMENT_TIMEOUT_MS`. -/
def FRAGMENT_TIMEOUT_MS : Nat := 15000

/-- `PKT_DATA`. -/
def PKT_DATA : Byte := 0x10

/-- `PKT_ACK`. -/
def PKT_ACK : Byte := 0x11

/-- Difference of two `unsigned long` clock readings (32 bits on the ESP32). -/
def msSince (now earlier : Nat) : Nat := (now + 2 ^ 32 - earlier % 2 ^ 32) % 2 ^ 32

/-- Modelled from the spec: `FragmentManager::purgeOldFragments` is declared in
`FragmentManager.h` and called by `handleDataPacket`, but its body is not among
the sources. The spec says it purges the FragmentBuffers "that have received no
new fragment within a fixed timeout, discarding partial data"; the only
timestamp a buffer carries is `firstSeenMs`, so a buffer is kept iff the clock
is at most `FRAGMENT_TIMEOUT_MS` past it. -/
def purgeOldFragments (now : Nat) (bufs : List FragmentBuffer) : List FragmentBuffer :=
  bufs.filter (fun f => decide (msSince now f.firstSeenMs ≤ FRAGMENT_TIMEOUT_MS))

/-! ## FragmentManager: sending -/

/-- The packet built by `FragmentManager::sendAck`. -/
def sendAck (c : Crypto) (seq fragId : Nat) (sessionKey : List Byte) : List Byte :=
  let pkt := [PKT_ACK] ++ be32 seq ++ be16 fragId
  pkt ++ hmacSha256Trunc16 c sessionKey pkt

/-- The packet built by `FragmentManager::sendSecureMessageFragment`. -/
def dataPacket (c : Crypto) (cipherData : List Byte) (seq fragId totalFrags : Nat)
    (iv sessionKey : List Byte) : List Byte :=
  let includeIv := fragId == 0
  let pkt := [PKT_DATA] ++ be32 seq ++ be16 fragId ++ be16 totalFrags
  let pkt := if includeIv then pkt ++ iv else pkt
  let pkt := pkt ++ cipherData
  pkt ++ hmacSha256Trunc16 c sessionKey pkt

/-- The bookkeeping of `sendSecureMessageFragment` after the packet is sent:
the packet is appended to the pending message of its sequence number (the
first one with that `seq`), which is created at the end of the list when
absent. -/
def addPending (pms : List PendingMessage) (pp : PendingPacket) (totalFrags now : Nat) :
    List PendingMessage :=
  match pms.findIdx? (fun p => p.seq == pp.seq) with
  | some i => pms.modify (fun p => { p with packets := p.packets ++ [pp] }) i
  | none =>
      pms ++ [{ seq := pp.seq, totalFrags := totalFrags, packets := [pp], firstSentMs := now }]

/-- `FragmentManager::sendSecureMessageFragment`: returns the new pending
messages and the packet handed to the radio. -/
def sendSecureMessageFragment (c : Crypto) (pms : List PendingMessage) (now : Nat)
    (cipherData : List Byte) (seq fragId totalFrags : Nat) (iv sessionKey : List Byte) :
    List PendingMessage × List Byte :=
  let pkt := dataPacket c cipherData seq fragId totalFrags iv sessionKey
  let pp : PendingPacket :=
    { seq := seq, fragId := fragId, packetData := pkt, lastSentMs := now,
      retryCount := 0, acked := false }
  (addPending pms pp totalFrags now, pkt)

/-- What `sendSecureMessage` takes from its environment: the words returned by
`esp_random()`, the reading of `millis()` when fragment `i` is sent, and the
effect on the pending messages of `waitForAck` (declared in
`FragmentManager.h`, body not among the sources; its boolean result is only
printed). -/
structure SendEnv where
  rnd : Nat → Nat
  millisAt : Nat → Nat
  waitForAck : List PendingMessage → Nat → Nat → List PendingMessage

/-- Result of `sendSecureMessage`. -/
structure SendResult where
  ret : Bool
  pendingMessages : List PendingMessage
  seqNumber : Nat
  sent : List (List Byte)

/-- The serialised plaintext of `sendSecureMessage`: `tlen = (uint16_t)
text.length()` big-endian, then the bytes of the text. -/
def serializeText (text : List Byte) : List Byte :=
  let tlen := text.length % 2 ^ 16
  [toByte ((tlen >>> 8) &&& 0xFF), toByte (tlen &&& 0xFF)] ++ text

/-- The loop `for (uint16_t fragId = 0; fragId < totalFrags; ++fragId)` of
`sendSecureMessage`, run over the fragment indices `ids`. -/
def sendFragments (c : Crypto) (env : SendEnv) (cipher : List Byte) (s totalFrags : Nat)
    (iv sessionKey : List Byte) :
    List Nat → List PendingMessage → List (List Byte) → List PendingMessage × List (List Byte)
  | [], pms, sent => (pms, sent)
  | fragId :: ids, pms, sent =>
      let cipherLen := cipher.length
      let offset := fragId * MAX_FRAGMENT_PAYLOAD
      let fragLen :=
        if offset + MAX_FRAGMENT_PAYLOAD ≤ cipherLen then MAX_FRAGMENT_PAYLOAD
        else cipherLen - offset
      let r := sendSecureMessageFragment c pms (env.millisAt fragId)
        ((cipher.drop offset).take fragLen) s fragId totalFrags iv sessionKey
      let pms := env.waitForAck r.1 s fragId
      sendFragments c env cipher s totalFrags iv sessionKey ids pms (sent ++ [r.2])

/-- `FragmentManager::sendSecureMessage`. -/
def sendSecureMessage (c : Crypto) (env : SendEnv) (pms : List PendingMessage)
    (text sessionKey : List Byte) (seqNumber : Nat) : SendResult :=
  let plain := serializeText text
  let iv := generateRandomBytes env.rnd 16
  let cipher := aesCtrCrypt c sessionKey iv plain
  let s := seqNumber
  let seqNumber := (seqNumber + 1) % 2 ^ 32
  let cipherLen := cipher.length
  let totalFrags := ((cipherLen + MAX_FRAGMENT_PAYLOAD - 1) / MAX_FRAGMENT_PAYLOAD) % 2 ^ 16
  if totalFrags == 1 then
    let r := sendSecureMessageFragment c pms (env.millisAt 0) cipher s 0 1 iv sessionKey
    { ret := true, pendingMessages := env.waitForAck r.1 s 0, seqNumber := seqNumber,
      sent := [r.2] }
  else
    let r := sendFragments c env cipher s totalFrags iv sessionKey (List.range totalFrags) pms []
    { ret := true, pendingMessages := r.1, seqNumber := seqNumber, sent := r.2 }

/-! ## FragmentManager: receiving -/

/-- Result of `handleDataPacket`: the returned boolean, the new state, the
packets handed to the radio and the message printed after decryption. -/
structure DataResult where
  ret : Bool
  fm : FragmentManager
  sent : List (List Byte)
  delivered : Option (List Byte)
  deriving DecidableEq, Repr

/-- The common tail of both branches of `handleDataPacket`: read the 2-byte
length prefix of the decrypted buffer and extract the message. -/
def extractMessage (plain : List Byte) : Option (List Byte) :=
  if plain.length < 2 then none
  else
    let tlen := rdU16 plain 0
    if plain.length < 2 + tlen then none
    else some ((plain.drop 2).take tlen)

/-- Outcome of the part of `handleDataPacket` that works on the located
buffer `fb` (lines 226-299). -/
structure FragOutcome where
  ret : Bool
  fb : FragmentBuffer
  delivered : Option (List Byte)
  deriving DecidableEq, Repr

/-- Lines 226-236 of `handleDataPacket`: a packet that carries an IV is
rejected (`none`) when the buffer already holds a different IV; otherwise the
IV is captured if the buffer has none yet. -/
def captureIv (fb : FragmentBuffer) (packetHasIv : Bool) (ivFromPacket : List Byte) :
    Option FragmentBuffer :=
  if packetHasIv then
    if fb.hasIv then
      if fb.iv != ivFromPacket then none else some fb
    else some { fb with iv := ivFromPacket, hasIv := true }
  else some fb

/-- Lines 265-299 of `handleDataPacket`: when every slot is filled, the IV is
known and the buffer is not yet complete, mark it complete, concatenate,
decrypt and extract the message. -/
def finishIfComplete (c : Crypto) (sessionKey : List Byte) (fb : FragmentBuffer) :
    FragOutcome :=
  let allReceived := fb.fragments.all (fun f => !f.isEmpty)
  if allReceived && fb.hasIv && !fb.complete then
    let fb := { fb with complete := true }
    let cipherFull := fb.fragments.flatten
    let plain := aesCtrCrypt c sessionKey fb.iv cipherFull
    match extractMessage plain with
    | none => ⟨false, fb, none⟩
    | some msg => ⟨true, fb, some msg⟩
  else ⟨false, fb, none⟩

/-- Lines 226-299 of `handleDataPacket`, on the buffer `fb` points to. -/
def storeFragment (c : Crypto) (sessionKey : List Byte) (fb : FragmentBuffer)
    (fragId : Nat) (packetHasIv : Bool) (ivFromPacket cipherFrag : List Byte) :
    FragOutcome :=
  match captureIv fb packetHasIv ivFromPacket with
  | none => ⟨false, fb, none⟩
  | some fb =>
      if fragId ≥ fb.fragments.length then ⟨false, fb, none⟩
      else if !(fb.fragments.getD fragId []).isEmpty &&
          fb.fragments.getD fragId [] == cipherFrag then
        ⟨false, fb, none⟩
      else
        finishIfComplete c sessionKey { fb with fragments := fb.fragments.set fragId cipherFrag }

/-- The IV bytes `handleDataPacket` copies out of a packet whose fragment index
is 0 (`memcpy(ivFromPacket, &packet[offset], 16)` with `offset = 9`). -/
def dataIv (packet : List Byte) : List Byte := (packet.drop 9).take 16

/-- The ciphertext bytes `handleDataPacket` takes from a packet: from `offset`
(9, or 25 when the fragment index is 0) up to the tag (`cipherFrag`). -/
def dataCipherFrag (packet : List Byte) : List Byte :=
  let macOffset := packet.length - 16
  let offset := if rdU16 packet 5 == 0 then 9 + 16 else 9
  (packet.take macOffset).drop offset

/-- The test `f.seq == seq && f.totalFrags == totalFrags` of the buffer search. -/
def bufferMatches (seq totalFrags : Nat) (f : FragmentBuffer) : Bool :=
  f.seq == seq && f.totalFrags == totalFrags

/-- The `FragmentBuffer newFb` that `handleDataPacket` creates when no buffer
matches. -/
def newFragmentBuffer (seq totalFrags now : Nat) : FragmentBuffer :=
  { seq := seq, totalFrags := totalFrags, iv := List.replicate 16 0,
    fragments := List.replicate totalFrags [], firstSeenMs := now,
    complete := false, hasIv := false }

/-- Lines 205-224 of `handleDataPacket`: search the buffer of `(seq,
totalFrags)` and create it at the end of the list when there is none. Returns
the list and the position `fb` points to. -/
def locateBuffer (bufs : List FragmentBuffer) (seq totalFrags now : Nat) :
    List FragmentBuffer × Nat :=
  match bufs.findIdx? (bufferMatches seq totalFrags) with
  | some i => (bufs, i)
  | none => (bufs ++ [newFragmentBuffer seq totalFrags now], bufs.length)

/-- `FragmentManager::handleDataPacket`, called when the clock reads `now`. -/
def handleDataPacket (c : Crypto) (fm : FragmentManager) (now : Nat)
    (packet sessionKey : List Byte) : DataResult :=
  if packet.length < 1 + 4 + 2 + 2 + 16 then ⟨false, fm, [], none⟩
  else
    let macOffset := packet.length - 16
    let macRx := packet.drop macOffset
    let macCalc := hmacSha256Trunc16 c sessionKey (packet.take macOffset)
    if macRx != macCalc then ⟨false, fm, [], none⟩
    else
      let seq := rdU32 packet 1
      let fragId := rdU16 packet 5
      let totalFrags := rdU16 packet 7
      let packetHasIv := fragId == 0
      if packetHasIv && macOffset < 9 + 16 then ⟨false, fm, [], none⟩
      else
        let ivFromPacket := if packetHasIv then dataIv packet else []
        let cipherFrag := dataCipherFrag packet
        let ack := sendAck c seq fragId sessionKey
        if totalFrags == 1 then
          if !packetHasIv then ⟨false, fm, [ack], none⟩
          else
            match extractMessage (aesCtrCrypt c sessionKey ivFromPacket cipherFrag) with
            | none => ⟨false, fm, [ack], none⟩
            | some msg => ⟨true, fm, [ack], some msg⟩
        else
          let located :=
            locateBuffer (purgeOldFragments now fm.fragmentBuffers) seq totalFrags now
          let fb := located.1.getD located.2 (newFragmentBuffer seq totalFrags now)
          let o := storeFragment c sessionKey fb fragId packetHasIv ivFromPacket cipherFrag
          ⟨o.ret, { fm with fragmentBuffers := located.1.set located.2 o.fb }, [ack], o.delivered⟩

/-- A receiver that handles the packets of `sched` one after the other, each
paired with the clock reading at which it is handled; the results are listed
in order. -/
def receiveAll (c : Crypto) (sessionKey : List Byte) :
    FragmentManager → List (Nat × List Byte) → List DataResult
  | _, [] => []
  | fm, (now, packet) :: rest =>
      let r := handleDataPacket c fm now packet sessionKey
      r :: receiveAll c sessionKey r.fm rest

/-- The ciphertext bytes of fragment `i` of a message: the slice of at most
`MAX_FRAGMENT_PAYLOAD` bytes that starts at `i * MAX_FRAGMENT_PAYLOAD`. -/
def fragmentChunk (cipher : List Byte) (i : Nat) : List Byte :=
  (cipher.drop (i * MAX_FRAGMENT_PAYLOAD)).take MAX_FRAGMENT_PAYLOAD

/-- The reassembly buffer of a message of `n` fragments after exactly the
fragments with indices in `got` have been stored, the first of them at clock
reading `t0` (used to state the invariant of reassembly). -/
def partialBuffer (s n : Nat) (iv cipher : List Byte) (t0 : Nat) (got : List Nat) :
    FragmentBuffer :=
  { seq := s, totalFrags := n,
    iv := if 0 ∈ got then iv else List.replicate 16 0,
    fragments := (List.range n).map (fun k => if k ∈ got then fragmentChunk cipher k else []),
    firstSeenMs := t0, complete := false, hasIv := decide (0 ∈ got) }

/-- The states of a `FragmentManager` that the program can be in: it starts
with no buffers, and its fragment buffers are only changed by
`handleDataPacket` and `purgeOldFragments` (the pending messages belong to the
sending side and may be anything). -/
inductive Reachable (c : Crypto) : FragmentManager → Prop
  | init (pms : List PendingMessage) : Reachable c ⟨pms, []⟩
  | data (fm : FragmentManager) (now : Nat) (packet sessionKey : List Byte) :
      Reachable c fm → Reachable c (handleDataPacket c fm now packet sessionKey).fm
  | purge (fm : FragmentManager) (now : Nat) :
      Reachable c fm →
      Reachable c { fm with fragmentBuffers := purgeOldFragments now fm.fragmentBuffers }
  | pending (fm : FragmentManager) (pms : List PendingMessage) :
      Reachable c fm → Reachable c { fm with pendingMessages := pms }

/-- What holds of every fragment buffer of a reachable state: it does not
belong to a single-fragment message (those are never buffered), and its slot 0
is only filled once its IV is known. -/
def BufferOk (fb : FragmentBuffer) : Prop :=
  fb.totalFrags ≠ 1 ∧ (fb.fragments.getD 0 [] ≠ [] → fb.hasIv = true)

/-- A packet carries a valid tag for `handleDataPacket`: it has at least
`1 + 4 + 2 + 2 + 16` bytes and its last 16 bytes are the keyed tag of the
bytes before them. -/
def validTag (c : Crypto) (sessionKey packet : List Byte) : Prop :=
  25 ≤ packet.length ∧
    packet.drop (packet.length - 16) =
      hmacSha256Trunc16 c sessionKey (packet.take (packet.length - 16))

/-! ## SecurityManager: the key pair -/

/-- The mutable members of `class SecurityManager` that the handshake uses:
the private scalar `ecdhD` and the public point `ecdhQ`, the latter represented
by its uncompressed binary encoding. -/
structure SecurityManager where
  initialized : Bool
  ecdhD : Nat
  ecdhQ : List Byte
  deriving DecidableEq, Repr

/-- `SecurityManager::generateKeypair`. `gen` is the outcome of
`mbedtls_ecp_gen_key`: the private scalar, or `none` when it fails. The key is
stored before the public point is written to the 100-byte buffer `buf`. -/
def generateKeypair (c : Crypto) (sec : SecurityManager) (gen : Option Nat) :
    SecurityManager × Option (List Byte) :=
  let sec := { sec with initialized := true }
  match gen with
  | none => (sec, none)
  | some d =>
      let sec := { sec with ecdhD := d, ecdhQ := c.pubOf d }
      if (c.pubOf d).length ≤ 100 then (sec, some (c.pubOf d)) else (sec, none)

/-- `SecurityManager::computeSharedSecret`: `ecdhD * Qp`, X coordinate. -/
def computeSharedSecret (c : Crypto) (sec : SecurityManager) (peerPub : List Byte) :
    SecurityManager × Option (List Byte) :=
  ({ sec with initialized := true }, c.ecdhRaw sec.ecdhD peerPub)

/-- `SecurityManager::exportPublicKey`. -/
def exportPublicKey (sec : SecurityManager) : Option (List Byte) :=
  if !sec.initialized then none
  else if sec.ecdhQ.length ≤ 100 then some sec.ecdhQ else none

/-! ## NVSManager: the persisted pairing state -/

/-- The two entries of the `lora_pair` namespace that hold the pairing state;
`none` is an absent entry. -/
structure NVSStore where
  sessionKey : Option (List Byte)
  isPaired : Option Bool
  deriving DecidableEq, Repr

/-- `NVSManager::savePairingState(sessionKey, 16, isPaired)`; `opens` is the
result of `nvs.begin`. Returns the store and the boolean result. -/
def nvsSavePairingState (nvs : NVSStore) (opens : Bool) (sessionKey : List Byte)
    (isPaired : Bool) : NVSStore × Bool :=
  if !opens then (nvs, false)
  else ({ sessionKey := some sessionKey, isPaired := some isPaired }, true)

/-! ## PairingManager -/

/-- `PKT_BIND_REQ`. -/
def PKT_BIND_REQ : Byte := 0x20

/-- `PKT_BIND_RESP`. -/
def PKT_BIND_RESP : Byte := 0x21

/-- `PKT_BIND_CONFIRM`. -/
def PKT_BIND_CONFIRM : Byte := 0x22

/-- The four bytes of the string literal `"RESP"`. -/
def labelRESP : List Byte := [0x52, 0x45, 0x53, 0x50]

/-- The four bytes of the string literal `"CONF"`. -/
def labelCONF : List Byte := [0x43, 0x4F, 0x4E, 0x46]

/-- The mutable members of `class PairingManager`. -/
structure PairingManager where
  paired : Bool
  sessionKey : List Byte
  pairedDeviceId : Nat
  pendingBind : Bool
  pendingInitiatorId : Nat
  pendingPubI : List Byte
  pendingNonceI : List Byte
  nonceInitiator : List Byte
  nonceResponder : List Byte
  currentPubI : List Byte
  currentPubR : List Byte
  deviceId : Nat
  deriving DecidableEq, Repr

/-- A `PairingManager` together with the `SecurityManager` and the store it
points to. -/
structure Device where
  pm : PairingManager
  sec : SecurityManager
  nvs : NVSStore
  deriving DecidableEq, Repr

/-- What the handshake takes from its environment: the words returned by
`esp_random()`, the outcome of `mbedtls_ecp_gen_key`, and whether the store
opens. -/
structure PairEnv where
  rnd : Nat → Nat
  gen : Option Nat
  nvsOpens : Bool

/-- Result of a `PairingManager` operation: the returned boolean (`true` for
the `void` ones), the new state and the packets handed to the radio. -/
structure PairResult where
  ret : Bool
  dev : Device
  sent : List (List Byte)
  deriving DecidableEq, Repr

/-- The state of a `PairingManager` right after its constructor, with the
device id set by `setDeviceId`. -/
def PairingManager.initial (deviceId : Nat) : PairingManager :=
  { paired := false, sessionKey := List.replicate 16 0, pairedDeviceId := 0,
    pendingBind := false, pendingInitiatorId := 0, pendingPubI := [],
    pendingNonceI := List.replicate 16 0, nonceInitiator := List.replicate 16 0,
    nonceResponder := List.replicate 16 0, currentPubI := [], currentPubR := [],
    deviceId := deviceId }

/-- `PairingManager::savePairingState`. -/
def savePairingState (env : PairEnv) (dev : Device) : Device :=
  { dev with nvs := (nvsSavePairingState dev.nvs env.nvsOpens dev.pm.sessionKey dev.pm.paired).1 }

/-- `PairingManager::sendBindRequest`. -/
def sendBindRequest (c : Crypto) (env : PairEnv) (dev : Device) (targetId : Nat) :
    PairResult :=
  let pm := { dev.pm with nonceInitiator := generateRandomBytes env.rnd 16 }
  match generateKeypair c dev.sec env.gen with
  | (sec, none) => ⟨false, { dev with pm := pm, sec := sec }, []⟩
  | (sec, some pubI) =>
      let pm := { pm with currentPubI := pubI }
      let pkt := [PKT_BIND_REQ] ++ be32 targetId ++ be32 pm.deviceId ++ pm.nonceInitiator ++
        [toByte pubI.length] ++ pubI
      ⟨true, { dev with pm := pm, sec := sec }, [pkt]⟩

/-- `PairingManager::sendBindResponse` (a `void` function: `ret` is `true`). -/
def sendBindResponse (c : Crypto) (env : PairEnv) (dev : Device) (initiatorId : Nat)
    (pubI : List Byte) : PairResult :=
  let pm := { dev.pm with nonceResponder := generateRandomBytes env.rnd 16 }
  match generateKeypair c dev.sec env.gen with
  | (sec, none) => ⟨true, { dev with pm := pm, sec := sec }, []⟩
  | (sec, some pubR) =>
      let pm := { pm with currentPubR := pubR }
      match computeSharedSecret c sec pubI with
      | (sec, none) => ⟨true, { dev with pm := pm, sec := sec }, []⟩
      | (sec, some shared) =>
          let tempKey := deriveSessionKeyFromShared c shared pm.pendingNonceI pm.nonceResponder
          let toMac := labelRESP ++ pm.pendingNonceI ++ pm.nonceResponder ++ pubI ++ pubR
          let mac16 := hmacSha256Trunc16 c tempKey toMac
          let pkt := [PKT_BIND_RESP] ++ be32 initiatorId ++ be32 pm.deviceId ++ pm.nonceResponder ++
            [toByte pubR.length] ++ pubR ++ mac16
          ⟨true, { dev with pm := pm, sec := sec }, [pkt]⟩

/-- `PairingManager::sendBindConfirm` (a `void` function: `ret` is `true`). -/
def sendBindConfirm (c : Crypto) (dev : Device) (pubI pubR : List Byte) : PairResult :=
  match computeSharedSecret c dev.sec pubR with
  | (sec, none) => ⟨true, { dev with sec := sec }, []⟩
  | (sec, some shared) =>
      let tempKey :=
        deriveSessionKeyFromShared c shared dev.pm.nonceInitiator dev.pm.nonceResponder
      let toMac := labelCONF ++ dev.pm.nonceInitiator ++ dev.pm.nonceResponder ++ pubI ++ pubR
      let mac16 := hmacSha256Trunc16 c tempKey toMac
      ⟨true, { dev with sec := sec }, [[PKT_BIND_CONFIRM] ++ mac16]⟩

/-- `PairingManager::acceptPendingBind`. -/
def acceptPendingBind (c : Crypto) (env : PairEnv) (dev : Device) : PairResult :=
  if !dev.pm.pendingBind then ⟨false, dev, []⟩
  else
    let dev := { dev with pm := { dev.pm with nonceInitiator := dev.pm.pendingNonceI } }
    let r := sendBindResponse c env dev dev.pm.pendingInitiatorId dev.pm.pendingPubI
    ⟨true, { r.dev with pm := { r.dev.pm with pendingBind := false } }, r.sent⟩

/-- `PairingManager::cancelPendingBind`. -/
def cancelPendingBind (dev : Device) : Device :=
  { dev with pm := { dev.pm with pendingBind := false } }

/-- `PairingManager::handleBindRequest`. -/
def handleBindRequest (dev : Device) (packet : List Byte) : PairResult :=
  if packet.length < 1 + 4 + 4 + 16 + 1 then ⟨false, dev, []⟩
  else
    let target := rdU32 packet 1
    let initId := rdU32 packet 5
    if target != dev.pm.deviceId then ⟨false, dev, []⟩
    else
      let pubLen := byteAt packet (1 + 4 + 4 + 16)
      if packet.length < 1 + 4 + 4 + 16 + 1 + pubLen then ⟨false, dev, []⟩
      else
        let pm := { dev.pm with
          pendingNonceI := (packet.drop (1 + 4 + 4)).take 16,
          pendingInitiatorId := initId,
          pendingPubI := (packet.drop (1 + 4 + 4 + 16 + 1)).take pubLen,
          pendingBind := true }
        ⟨true, { dev with pm := pm }, []⟩

/-- `PairingManager::handleBindResponse`. -/
def handleBindResponse (c : Crypto) (env : PairEnv) (dev : Device) (packet : List Byte) :
    PairResult :=
  if packet.length < 1 + 4 + 4 + 16 + 1 + 16 then ⟨false, dev, []⟩
  else
    let initId := rdU32 packet 1
    let respId := rdU32 packet 5
    if initId != dev.pm.deviceId then ⟨false, dev, []⟩
    else
      let pubLen := byteAt packet (1 + 4 + 4 + 16)
      if packet.length < 1 + 4 + 4 + 16 + 1 + pubLen + 16 then ⟨false, dev, []⟩
      else
        let pm := { dev.pm with nonceResponder := (packet.drop (1 + 4 + 4)).take 16 }
        let pubR := (packet.drop (1 + 4 + 4 + 16 + 1)).take pubLen
        let macRx := packet.drop (packet.length - 16)
        match computeSharedSecret c dev.sec pubR with
        | (sec, none) => ⟨false, { dev with pm := pm, sec := sec }, []⟩
        | (sec, some shared) =>
            let tempKey := deriveSessionKeyFromShared c shared pm.nonceInitiator pm.nonceResponder
            match exportPublicKey sec with
            | none => ⟨false, { dev with pm := pm, sec := sec }, []⟩
            | some pubI =>
                let toMac := labelRESP ++ pm.nonceInitiator ++ pm.nonceResponder ++ pubI ++ pubR
                let macCalc := hmacSha256Trunc16 c tempKey toMac
                if macRx != macCalc then ⟨false, { dev with pm := pm, sec := sec }, []⟩
                else
                  let pm := { pm with sessionKey := tempKey, paired := true,
                                      pairedDeviceId := respId }
                  let dev := savePairingState env { dev with pm := pm, sec := sec }
                  let r := sendBindConfirm c dev pubI pubR
                  ⟨true, r.dev, r.sent⟩

/-- `PairingManager::handleBindConfirm`. -/
def handleBindConfirm (c : Crypto) (env : PairEnv) (dev : Device) (packet : List Byte) :
    PairResult :=
  if packet.length < 1 + 16 then ⟨false, dev, []⟩
  else
    let macRx := (packet.drop 1).take 16
    match computeSharedSecret c dev.sec dev.pm.pendingPubI with
    | (sec, none) => ⟨false, { dev with sec := sec }, []⟩
    | (sec, some shared) =>
        let tempKey :=
          deriveSessionKeyFromShared c shared dev.pm.pendingNonceI dev.pm.nonceResponder
        match exportPublicKey sec with
        | none => ⟨false, { dev with sec := sec }, []⟩
        | some pubR =>
            let toMac := labelCONF ++ dev.pm.pendingNonceI ++ dev.pm.nonceResponder ++
              dev.pm.pendingPubI ++ pubR
            let macCalc := hmacSha256Trunc16 c tempKey toMac
            if macRx != macCalc then ⟨false, { dev with sec := sec }, []⟩
            else
              let pm := { dev.pm with sessionKey := tempKey, paired := true,
                                      pairedDeviceId := dev.pm.pendingInitiatorId }
              let dev := savePairingState env { dev with pm := pm, sec := sec }
              ⟨true, { dev with pm := { dev.pm with pendingBind := false } }, []⟩

/-- The five steps of a handshake between an initiator and a responder, each
packet being delivered unchanged: the initiator calls `sendBindRequest` for the
responder's id, the responder handles the request and accepts it, the initiator
handles the response, the responder handles the confirmation. -/
structure HandshakeRun where
  request : PairResult
  gotRequest : PairResult
  accept : PairResult
  gotResponse : PairResult
  gotConfirm : PairResult

/-- The handshake of `HandshakeRun`, run from the states `devI` and `devR`. -/
def runHandshake (c : Crypto) (envI envR : PairEnv) (devI devR : Device) : HandshakeRun :=
  let r1 := sendBindRequest c envI devI devR.pm.deviceId
  let r2 := handleBindRequest devR (r1.sent.getD 0 [])
  let r3 := acceptPendingBind c envR r2.dev
  let r4 := handleBindResponse c envI r1.dev (r3.sent.getD 0 [])
  let r5 := handleBindConfirm c envR r3.dev (r4.sent.getD 0 [])
  ⟨r1, r2, r3, r4, r5⟩

/-! ## HeartbeatManager -/

/-- `PKT_HEARTBEAT`. -/
def PKT_HEARTBEAT : Byte := 0x31

/-- `HEARTBEAT_INTERVAL_MS` of `Config.h`. -/
def HEARTBEAT_INTERVAL_MS : Nat := 10000

/-- `HEARTBEAT_TIMEOUT_MS` of `Config.h`. -/
def HEARTBEAT_TIMEOUT_MS : Nat := 30000

/-- `HeartbeatManager::STATUS_UPDATE_INTERVAL_MS`. -/
def STATUS_UPDATE_INTERVAL_MS : Nat := 500

/-- The mutable members of `class HeartbeatManager`; the three clock readings
are `unsigned long` values of the 32-bit millisecond clock. -/
structure HeartbeatManager where
  lastHeartbeatSentMs : Nat
  lastHeartbeatReceivedMs : Nat
  lastStatusUpdateMs : Nat
  lastOnlineStateSent : Bool
  deriving DecidableEq, Repr

/-- The state of a `HeartbeatManager` right after its constructor. -/
def HeartbeatManager.initial : HeartbeatManager :=
  { lastHeartbeatSentMs := 0, lastHeartbeatReceivedMs := 0, lastStatusUpdateMs := 0,
    lastOnlineStateSent := false }

/-- `HeartbeatManager::sendHeartbeat`: the packet handed to the radio. -/
def sendHeartbeat (c : Crypto) (deviceId : Nat) (sessionKey : List Byte) : List Byte :=
  let pkt := [PKT_HEARTBEAT] ++ be32 deviceId
  pkt ++ hmacSha256Trunc16 c sessionKey pkt

/-- `HeartbeatManager::sendHeartbeatIfDue`, called when the clock reads `now`:
the new state and the packets handed to the radio. -/
def sendHeartbeatIfDue (c : Crypto) (hb : HeartbeatManager) (now deviceId : Nat)
    (sessionKey : List Byte) (isPaired isTransmitting : Bool) :
    HeartbeatManager × List (List Byte) :=
  if !isPaired then (hb, [])
  else if isTransmitting then (hb, [])
  else if msSince now hb.lastHeartbeatSentMs < HEARTBEAT_INTERVAL_MS then (hb, [])
  else ({ hb with lastHeartbeatSentMs := now }, [sendHeartbeat c deviceId sessionKey])

/-- Result of `handleHeartbeat`: the returned boolean, the new state and the
value left in the caller's `pairedDeviceId`, which is passed by reference. -/
structure HeartbeatResult where
  ret : Bool
  hb : HeartbeatManager
  pairedDeviceId : Nat
  deriving DecidableEq, Repr

/-- `HeartbeatManager::handleHeartbeat`, called when the clock reads `now`. -/
def handleHeartbeat (c : Crypto) (hb : HeartbeatManager) (now : Nat)
    (packet sessionKey : List Byte) (deviceId pairedDeviceId : Nat) : HeartbeatResult :=
  if packet.length < 1 + 4 + 16 then ⟨false, hb, pairedDeviceId⟩
  else
    let senderId := rdU32 packet 1
    if senderId == deviceId then ⟨false, hb, pairedDeviceId⟩
    else
      let macRx := packet.drop (packet.length - 16)
      let macCalc := hmacSha256Trunc16 c sessionKey (packet.take (packet.length - 16))
      if macRx != macCalc then ⟨false, hb, pairedDeviceId⟩
      else
        let hb := { hb with lastHeartbeatReceivedMs := now }
        let wasOnline := hb.lastOnlineStateSent == true
        let pairedDeviceId :=
          if pairedDeviceId == 0 || pairedDeviceId != senderId then senderId else pairedDeviceId
        let hb := if !wasOnline then { hb with lastOnlineStateSent := true } else hb
        ⟨true, hb, pairedDeviceId⟩

/-- `HeartbeatManager::isPairedDeviceOnline`, called when the clock reads
`now`. -/
def isPairedDeviceOnline (hb : HeartbeatManager) (now : Nat) : Bool :=
  if hb.lastHeartbeatReceivedMs == 0 then false
  else decide (msSince now hb.lastHeartbeatReceivedMs < HEARTBEAT_TIMEOUT_MS)

/-- `HeartbeatManager::updateAndSendOnlineStatus`, called when the clock reads
`now` (it only prints `pairedDeviceId`). -/
def updateAndSendOnlineStatus (hb : HeartbeatManager) (now : Nat) (isPaired : Bool)
    (_pairedDeviceId : Nat) : HeartbeatManager :=
  if msSince now hb.lastStatusUpdateMs < STATUS_UPDATE_INTERVAL_MS then hb
  else
    let hb := { hb with lastStatusUpdateMs := now }
    if !isPaired then
      if hb.lastOnlineStateSent != false then { hb with lastOnlineStateSent := false } else hb
    else
      let online := isPairedDeviceOnline hb now
      if online != hb.lastOnlineStateSent then { hb with lastOnlineStateSent := online } else hb

/-! ## DiscoveryManager -/

/-- `PKT_BEACON`. -/
def PKT_BEACON : Byte := 0x30

/-- `DISCOVERY_TTL_MS` of `Config.h`. -/
def DISCOVERY_TTL_MS : Nat := 15000

/-- `struct DiscoveredDevice`. The member `snr` is a `float`; the only value the
program ever stores in it is the literal `0.0`, written `0` here. -/
structure DiscoveredDevice where
  id : Nat
  rssi : Int
  snr : Int
  lastSeenMs : Nat
  deriving DecidableEq, Repr

/-- The mutable members of `class DiscoveryManager`. -/
structure DiscoveryManager where
  pairingMode : Bool
  lastBeaconMs : Nat
  lastDiscoveryPrintMs : Nat
  discovered : List DiscoveredDevice
  deriving DecidableEq, Repr

/-- The loop of `upsertDiscovered`: the first entry with this id is updated. -/
def updateFirst (id : Nat) (rssi snr : Int) (now : Nat) :
    List DiscoveredDevice → List DiscoveredDevice
  | [] => []
  | d :: rest =>
      if d.id == id then { d with rssi := rssi, snr := snr, lastSeenMs := now } :: rest
      else d :: updateFirst id rssi snr now rest

/-- `DiscoveryManager::upsertDiscovered`, called when the clock reads `now`. -/
def upsertDiscovered (disc : DiscoveryManager) (now id : Nat) (rssi snr : Int) :
    DiscoveryManager :=
  if disc.discovered.any (fun d => d.id == id) then
    { disc with discovered := updateFirst id rssi snr now disc.discovered }
  else { disc with discovered := disc.discovered ++ [⟨id, rssi, snr, now⟩] }

/-- The loop of `purgeDiscovered` over the entries not yet visited: an entry
that is at most `DISCOVERY_TTL_MS` old is pushed at the end of `keep`. -/
def purgeLoop (now : Nat) :
    List DiscoveredDevice → List DiscoveredDevice → List DiscoveredDevice
  | [], keep => keep
  | d :: rest, keep =>
      if msSince now d.lastSeenMs ≤ DISCOVERY_TTL_MS then purgeLoop now rest (keep ++ [d])
      else purgeLoop now rest keep

/-- `DiscoveryManager::purgeDiscovered`, called when the clock reads `now`:
`discovered.swap(keep)` after the loop. -/
def purgeDiscovered (disc : DiscoveryManager) (now : Nat) : DiscoveryManager :=
  { disc with discovered := purgeLoop now disc.discovered [] }

/-- `DiscoveryManager::handleBeacon`, called when the clock reads `now`. -/
def handleBeacon (disc : DiscoveryManager) (now : Nat) (packet : List Byte) (deviceId : Nat) :
    Bool × DiscoveryManager :=
  if packet.length < 1 + 4 then (false, disc)
  else
    let id := rdU32 packet 1
    if id == deviceId then (false, disc)
    else (true, upsertDiscovered disc now id (-100) 0)

/-! ## PacketHandler -/

/-- The four managers a `PacketHandler` points to. -/
structure System where
  dev : Device
  fm : FragmentManager
  hb : HeartbeatManager
  disc : DiscoveryManager

/-- Result of `handlePacket`: the returned boolean, the new state of the
managers, the packets handed to the radio and the message printed by
`handleDataPacket`. -/
structure PacketResult where
  ret : Bool
  sys : System
  sent : List (List Byte)
  delivered : Option (List Byte)

/-- `FragmentManager::handleAck(packet, sessionKey)` is declared in the header
but its body is not among the sources; `handlePacket` takes it as a parameter:
the returned boolean and the new state of the `FragmentManager`. -/
abbrev AckHandler := FragmentManager → List Byte → List Byte → Bool × FragmentManager

/-- The test of `findPacketType`: the byte is one of the seven packet types. -/
def isPacketType (b : Byte) : Bool :=
  b == PKT_BIND_REQ || b == PKT_BIND_RESP || b == PKT_BIND_CONFIRM || b == PKT_DATA ||
    b == PKT_BEACON || b == PKT_ACK || b == PKT_HEARTBEAT

/-- The loop of `findPacketType` from index `i` on, for at most `fuel` more
indices: the type found and its offset, or `(0, 0)`. -/
def findPacketTypeFrom (buffer : List Byte) : Nat → Nat → Byte × Nat
  | _, 0 => (0, 0)
  | i, fuel + 1 =>
      if i < buffer.length ∧ i < 5 then
        if isPacketType (buffer.getD i 0) then (buffer.getD i 0, i)
        else findPacketTypeFrom buffer (i + 1) fuel
      else (0, 0)

/-- `PacketHandler::findPacketType`: the returned type and `typeOffset`. -/
def findPacketType (buffer : List Byte) : Byte × Nat :=
  findPacketTypeFrom buffer 0 5

/-- The `switch` of `handlePacket` on the type found, applied to the adjusted
packet. -/
def dispatchPacket (c : Crypto) (env : PairEnv) (handleAck : AckHandler) (now : Nat)
    (sys : System) (type : Byte) (adjustedPacket : List Byte) (deviceId : Nat)
    (isPaired : Bool) (sessionKey : List Byte) : PacketResult :=
  if type == PKT_BIND_REQ then
    let r := handleBindRequest sys.dev adjustedPacket
    ⟨r.ret, { sys with dev := r.dev }, r.sent, none⟩
  else if type == PKT_BIND_RESP then
    let r := handleBindResponse c env sys.dev adjustedPacket
    ⟨r.ret, { sys with dev := r.dev }, r.sent, none⟩
  else if type == PKT_BIND_CONFIRM then
    let r := handleBindConfirm c env sys.dev adjustedPacket
    ⟨r.ret, { sys with dev := r.dev }, r.sent, none⟩
  else if type == PKT_BEACON then
    let r := handleBeacon sys.disc now adjustedPacket deviceId
    ⟨r.1, { sys with disc := r.2 }, [], none⟩
  else if type == PKT_HEARTBEAT then
    if !isPaired then ⟨false, sys, [], none⟩
    else
      let tempPairedDeviceId := sys.dev.pm.pairedDeviceId
      let r := handleHeartbeat c sys.hb now adjustedPacket sessionKey deviceId tempPairedDeviceId
      ⟨r.ret, { sys with hb := r.hb }, [], none⟩
  else if type == PKT_DATA then
    if !isPaired then ⟨false, sys, [], none⟩
    else
      let r := handleDataPacket c sys.fm now adjustedPacket sessionKey
      ⟨r.ret, { sys with fm := r.fm }, r.sent, r.delivered⟩
  else if type == PKT_ACK then
    if !isPaired then ⟨false, sys, [], none⟩
    else
      let r := handleAck sys.fm adjustedPacket sessionKey
      ⟨r.1, { sys with fm := r.2 }, [], none⟩
  else ⟨false, sys, [], none⟩

/-- `PacketHandler::handlePacket`, called when the clock reads `now`; the
argument `pairingMgr` is the `PairingManager` of `sys`. -/
def handlePacket (c : Crypto) (env : PairEnv) (handleAck : AckHandler) (now : Nat)
    (sys : System) (packet : List Byte) (deviceId : Nat) (isPaired : Bool)
    (sessionKey : List Byte) : PacketResult :=
  if packet.isEmpty then ⟨false, sys, [], none⟩
  else
    let found := findPacketType packet
    if found.1 == 0 then ⟨false, sys, [], none⟩
    else
      let adjustedPacket := if found.2 > 0 then packet.drop found.2 else packet
      dispatchPacket c env handleAck now sys found.1 adjustedPacket deviceId isPaired sessionKey

/-! ## DiscoveryManager: beacons and the periodic display -/

/-- `BEACON_INTERVAL_MS` of `Config.h`. -/
def BEACON_INTERVAL_MS : Nat := 3000

/-- `DiscoveryManager::DISCOVERY_PRINT_INTERVAL_MS`, which is
`DISCOVERY_DISPLAY_MS` of `Config.h`. -/
def DISCOVERY_PRINT_INTERVAL_MS : Nat := 5000

/-- The state of a `DiscoveryManager` right after its constructor. -/
def DiscoveryManager.initial : DiscoveryManager :=
  { pairingMode := false, lastBeaconMs := 0, lastDiscoveryPrintMs := 0, discovered := [] }

/-- `DiscoveryManager::setPairingMode`. -/
def setPairingMode (disc : DiscoveryManager) (enabled : Bool) : DiscoveryManager :=
  { disc with pairingMode := enabled }

/-- `DiscoveryManager::sendBeaconIfDue`, called when the clock reads `now`: the
new state and the packets handed to the radio. -/
def sendBeaconIfDue (disc : DiscoveryManager) (now deviceId : Nat) :
    DiscoveryManager × List (List Byte) :=
  if !disc.pairingMode then (disc, [])
  else if msSince now disc.lastBeaconMs < BEACON_INTERVAL_MS then (disc, [])
  else ({ disc with lastBeaconMs := now }, [[PKT_BEACON] ++ be32 deviceId])

/-- `DiscoveryManager::printDiscoveredIfDue`, called when the clock reads `now`
(the printing itself changes nothing). -/
def printDiscoveredIfDue (disc : DiscoveryManager) (now : Nat) : DiscoveryManager :=
  if !disc.pairingMode then disc
  else if msSince now disc.lastDiscoveryPrintMs < DISCOVERY_PRINT_INTERVAL_MS then disc
  else purgeDiscovered { disc with lastDiscoveryPrintMs := now } now

/-- The states of the `DiscoveryManager` of a device whose id is `deviceId`: it
starts as its constructor leaves it and is only changed by its member
functions. -/
inductive DiscReachable (deviceId : Nat) : DiscoveryManager → Prop
  | init : DiscReachable deviceId DiscoveryManager.initial
  | mode (disc : DiscoveryManager) (enabled : Bool) :
      DiscReachable deviceId disc → DiscReachable deviceId (setPairingMode disc enabled)
  | sendBeacon (disc : DiscoveryManager) (now : Nat) :
      DiscReachable deviceId disc → DiscReachable deviceId (sendBeaconIfDue disc now deviceId).1
  | beacon (disc : DiscoveryManager) (now : Nat) (packet : List Byte) :
      DiscReachable deviceId disc →
      DiscReachable deviceId (handleBeacon disc now packet deviceId).2
  | purge (disc : DiscoveryManager) (now : Nat) :
      DiscReachable deviceId disc → DiscReachable deviceId (purgeDiscovered disc now)
  | print (disc : DiscoveryManager) (now : Nat) :
      DiscReachable deviceId disc → DiscReachable deviceId (printDiscoveredIfDue disc now)

/-! ## LoRaModule: the send limit -/

/-- `MAX_SEND_SIZE` of `LoRaModule::sendPacket`. -/
def MAX_SEND_SIZE : Nat := 200

/-- The two tests `LoRaModule::sendPacket` makes before it hands a packet to
the radio: the packet is not empty and not longer than `MAX_SEND_SIZE`. -/
def sendPacketAccepts (data : List Byte) : Bool :=
  if data.isEmpty then false
  else if data.length > MAX_SEND_SIZE then false
  else true

/-! ## MessageProtocol -/

/-- `PROTOCOL_HEADER_SIZE`. -/
def PROTOCOL_HEADER_SIZE : Nat := 3

/-- `PROTOCOL_MAX_DATA_SIZE`. -/
def PROTOCOL_MAX_DATA_SIZE : Nat := 249

/-- `struct ProtocolMessage`; `data` is the array of `PROTOCOL_MAX_DATA_SIZE`
bytes. -/
structure ProtocolMessage where
  type : Byte
  sourceId : Byte
  dataSize : Byte
  data : List Byte
  valid : Bool
  deriving DecidableEq, Repr

/-- The effect of `memcpy(&buf[i], src, src.length)` on a buffer that is large
enough. -/
def writeAt (buf : List Byte) (i : Nat) (src : List Byte) : List Byte :=
  buf.take i ++ src ++ buf.drop (i + src.length)

/-- `MessageProtocol::encodeMessage`: the output buffer after the call and the
returned size. `data` is `none` for a null pointer; `dataSize` is a `uint8_t`
and `output` is the buffer the caller provides, which "doit être assez grand". -/
def encodeMessage (type sourceId : Byte) (data : Option (List Byte)) (dataSize : Nat)
    (output : List Byte) : List Byte × Nat :=
  let dataSize := if dataSize > PROTOCOL_MAX_DATA_SIZE then PROTOCOL_MAX_DATA_SIZE else dataSize
  let output := ((output.set 0 type).set 1 sourceId).set 2 (toByte dataSize)
  let output :=
    match data with
    | some bytes => if dataSize > 0 then writeAt output 3 (bytes.take dataSize) else output
    | none => output
  (output, PROTOCOL_HEADER_SIZE + dataSize)

/-- `MessageProtocol::decodeMessage`: the returned boolean and `*msg` after the
call. -/
def decodeMessage (buffer : List Byte) (bufferSize : Nat) (msg : ProtocolMessage) :
    Bool × ProtocolMessage :=
  let msg := { msg with valid := false }
  if bufferSize < PROTOCOL_HEADER_SIZE then (false, msg)
  else
    let msg := { msg with
      type := buffer.getD 0 0,
      sourceId := buffer.getD 1 0,
      dataSize := buffer.getD 2 0 }
    if msg.dataSize.val > PROTOCOL_MAX_DATA_SIZE then (false, msg)
    else if bufferSize < PROTOCOL_HEADER_SIZE + msg.dataSize.val then (false, msg)
    else
      let msg :=
        if msg.dataSize.val > 0 then
          { msg with data := writeAt msg.data 0 ((buffer.drop 3).take msg.dataSize.val) }
        else msg
      (true, { msg with valid := true })

/-! ## handleDataPacket with checked accesses

The definitions above read a byte that is out of bounds as 0 and let a store
into a missing slot do nothing. To state that `handleDataPacket` never makes
such an access, it is written once more with every access to the packet and to
the slots of a buffer checked: the result is `none` as soon as an index lies
outside the vector it is applied to. -/

/-- The expression `packet[i]`, defined only for `i < packet.size()`. -/
def readChecked (p : List Byte) (i : Nat) : Option Nat :=
  match p[i]? with
  | some b => some b.val
  | none => none

/-- The bytes `[a, b)` of a vector, read by `memcpy`, through `data()` or
through an iterator pair: defined only for `a ≤ b ≤ size`. -/
def sliceChecked (p : List Byte) (a b : Nat) : Option (List Byte) :=
  if a ≤ b ∧ b ≤ p.length then some ((p.take b).drop a) else none

/-- The expression of `rdU32` with its four reads checked. -/
def rdU32Checked (p : List Byte) (i : Nat) : Option Nat :=
  match readChecked p i, readChecked p (i + 1), readChecked p (i + 2), readChecked p (i + 3) with
  | some b0, some b1, some b2, some b3 =>
      some ((b0 <<< 24) ||| (b1 <<< 16) ||| (b2 <<< 8) ||| b3)
  | _, _, _, _ => none

/-- The expression of `rdU16` with its two reads checked. -/
def rdU16Checked (p : List Byte) (i : Nat) : Option Nat :=
  match readChecked p i, readChecked p (i + 1) with
  | some b0, some b1 => some ((b0 <<< 8) ||| b1)
  | _, _ => none

/-- Lines 226-299 of `handleDataPacket` as in `storeFragment`, with the read
`fb->fragments[fragId]` and the store `fb->fragments[fragId] = cipherFrag`
checked against the number of slots. -/
def storeFragmentChecked (c : Crypto) (sessionKey : List Byte) (fb : FragmentBuffer)
    (fragId : Nat) (packetHasIv : Bool) (ivFromPacket cipherFrag : List Byte) :
    Option FragOutcome :=
  match captureIv fb packetHasIv ivFromPacket with
  | none => some ⟨false, fb, none⟩
  | some fb =>
      if fragId ≥ fb.fragments.length then some ⟨false, fb, none⟩
      else
        match fb.fragments[fragId]? with
        | none => none
        | some slot =>
            if !slot.isEmpty && slot == cipherFrag then some ⟨false, fb, none⟩
            else if fragId < fb.fragments.length then
              some (finishIfComplete c sessionKey
                { fb with fragments := fb.fragments.set fragId cipherFrag })
            else none

/-- `FragmentManager::handleDataPacket` as in `handleDataPacket`, with every
read of the packet, the access to the located buffer and the accesses to its
slots checked. -/
def handleDataPacketChecked (c : Crypto) (fm : FragmentManager) (now : Nat)
    (packet sessionKey : List Byte) : Option DataResult :=
  if packet.length < 1 + 4 + 2 + 2 + 16 then some ⟨false, fm, [], none⟩
  else
    let macOffset := packet.length - 16
    match sliceChecked packet macOffset (macOffset + 16), sliceChecked packet 0 macOffset with
    | some macRx, some body =>
        let macCalc := hmacSha256Trunc16 c sessionKey body
        if macRx != macCalc then some ⟨false, fm, [], none⟩
        else
          match rdU32Checked packet 1, rdU16Checked packet 5, rdU16Checked packet 7 with
          | some seq, some fragId, some totalFrags =>
              let packetHasIv := fragId == 0
              if packetHasIv && macOffset < 9 + 16 then some ⟨false, fm, [], none⟩
              else
                match (if packetHasIv then sliceChecked packet 9 (9 + 16) else some []),
                    sliceChecked packet (if packetHasIv then 9 + 16 else 9) macOffset with
                | some ivFromPacket, some cipherFrag =>
                    let ack := sendAck c seq fragId sessionKey
                    if totalFrags == 1 then
                      if !packetHasIv then some ⟨false, fm, [ack], none⟩
                      else
                        match extractMessage
                            (aesCtrCrypt c sessionKey ivFromPacket cipherFrag) with
                        | none => some ⟨false, fm, [ack], none⟩
                        | some msg => some ⟨true, fm, [ack], some msg⟩
                    else
                      let located :=
                        locateBuffer (purgeOldFragments now fm.fragmentBuffers) seq totalFrags
                          now
                      match located.1[located.2]? with
                      | none => none
                      | some fb =>
                          match storeFragmentChecked c sessionKey fb fragId packetHasIv
                              ivFromPacket cipherFrag with
                          | none => none
                          | some o =>
                              some ⟨o.ret,
                                { fm with fragmentBuffers := located.1.set located.2 o.fb },
                                [ack], o.delivered⟩
                | _, _ => none
          | _, _, _ => none
    | _, _ => none

/-! ## A concrete instance of the primitives

Closed examples need primitives that compute. `xorCrypto` is a stand-in with
the algebraic properties the theorems assume of the real ones: its cipher is
an involution (XOR with a fixed byte), its digest depends on its input, and
its key agreement is commutative (multiplication modulo 251). -/

/-- A concrete instance of the primitives, for closed examples. -/
def xorCrypto : Crypto where
  sha256Raw := fun d => List.replicate 32 (toByte (d.foldl (fun a b => 3 * a + b.val + 1) 0))
  aesCtrRaw := fun _ _ d => d.map (fun b => toByte (b.val ^^^ 0x5A))
  pubOf := fun d => [toByte (d % 251)]
  ecdhRaw := fun d p => some [toByte ((d * (p.headD 0).val) % 251)]

/-- An environment for closed examples: fixed random words and clock readings,
and a `waitForAck` that leaves the pending messages alone. -/
def demoEnv : SendEnv :=
  { rnd := fun i => 7 * i + 3, millisAt := fun i => 1000 + 50 * i,
    waitForAck := fun pms _ _ => pms }

/-- A 16-byte session key for closed examples. -/
def demoKey : List Byte := List.replicate 16 7

/-- A text of 400 bytes. -/
def text400 : List Byte := List.replicate 400 0x41

/-- The packets `sendSecureMessage` emits for `text400` with sequence number 5. -/
def sent400 : List (List Byte) :=
  (sendSecureMessage xorCrypto demoEnv [] text400 demoKey 5).sent

/-- The packets of `sent400` in the arrival order 2, 0, 1, with clock readings. -/
def arrival201 : List (Nat × List Byte) :=
  [(1000, sent400.getD 2 []), (1200, sent400.getD 0 []), (1300, sent400.getD 1 [])]

/-- A text of 65536 bytes, one more than a 16-bit length can express. -/
def text65536 : List Byte := List.replicate 65536 0x41

/-- The packets `sendSecureMessage` emits for `text65536`, each paired with the
clock reading 1000, in the order they are sent. -/
def arrival65536 : List (Nat × List Byte) :=
  (sendSecureMessage xorCrypto demoEnv [] text65536 demoKey 0).sent.map (fun p => (1000, p))

/-- A two-byte text, which fits in a single fragment. -/
def textHi : List Byte := [0x68, 0x69]

/-- The single DATA packet `sendSecureMessage` emits for `textHi` with sequence
number 9. -/
def packetHi : List Byte :=
  (sendSecureMessage xorCrypto demoEnv [] textHi demoKey 9).sent.getD 0 []

/-- A DATA packet that declares sequence number 9, fragment 0 of 1, with an
IV and four ciphertext bytes, whose last 16 bytes are not the keyed tag of the
bytes before them under `xorCrypto` and `demoKey`. -/
def packetBadTag : List Byte :=
  [0x10, 0, 0, 0, 9, 0, 0, 0, 1] ++ List.replicate 16 0 ++ [1, 2, 3, 4] ++ List.replicate 16 0

/-- A receiver that holds, for the message `(seq, totalFrags) = (0, 2)`,
fragment 1 with the one-byte content `01` (first seen at clock reading 0). -/
def fmCollision : FragmentManager :=
  { pendingMessages := [],
    fragmentBuffers :=
      [{ seq := 0, totalFrags := 2, iv := List.replicate 16 0, fragments := [[], [0x01]],
         firstSeenMs := 0, complete := false, hasIv := false }] }

/-- A validly tagged DATA packet for fragment 1 of the message `(0, 2)` with
the one-byte content `02`. -/
def packetCollision : List Byte :=
  dataPacket xorCrypto [0x02] 0 1 2 (List.replicate 16 0) demoKey

/-- The state of a fresh receiver after it handled `packetCollision` at clock
reading 0: one buffer for `(0, 2)` whose slot 1 holds `02`. -/
def fmAfterCollision : FragmentManager :=
  (handleDataPacket xorCrypto ⟨[], []⟩ 0 packetCollision demoKey).fm

/-- The buffer of `fmAfterCollision`. -/
def fbAfterCollision : FragmentBuffer :=
  { seq := 0, totalFrags := 2, iv := List.replicate 16 0, fragments := [[], [0x02]],
    firstSeenMs := 0, complete := false, hasIv := false }

/-- A validly tagged DATA packet for fragment 0 of the message `(0, 2)`, with
the IV of sixteen bytes `01` and the one-byte content `07`. -/
def packetFrag0A : List Byte :=
  dataPacket xorCrypto [0x07] 0 0 2 (List.replicate 16 1) demoKey

/-- As `packetFrag0A`, but with the IV of sixteen bytes `02`. -/
def packetFrag0B : List Byte :=
  dataPacket xorCrypto [0x07] 0 0 2 (List.replicate 16 2) demoKey

/-- The state of a fresh receiver after it handled `packetFrag0A` at clock
reading 0: one buffer for `(0, 2)` that has captured the IV `01 .. 01`. -/
def fmAfterFrag0 : FragmentManager :=
  (handleDataPacket xorCrypto ⟨[], []⟩ 0 packetFrag0A demoKey).fm

/-- The buffer of `fmAfterFrag0`. -/
def fbAfterFrag0 : FragmentBuffer :=
  { seq := 0, totalFrags := 2, iv := List.replicate 16 1, fragments := [[0x07], []],
    firstSeenMs := 0, complete := false, hasIv := true }

/-- A device right after start-up: a fresh `PairingManager` with the given
id, a `SecurityManager` initialised by `init` that has no key pair yet (private
scalar 0, public point at infinity, which is written as the single byte 0), and
an empty store. -/
def freshDevice (deviceId : Nat) : Device :=
  { pm := PairingManager.initial deviceId,
    sec := { initialized := true, ecdhD := 0, ecdhQ := [0] },
    nvs := { sessionKey := none, isPaired := none } }

/-- An environment for closed examples in which key generation yields the
private scalar `d` and the store opens. -/
def demoPairEnv (d : Nat) : PairEnv :=
  { rnd := fun i => 11 * i + d, gen := some d, nvsOpens := true }

/-- The device `0x33334444` after it once called `sendBindRequest` (for the
device `0x55556666`), which left it with the key pair of the private scalar 7;
it is not paired and has no pending request. -/
def deviceWithKey : Device :=
  (sendBindRequest xorCrypto (demoPairEnv 7) (freshDevice 0x33334444) 0x55556666).dev

/-- A BIND_REQUEST addressed to `0x33334444` from `0x66667777`, with the nonce
`09 .. 09` and the public key of the private scalar 5. -/
def requestFromStranger : List Byte :=
  [PKT_BIND_REQ] ++ be32 0x33334444 ++ be32 0x66667777 ++ List.replicate 16 9 ++
    [toByte (xorCrypto.pubOf 5).length] ++ xorCrypto.pubOf 5

/-- A BIND_CONFIRM whose tag is sixteen zero bytes. -/
def confirmBadTag : List Byte := [PKT_BIND_CONFIRM] ++ List.replicate 16 0

/-- A BIND_RESPONSE addressed to `0x33334444` from `0x66667777`, with the nonce
`09 .. 09` and the public key of the private scalar 5, whose tag is sixteen
zero bytes. -/
def responseBadTag : List Byte :=
  [PKT_BIND_RESP] ++ be32 0x33334444 ++ be32 0x66667777 ++ List.replicate 16 9 ++
    [toByte (xorCrypto.pubOf 5).length] ++ xorCrypto.pubOf 5 ++ List.replicate 16 0

/-- The device `deviceWithKey` after it handled `requestFromStranger`: the
request is pending and has not been accepted. -/
def devicePending : Device := (handleBindRequest deviceWithKey requestFromStranger).dev

/-- The BIND_CONFIRM a stranger who holds the private scalar 5 builds for
`devicePending` from what it has seen on the air: its own nonce and public
key, and the public key (that of the private scalar 7) and the responder nonce
(sixteen zero bytes) of the device. -/
def confirmFromStranger : List Byte :=
  [PKT_BIND_CONFIRM] ++
    hmacSha256Trunc16 xorCrypto
      (deriveSessionKeyFromShared xorCrypto ((xorCrypto.ecdhRaw 5 (xorCrypto.pubOf 7)).getD [])
        (List.replicate 16 9) (List.replicate 16 0))
      (labelCONF ++ List.replicate 16 9 ++ List.replicate 16 0 ++ xorCrypto.pubOf 5 ++
        xorCrypto.pubOf 7)

/-- A DATA packet with a valid tag under `xorCrypto` and `demoKey` that declares
sequence number 0 and fragment index 5 of a message of 2 fragments, with one
ciphertext byte. -/
def packetIndex5of2 : List Byte :=
  dataPacket xorCrypto [0xAA] 0 5 2 (List.replicate 16 0) demoKey

/-- An environment for closed examples in which key generation fails. -/
def demoPairEnvNoKey : PairEnv :=
  { rnd := fun i => 11 * i, gen := none, nvsOpens := true }

/-- An environment for closed examples in which key generation yields the
private scalar `d` and the store does not open. -/
def demoPairEnvNoStore (d : Nat) : PairEnv :=
  { rnd := fun i => 11 * i + d, gen := some d, nvsOpens := false }

/-- The device `devicePending` with another initiator id in its pending
request: `0x12345678` instead of `0x66667777`. -/
def devicePendingOther : Device :=
  { devicePending with pm := { devicePending.pm with pendingInitiatorId := 0x12345678 } }

/-- A stand-in for `handleAck` in closed examples: it accepts nothing and
changes nothing. -/
def demoAck : AckHandler := fun fm _ _ => (false, fm)

/-- The managers of the device `0x33334444` for closed examples: the pairing
state `devicePending`, no pending messages and no fragment buffers, and the
heartbeat and discovery managers as their constructors leave them. -/
def demoSystem : System :=
  { dev := devicePending, fm := ⟨[], []⟩, hb := HeartbeatManager.initial,
    disc := { pairingMode := false, lastBeaconMs := 0, lastDiscoveryPrintMs := 0,
              discovered := [] } }

/-- The heartbeat the device `0x66667777` sends under `xorCrypto` and
`demoKey`. -/
def heartbeatFromPeer : List Byte := sendHeartbeat xorCrypto 0x66667777 demoKey

/-- A heartbeat state for closed examples: the last heartbeat was received at
clock reading 1000, the peer is reported online, and the last status check ran
at clock reading 30000. -/
def hbStale : HeartbeatManager :=
  { lastHeartbeatSentMs := 0, lastHeartbeatReceivedMs := 1000, lastStatusUpdateMs := 30000,
    lastOnlineStateSent := true }

/-- The primitives of `xorCrypto`, except that the key agreement fails on an
empty public key, as `mbedtls_ecp_point_read_binary` does on an input of length
0. -/
def strictCrypto : Crypto :=
  { xorCrypto with
    ecdhRaw := fun d p => if p.isEmpty then none else xorCrypto.ecdhRaw d p }

/-- A BIND_REQUEST of 26 bytes addressed to `0x33334444` from `0x66667777`,
with the nonce `09 .. 09` and a public key of length 0. -/
def requestEmptyKey : List Byte :=
  [PKT_BIND_REQ] ++ be32 0x33334444 ++ be32 0x66667777 ++ List.replicate 16 9 ++ [0]

/-- The device `deviceWithKey` after it handled `requestEmptyKey`: the request
is pending. -/
def devicePendingEmptyKey : Device := (handleBindRequest deviceWithKey requestEmptyKey).dev

/-- The managers of the device `0x33334444` after a restart: `loadPairingState`
restored the paired flag and the session key `demoKey`, the paired peer id is
0, and the other managers are as their constructors leave them. -/
def systemAfterBoot : System :=
  { dev :=
      { freshDevice 0x33334444 with
        pm := { PairingManager.initial 0x33334444 with paired := true, sessionKey := demoKey } },
    fm := ⟨[], []⟩, hb := HeartbeatManager.initial, disc := DiscoveryManager.initial }

/-- A heartbeat of 21 bytes from `0x66667777` whose tag is sixteen zero
bytes. -/
def heartbeatBadTag : List Byte := [PKT_HEARTBEAT] ++ be32 0x66667777 ++ List.replicate 16 0

/-- The beacon the device `0x66667777` sends. -/
def beaconFromPeer : List Byte := [PKT_BEACON] ++ be32 0x66667777

/-- A discovered-peer table for closed examples: `0x11112222` seen at clock
reading 1000, `0x66667777` at 9000 and `0x55556666` at 20000. -/
def discThree : DiscoveryManager :=
  { pairingMode := true, lastBeaconMs := 0, lastDiscoveryPrintMs := 0,
    discovered := [⟨0x11112222, -100, 0, 1000⟩, ⟨0x66667777, -100, 0, 9000⟩,
      ⟨0x55556666, -100, 0, 20000⟩] }

/-- A text of 10223615 bytes for closed examples: with its two-byte prefix it
needs 65537 fragments. -/
def textWrapsToOne : List Byte := List.replicate 10223615 0

/-! # Theorems -/

/-! ## Bytes -/

theorem fixLen_length (n : Nat) (l : List Byte) : (fixLen n l).length = n := by
  simp only [fixLen, List.length_append, List.length_take, List.length_replicate]
  omega

theorem hmac_length (c : Crypto) (key msg : List Byte) :
    (hmacSha256Trunc16 c key msg).length = 16 := by
  simp [hmacSha256Trunc16, sha256, fixLen_length]

theorem aesCtrCrypt_length (c : Crypto) (key iv inp : List Byte) :
    (aesCtrCrypt c key iv inp).length = inp.length := by
  simp [aesCtrCrypt, fixLen_length]

theorem toByte_and_val (v : Nat) : (toByte (v &&& 0xFF)).val = v % 256 := by
  have h : v &&& 0xFF = v % 2 ^ 8 := Nat.and_pow_two_sub_one_eq_mod v 8
  simp only [toByte, h]
  omega

theorem rd16_eq (hi lo : Nat) (hlo : lo < 256) : (hi <<< 8) ||| lo = hi * 256 + lo := by
  have h := Nat.mul_add_lt_is_or (i := 8) (b := lo) (by simpa using hlo) hi
  rw [Nat.shiftLeft_eq]
  rw [show hi * 2 ^ 8 = 2 ^ 8 * hi by ring, ← h]
  ring

theorem rdU16_cons (a b : Byte) (l : List Byte) :
    rdU16 (a :: b :: l) 0 = a.val * 256 + b.val := by
  simp only [rdU16, byteAt, List.getD_cons_zero, List.getD_cons_succ, zero_add]
  exact rd16_eq a.val b.val b.isLt

theorem rdU16_be16 (x : Nat) (hx : x < 65536) (l : List Byte) :
    rdU16 (be16 x ++ l) 0 = x := by
  simp only [be16, List.cons_append, List.nil_append, rdU16_cons, toByte_and_val,
    Nat.shiftRight_eq_div_pow]
  omega

theorem rd32_eq (b0 b1 b2 b3 : Nat) (h1 : b1 < 256) (h2 : b2 < 256) (h3 : b3 < 256) :
    (b0 <<< 24) ||| (b1 <<< 16) ||| (b2 <<< 8) ||| b3
      = b0 * 2 ^ 24 + b1 * 2 ^ 16 + b2 * 2 ^ 8 + b3 := by
  simp only [Nat.shiftLeft_eq]
  have e1 := Nat.mul_add_lt_is_or (i := 24) (b := b1 * 2 ^ 16) (by omega) b0
  have e2 := Nat.mul_add_lt_is_or (i := 16) (b := b2 * 2 ^ 8) (by omega) (b0 * 2 ^ 8 + b1)
  have e3 := Nat.mul_add_lt_is_or (i := 8) (b := b3) (by omega) (b0 * 2 ^ 16 + b1 * 2 ^ 8 + b2)
  have a1 : b0 * 2 ^ 24 = 2 ^ 24 * b0 := by ring
  have a2 : 2 ^ 16 * (b0 * 2 ^ 8 + b1) = 2 ^ 24 * b0 + b1 * 2 ^ 16 := by ring
  have a3 : 2 ^ 8 * (b0 * 2 ^ 16 + b1 * 2 ^ 8 + b2) = 2 ^ 24 * b0 + b1 * 2 ^ 16 + b2 * 2 ^ 8 := by
    ring
  rw [a1, ← e1, ← a2, ← e2, a2, ← a3, ← e3, a3]

theorem rdU32_be32 (x : Nat) (hx : x < 2 ^ 32) (a : Byte) (l : List Byte) :
    rdU32 (a :: (be32 x ++ l)) 1 = x := by
  simp only [be32, List.cons_append, List.nil_append, rdU32, byteAt, List.getD_cons_zero,
    List.getD_cons_succ, toByte_and_val, Nat.shiftRight_eq_div_pow]
  rw [rd32_eq _ _ _ _ (Nat.mod_lt _ (by decide)) (Nat.mod_lt _ (by decide))
    (Nat.mod_lt _ (by decide))]
  omega

theorem rdU16_at5 (a0 a1 a2 a3 a4 x y : Byte) (l : List Byte) :
    rdU16 (a0 :: a1 :: a2 :: a3 :: a4 :: x :: y :: l) 5 = x.val * 256 + y.val := by
  simp only [rdU16, byteAt, List.getD_cons_zero, List.getD_cons_succ]
  exact rd16_eq x.val y.val y.isLt

theorem rdU16_at7 (a0 a1 a2 a3 a4 a5 a6 x y : Byte) (l : List Byte) :
    rdU16 (a0 :: a1 :: a2 :: a3 :: a4 :: a5 :: a6 :: x :: y :: l) 7 = x.val * 256 + y.val := by
  simp only [rdU16, byteAt, List.getD_cons_zero, List.getD_cons_succ]
  exact rd16_eq x.val y.val y.isLt

theorem be16_val (x : Nat) (hx : x < 65536) :
    ∃ a b : Byte, be16 x = [a, b] ∧ a.val * 256 + b.val = x := by
  refine ⟨_, _, rfl, ?_⟩
  simp only [toByte_and_val, Nat.shiftRight_eq_div_pow]
  omega

/-! ## Lists -/

theorem findIdx_some_spec {α : Type} (p : α → Bool) (d : α) :
    ∀ (l : List α) (i : Nat), l.findIdx? p = some i →
      ∃ x, l.find? p = some x ∧ l.getD i d = x ∧ l.get? i = some x ∧ p x = true := by
  intro l
  induction l with
  | nil => intro i h; simp at h
  | cons a l ih =>
    intro i h
    rw [List.findIdx?_cons] at h
    by_cases ha : p a = true
    · simp only [ha, if_true, Option.some.injEq] at h
      subst h
      exact ⟨a, by simp [List.find?, ha], by simp, by simp, ha⟩
    · rw [if_neg ha, zero_add, List.findIdx?_succ] at h
      cases hj : l.findIdx? p with
      | none => simp [hj] at h
      | some j =>
        simp only [hj, Option.map_some', Option.some.injEq] at h
        subst h
        obtain ⟨x, h1, h2, h3, h4⟩ := ih j hj
        refine ⟨x, ?_, ?_, ?_, h4⟩
        · simp [List.find?, ha, h1]
        · simpa using h2
        · simpa using h3

theorem findIdx_none_spec {α : Type} (p : α → Bool) (l : List α)
    (h : l.findIdx? p = none) : l.find? p = none := by
  rw [List.findIdx?_eq_none_iff] at h
  rw [List.find?_eq_none]
  intro x hx
  simp [h x hx]

theorem find_set_of_findIdx {α : Type} (p : α → Bool) (y : α) (hy : p y = true) :
    ∀ (l : List α) (i : Nat), l.findIdx? p = some i → (l.set i y).find? p = some y := by
  intro l
  induction l with
  | nil => intro i h; simp at h
  | cons a l ih =>
    intro i h
    rw [List.findIdx?_cons] at h
    by_cases ha : p a = true
    · simp only [ha, if_true, Option.some.injEq] at h
      subst h
      simp [List.find?, hy]
    · rw [if_neg ha, zero_add, List.findIdx?_succ] at h
      cases hj : l.findIdx? p with
      | none => simp [hj] at h
      | some j =>
        simp only [hj, Option.map_some', Option.some.injEq] at h
        subst h
        simp [List.find?, ha, ih j hj]

theorem find_filter_some {α : Type} (p q : α → Bool) (x : α) (hq : q x = true) :
    ∀ (l : List α), l.find? p = some x → (l.filter q).find? p = some x := by
  intro l
  induction l with
  | nil => intro h; simp at h
  | cons a l ih =>
    intro h
    by_cases ha : p a = true
    · have hax : a = x := by simpa [List.find?, ha] using h
      subst hax
      simp [List.filter, hq, List.find?, ha]
    · have h' : l.find? p = some x := by simpa [List.find?, ha] using h
      by_cases hqa : q a = true
      · simp [List.filter, hqa, List.find?, ha, ih h']
      · simp [List.filter, hqa, ih h']

theorem find_filter_none {α : Type} (p q : α → Bool) (l : List α)
    (h : l.find? p = none) : (l.filter q).find? p = none := by
  rw [List.find?_eq_none] at h ⊢
  intro x hx
  exact h x (List.mem_filter.mp hx).1

/-! ## The receiving side, one packet -/

theorem captureIv_some (fb fb1 : FragmentBuffer) (h : Bool) (iv : List Byte)
    (hc : captureIv fb h iv = some fb1) :
    fb1.seq = fb.seq ∧ fb1.totalFrags = fb.totalFrags ∧ fb1.fragments = fb.fragments ∧
    fb1.firstSeenMs = fb.firstSeenMs ∧ fb1.complete = fb.complete ∧
    (fb.hasIv = true → fb1 = fb) ∧ (h = false → fb1 = fb) ∧
    (h = true → fb1.hasIv = true ∧ fb1.iv = iv) := by
  unfold captureIv at hc
  split at hc
  · split at hc
    · split at hc
      · simp at hc
      · rename_i h1 h2 h3
        simp only [Option.some.injEq] at hc
        subst hc
        simp only [bne_iff_ne, ne_eq, Decidable.not_not] at h3
        simp [h1, h2, h3]
    · rename_i h1 h2
      simp only [Option.some.injEq] at hc
      subst hc
      simp [h1, h2]
  · rename_i h1
    simp only [Option.some.injEq] at hc
    subst hc
    simp [h1]

theorem finishIfComplete_fb (c : Crypto) (key : List Byte) (fb : FragmentBuffer) :
    (finishIfComplete c key fb).fb = fb ∨
    (finishIfComplete c key fb).fb = { fb with complete := true } := by
  unfold finishIfComplete
  simp only []
  split
  · split <;> simp
  · simp

theorem storeFragment_key (c : Crypto) (key : List Byte) (fb : FragmentBuffer) (fragId : Nat)
    (hasIv : Bool) (iv chunk : List Byte) :
    (storeFragment c key fb fragId hasIv iv chunk).fb.seq = fb.seq ∧
    (storeFragment c key fb fragId hasIv iv chunk).fb.totalFrags = fb.totalFrags := by
  unfold storeFragment
  cases hc : captureIv fb hasIv iv with
  | none => simp
  | some fb1 =>
    obtain ⟨h1, h2, -⟩ := captureIv_some _ _ _ _ hc
    simp only []
    split
    · exact ⟨h1, h2⟩
    · split
      · exact ⟨h1, h2⟩
      · rcases finishIfComplete_fb c key { fb1 with fragments := fb1.fragments.set fragId chunk } with h | h
          <;> rw [h] <;> exact ⟨h1, h2⟩

theorem bufferMatches_iff (s n : Nat) (f : FragmentBuffer) :
    bufferMatches s n f = true ↔ f.seq = s ∧ f.totalFrags = n := by
  simp [bufferMatches]

/-- What the search of `locateBuffer` finds, and what replacing the located
buffer by another one with the same key does. -/
theorem locateBuffer_spec (bufs : List FragmentBuffer) (seq total now : Nat) :
    (locateBuffer bufs seq total now).1.getD (locateBuffer bufs seq total now).2
        (newFragmentBuffer seq total now) =
      (bufs.find? (bufferMatches seq total)).getD (newFragmentBuffer seq total now) ∧
    ∀ y, bufferMatches seq total y = true →
      ((locateBuffer bufs seq total now).1.set (locateBuffer bufs seq total now).2 y).find?
        (bufferMatches seq total) = some y := by
  unfold locateBuffer
  cases hf : bufs.findIdx? (bufferMatches seq total) with
  | none =>
    have hnone := findIdx_none_spec _ _ hf
    refine ⟨by simp [hnone, List.getD_eq_getElem?_getD], ?_⟩
    intro y hy
    simp [List.find?_append, hnone, hy]
  | some i =>
    obtain ⟨x, h1, h2, h3, h4⟩ := findIdx_some_spec _ (newFragmentBuffer seq total now) _ _ hf
    refine ⟨by simp only [h1, Option.getD_some]; exact h2, ?_⟩
    intro y hy
    exact find_set_of_findIdx _ y hy _ _ hf

theorem handle_multi (c : Crypto) (fm : FragmentManager) (now : Nat) (P key : List Byte)
    (hv : validTag c key P) (hm : rdU16 P 7 ≠ 1)
    (h0 : rdU16 P 5 = 0 → 25 ≤ P.length - 16) :
    ∃ (o : FragOutcome) (bufs : List FragmentBuffer),
      o = storeFragment c key
        (((purgeOldFragments now fm.fragmentBuffers).find?
            (bufferMatches (rdU32 P 1) (rdU16 P 7))).getD
          (newFragmentBuffer (rdU32 P 1) (rdU16 P 7) now))
        (rdU16 P 5) (rdU16 P 5 == 0)
        (if rdU16 P 5 == 0 then dataIv P else []) (dataCipherFrag P) ∧
      handleDataPacket c fm now P key =
        ⟨o.ret, ⟨fm.pendingMessages, bufs⟩, [sendAck c (rdU32 P 1) (rdU16 P 5) key],
          o.delivered⟩ ∧
      bufs.find? (bufferMatches (rdU32 P 1) (rdU16 P 7)) = some o.fb ∧
      bufs = (locateBuffer (purgeOldFragments now fm.fragmentBuffers) (rdU32 P 1) (rdU16 P 7)
        now).1.set (locateBuffer (purgeOldFragments now fm.fragmentBuffers) (rdU32 P 1)
        (rdU16 P 7) now).2 o.fb := by
  obtain ⟨hlen, htag⟩ := hv
  have h1 : ¬ (P.length < 1 + 4 + 2 + 2 + 16) := by omega
  have h3 : ¬ ((rdU16 P 5 == 0 && decide (P.length - 16 < 9 + 16)) = true) := by
    intro h
    simp only [Bool.and_eq_true, beq_iff_eq, decide_eq_true_eq] at h
    have := h0 h.1
    omega
  have h4 : ¬ ((rdU16 P 7 == 1) = true) := by simpa using hm
  obtain ⟨hl1, hl2⟩ := locateBuffer_spec (purgeOldFragments now fm.fragmentBuffers)
    (rdU32 P 1) (rdU16 P 7) now
  refine ⟨_, _, rfl, ?_, ?_, rfl⟩
  · unfold handleDataPacket
    rw [if_neg h1]
    simp only [htag, bne_self_eq_false, Bool.false_eq_true, if_false]
    rw [if_neg h3, if_neg h4, hl1]
  · apply hl2
    have hkey := storeFragment_key c key
      (((purgeOldFragments now fm.fragmentBuffers).find?
            (bufferMatches (rdU32 P 1) (rdU16 P 7))).getD
          (newFragmentBuffer (rdU32 P 1) (rdU16 P 7) now)) (rdU16 P 5) (rdU16 P 5 == 0)
      (if rdU16 P 5 == 0 then dataIv P else []) (dataCipherFrag P)
    have hfbkey : bufferMatches (rdU32 P 1) (rdU16 P 7)
        (((purgeOldFragments now fm.fragmentBuffers).find?
            (bufferMatches (rdU32 P 1) (rdU16 P 7))).getD
          (newFragmentBuffer (rdU32 P 1) (rdU16 P 7) now)) = true := by
      cases hfind : (purgeOldFragments now fm.fragmentBuffers).find?
            (bufferMatches (rdU32 P 1) (rdU16 P 7)) with
      | none => simp [bufferMatches, newFragmentBuffer]
      | some x => simpa using List.find?_some hfind
    have hk := (bufferMatches_iff _ _ _).mp hfbkey
    exact (bufferMatches_iff _ _ _).mpr ⟨hkey.1.trans hk.1, hkey.2.trans hk.2⟩

/-! ## Packets built by the sender, as the receiver reads them -/

theorem take_drop_tag (body tag : List Byte) (h : tag.length = 16) :
    (body ++ tag).take ((body ++ tag).length - 16) = body ∧
    (body ++ tag).drop ((body ++ tag).length - 16) = tag := by
  have e : (body ++ tag).length - 16 = body.length := by simp [h]
  rw [e]
  exact ⟨List.take_left' rfl, List.drop_left' rfl⟩

/-- The bytes of a DATA packet before its tag. -/
theorem dataPacket_eq (c : Crypto) (chunk : List Byte) (s i n : Nat) (iv key : List Byte) :
    dataPacket c chunk s i n iv key =
      (PKT_DATA :: (be32 s ++ (be16 i ++ (be16 n ++ ((if i = 0 then iv else []) ++ chunk))))) ++
        hmacSha256Trunc16 c key
          (PKT_DATA :: (be32 s ++ (be16 i ++ (be16 n ++ ((if i = 0 then iv else []) ++ chunk))))) := by
  unfold dataPacket
  by_cases hi : i = 0 <;> simp [hi]

theorem dataPacket_parse (c : Crypto) (chunk : List Byte) (s i n : Nat) (iv key : List Byte)
    (hs : s < 2 ^ 32) (hi : i < 65536) (hn : n < 65536) (hiv : iv.length = 16) :
    validTag c key (dataPacket c chunk s i n iv key) ∧
    (dataPacket c chunk s i n iv key).length = 9 + (if i = 0 then 16 else 0) + chunk.length + 16 ∧
    rdU32 (dataPacket c chunk s i n iv key) 1 = s ∧
    rdU16 (dataPacket c chunk s i n iv key) 5 = i ∧
    rdU16 (dataPacket c chunk s i n iv key) 7 = n ∧
    (i = 0 → dataIv (dataPacket c chunk s i n iv key) = iv) ∧
    dataCipherFrag (dataPacket c chunk s i n iv key) = chunk := by
  have hlen : (dataPacket c chunk s i n iv key).length =
      9 + (if i = 0 then 16 else 0) + chunk.length + 16 := by
    rw [dataPacket_eq]
    by_cases h : i = 0 <;> simp [h, hmac_length, be32, be16, hiv] <;> omega
  obtain ⟨ht, hd⟩ := take_drop_tag
    (PKT_DATA :: (be32 s ++ (be16 i ++ (be16 n ++ ((if i = 0 then iv else []) ++ chunk)))))
    (hmacSha256Trunc16 c key
      (PKT_DATA :: (be32 s ++ (be16 i ++ (be16 n ++ ((if i = 0 then iv else []) ++ chunk))))))
    (hmac_length _ _ _)
  rw [← dataPacket_eq] at ht hd
  obtain ⟨a, b, hab, habv⟩ := be16_val i hi
  obtain ⟨a', b', hab', habv'⟩ := be16_val n hn
  have h5 : rdU16 (dataPacket c chunk s i n iv key) 5 = i := by
    rw [dataPacket_eq, hab]
    simp only [be32, List.cons_append, List.nil_append, rdU16_at5]
    exact habv
  have h7 : rdU16 (dataPacket c chunk s i n iv key) 7 = n := by
    rw [dataPacket_eq, hab, hab']
    simp only [be32, List.cons_append, List.nil_append, rdU16_at7]
    exact habv'
  refine ⟨⟨by rw [hlen]; omega, ?_⟩, hlen, ?_, h5, h7, ?_, ?_⟩
  · rw [hd, ht]
  · rw [dataPacket_eq, List.cons_append, List.append_assoc]
    exact rdU32_be32 s hs _ _
  · intro h0
    unfold dataIv
    rw [dataPacket_eq, hab, hab']
    simp only [h0, if_true, be32, List.cons_append, List.nil_append]
    show List.take 16 (iv ++ chunk ++ _) = iv
    rw [List.append_assoc]
    exact List.take_left' hiv
  · unfold dataCipherFrag
    simp only [h5, ht]
    rw [hab, hab']
    by_cases h0 : i = 0
    · simp only [h0, beq_self_eq_true, if_true, be32, List.cons_append, List.nil_append]
      show List.drop 16 (iv ++ chunk) = chunk
      exact List.drop_left' hiv
    · simp [h0, be32]

/-! ## The sending side -/

theorem sendFragments_sent (c : Crypto) (env : SendEnv) (cipher : List Byte) (s n : Nat)
    (iv key : List Byte) :
    ∀ (ids : List Nat) (pms : List PendingMessage) (sent : List (List Byte)),
      (sendFragments c env cipher s n iv key ids pms sent).2 =
        sent ++ ids.map (fun i => dataPacket c (fragmentChunk cipher i) s i n iv key) := by
  intro ids
  induction ids with
  | nil => intro pms sent; simp [sendFragments]
  | cons i ids ih =>
    intro pms sent
    simp only [sendFragments, sendSecureMessageFragment, List.map_cons]
    rw [ih]
    have hchunk : (List.take
        (if i * MAX_FRAGMENT_PAYLOAD + MAX_FRAGMENT_PAYLOAD ≤ cipher.length then
          MAX_FRAGMENT_PAYLOAD else cipher.length - i * MAX_FRAGMENT_PAYLOAD)
        (List.drop (i * MAX_FRAGMENT_PAYLOAD) cipher)) = fragmentChunk cipher i := by
      unfold fragmentChunk
      split
      · rfl
      · rw [List.take_of_length_le (by simp), List.take_of_length_le (by simp; omega)]
    rw [hchunk]
    simp

theorem fragmentChunk_flatten (cipher : List Byte) :
    ∀ n, ((List.range n).map (fragmentChunk cipher)).flatten =
      cipher.take (n * MAX_FRAGMENT_PAYLOAD) := by
  intro n
  induction n with
  | zero => simp
  | succ n ih =>
    rw [List.range_succ, List.map_append, List.flatten_append, ih]
    simp only [List.map_cons, List.map_nil, List.flatten_cons, List.flatten_nil,
      List.append_nil, fragmentChunk]
    rw [Nat.succ_mul, List.take_add]

theorem fragmentChunk_length (cipher : List Byte) (i : Nat) :
    (fragmentChunk cipher i).length =
      min MAX_FRAGMENT_PAYLOAD (cipher.length - i * MAX_FRAGMENT_PAYLOAD) := by
  simp [fragmentChunk]

/-- The plaintext buffer is the 2-byte length followed by the text. -/
theorem serializeText_length (text : List Byte) :
    (serializeText text).length = text.length + 2 := by
  simp [serializeText]

theorem extractMessage_serializeText (text : List Byte) :
    extractMessage (serializeText text) = some (text.take (text.length % 2 ^ 16)) := by
  have hl := serializeText_length text
  have hm : text.length % 2 ^ 16 < 2 ^ 16 := Nat.mod_lt _ (by decide)
  have hr : rdU16 (serializeText text) 0 = text.length % 2 ^ 16 := by
    have := rdU16_be16 (text.length % 2 ^ 16) hm text
    simpa [serializeText, be16] using this
  unfold extractMessage
  rw [hr, hl]
  have hle : text.length % 2 ^ 16 ≤ text.length := Nat.mod_le _ _
  rw [if_neg (by omega), if_neg (by omega)]
  simp [serializeText]

/-- The DATA packets of a message, in the order they are sent. -/
theorem sendSecureMessage_sent (c : Crypto) (env : SendEnv) (pms : List PendingMessage)
    (text key : List Byte) (seqNumber : Nat)
    (hwrap : (text.length + 2 + MAX_FRAGMENT_PAYLOAD - 1) / MAX_FRAGMENT_PAYLOAD < 2 ^ 16) :
    (sendSecureMessage c env pms text key seqNumber).sent =
      (List.range ((text.length + 2 + MAX_FRAGMENT_PAYLOAD - 1) / MAX_FRAGMENT_PAYLOAD)).map
        (fun i => dataPacket c
          (fragmentChunk (aesCtrCrypt c key (generateRandomBytes env.rnd 16) (serializeText text)) i)
          seqNumber i ((text.length + 2 + MAX_FRAGMENT_PAYLOAD - 1) / MAX_FRAGMENT_PAYLOAD)
          (generateRandomBytes env.rnd 16) key) := by
  have hcl : (aesCtrCrypt c key (generateRandomBytes env.rnd 16) (serializeText text)).length =
      text.length + 2 := by rw [aesCtrCrypt_length, serializeText_length]
  unfold sendSecureMessage
  simp only [hcl, Nat.mod_eq_of_lt hwrap]
  split
  · rename_i h1
    have h1' : (text.length + 2 + MAX_FRAGMENT_PAYLOAD - 1) / MAX_FRAGMENT_PAYLOAD = 1 := by
      simpa using h1
    rw [h1']
    have hr1 : List.range 1 = [0] := rfl
    simp only [sendSecureMessageFragment, hr1, List.map_cons, List.map_nil]
    have : fragmentChunk (aesCtrCrypt c key (generateRandomBytes env.rnd 16) (serializeText text)) 0
        = aesCtrCrypt c key (generateRandomBytes env.rnd 16) (serializeText text) := by
      unfold fragmentChunk
      rw [Nat.zero_mul, List.drop_zero, List.take_of_length_le]
      rw [hcl]
      unfold MAX_FRAGMENT_PAYLOAD at h1' ⊢
      omega
    rw [this]
  · simp only [sendFragments_sent, List.nil_append]

/-! ## Reassembly: the invariant -/

theorem partial_set (cipher : List Byte) (n i : Nat) (got : List Nat) :
    ((List.range n).map (fun k => if k ∈ got then fragmentChunk cipher k else [])).set i
        (fragmentChunk cipher i) =
      (List.range n).map (fun k => if k ∈ i :: got then fragmentChunk cipher k else []) := by
  apply List.ext_getElem
  · simp
  · intro j h1 h2
    simp only [List.length_set, List.length_map, List.length_range] at h1
    rw [List.getElem_set]
    by_cases hij : i = j
    · subst hij
      simp
    · simp only [hij, if_false, List.getElem_map, List.getElem_range, List.mem_cons]
      have : ¬ j = i := fun h => hij h.symm
      simp [this]

/-- Storing a fragment that is not yet in the buffer leads to the buffer with
one more fragment, followed by the completion test. -/
theorem store_partial (c : Crypto) (key : List Byte) (s n : Nat) (iv cipher : List Byte)
    (t0 i : Nat) (got : List Nat) (hi : i < n) (hnot : i ∉ got) :
    storeFragment c key (partialBuffer s n iv cipher t0 got) i (i == 0)
        (if i == 0 then iv else []) (fragmentChunk cipher i) =
      finishIfComplete c key (partialBuffer s n iv cipher t0 (i :: got)) := by
  have hcap : captureIv (partialBuffer s n iv cipher t0 got) (i == 0) (if i == 0 then iv else [])
      = some { partialBuffer s n iv cipher t0 got with
          iv := if 0 ∈ i :: got then iv else List.replicate 16 0,
          hasIv := decide (0 ∈ i :: got) } := by
    unfold captureIv
    by_cases h0 : i = 0
    · subst h0
      simp [partialBuffer, hnot]
    · have h0' : ¬ 0 = i := fun h => h0 h.symm
      simp [partialBuffer, h0, h0']
  unfold storeFragment
  rw [hcap]
  simp only []
  have hlen : (partialBuffer s n iv cipher t0 got).fragments.length = n := by
    simp [partialBuffer]
  rw [if_neg (by rw [hlen]; omega)]
  have hslot : (partialBuffer s n iv cipher t0 got).fragments.getD i [] = [] := by
    simp [partialBuffer, List.getD_eq_getElem?_getD, hi, hnot]
  rw [hslot]
  simp only [List.isEmpty_nil, Bool.not_true, Bool.false_and, Bool.false_eq_true, if_false]
  congr 1
  simp only [partialBuffer, partial_set]

theorem finish_partial_incomplete (c : Crypto) (key : List Byte) (s n : Nat)
    (iv cipher : List Byte) (t0 : Nat) (got : List Nat) (k : Nat) (hk : k < n)
    (hnot : k ∉ got) :
    finishIfComplete c key (partialBuffer s n iv cipher t0 got) =
      ⟨false, partialBuffer s n iv cipher t0 got, none⟩ := by
  unfold finishIfComplete
  have hall : (partialBuffer s n iv cipher t0 got).fragments.all (fun f => !f.isEmpty) = false := by
    rw [List.all_eq_false]
    refine ⟨[], ?_, by simp⟩
    simp only [partialBuffer, List.mem_map, List.mem_range]
    exact ⟨k, hk, by simp [hnot]⟩
  simp [hall]

theorem finish_partial_complete (c : Crypto) (key : List Byte) (s n : Nat)
    (iv cipher : List Byte) (t0 : Nat) (got : List Nat) (msg : List Byte) (hn : 0 < n)
    (hall : ∀ k, k < n → k ∈ got)
    (hne : ∀ k, k < n → fragmentChunk cipher k ≠ [])
    (hmsg : extractMessage (aesCtrCrypt c key iv
      ((List.range n).map (fragmentChunk cipher)).flatten) = some msg) :
    finishIfComplete c key (partialBuffer s n iv cipher t0 got) =
      ⟨true, { partialBuffer s n iv cipher t0 got with complete := true }, some msg⟩ := by
  have hfr : (partialBuffer s n iv cipher t0 got).fragments =
      (List.range n).map (fragmentChunk cipher) := by
    simp only [partialBuffer]
    apply List.map_congr_left
    intro k hk
    simp [hall k (List.mem_range.mp hk)]
  have h0 : 0 ∈ got := hall 0 hn
  have hiv : (partialBuffer s n iv cipher t0 got).iv = iv := by simp [partialBuffer, h0]
  have hhas : (partialBuffer s n iv cipher t0 got).hasIv = true := by simp [partialBuffer, h0]
  have hcomp : (partialBuffer s n iv cipher t0 got).complete = false := rfl
  have hallr : (partialBuffer s n iv cipher t0 got).fragments.all (fun f => !f.isEmpty) = true := by
    rw [hfr, List.all_eq_true]
    intro x hx
    obtain ⟨k, hk, rfl⟩ := List.mem_map.mp hx
    have := hne k (List.mem_range.mp hk)
    simpa using this
  have hallr' := hallr
  rw [hfr] at hallr'
  unfold finishIfComplete
  simp only [hallr, hallr', hhas, hcomp, Bool.not_false, Bool.and_self, if_true, hiv, hfr, hmsg]

theorem newFragmentBuffer_eq_partial (s n : Nat) (iv cipher : List Byte) (now : Nat) :
    newFragmentBuffer s n now = partialBuffer s n iv cipher now [] := by
  simp only [newFragmentBuffer, partialBuffer, List.not_mem_nil, if_false, decide_False]
  congr 1
  apply List.ext_getElem <;> simp

/-- One fragment of the message, handled by a receiver whose buffer for the
message (after the purge) holds exactly the fragments in `got`. -/
theorem handle_fragment (c : Crypto) (fm : FragmentManager) (now : Nat) (key : List Byte)
    (s n : Nat) (iv cipher : List Byte) (t i : Nat) (got : List Nat)
    (hs : s < 2 ^ 32) (hn : n < 65536) (hn1 : n ≠ 1) (hi : i < n) (hnot : i ∉ got)
    (hiv : iv.length = 16)
    (hfind : ((purgeOldFragments now fm.fragmentBuffers).find? (bufferMatches s n)).getD
      (newFragmentBuffer s n now) = partialBuffer s n iv cipher t got) :
    (handleDataPacket c fm now (dataPacket c (fragmentChunk cipher i) s i n iv key) key).ret =
      (finishIfComplete c key (partialBuffer s n iv cipher t (i :: got))).ret ∧
    (handleDataPacket c fm now (dataPacket c (fragmentChunk cipher i) s i n iv key) key).delivered =
      (finishIfComplete c key (partialBuffer s n iv cipher t (i :: got))).delivered ∧
    (handleDataPacket c fm now (dataPacket c (fragmentChunk cipher i) s i n iv key)
        key).fm.fragmentBuffers.find? (bufferMatches s n) =
      some (finishIfComplete c key (partialBuffer s n iv cipher t (i :: got))).fb := by
  obtain ⟨hv, hlen, h1, h5, h7, hiv0, hcf⟩ :=
    dataPacket_parse c (fragmentChunk cipher i) s i n iv key hs (by omega) hn hiv
  have h0 : rdU16 (dataPacket c (fragmentChunk cipher i) s i n iv key) 5 = 0 →
      25 ≤ (dataPacket c (fragmentChunk cipher i) s i n iv key).length - 16 := by
    intro h
    rw [h5] at h
    rw [hlen, if_pos h]
    omega
  obtain ⟨o, bufs, ho, hr, hf, -⟩ := handle_multi c fm now _ key hv (by rw [h7]; exact hn1) h0
  rw [h1, h5, h7, hcf, hfind] at ho
  have hivarg : (if (i == 0) = true then
      dataIv (dataPacket c (fragmentChunk cipher i) s i n iv key) else []) =
      (if (i == 0) = true then iv else []) := by
    by_cases hi0 : i = 0
    · rw [hiv0 hi0]
    · simp [hi0]
  rw [hivarg, store_partial c key s n iv cipher t i got hi hnot] at ho
  rw [h1, h7] at hf
  rw [hr, ← ho]
  exact ⟨rfl, rfl, hf⟩

theorem msSince_self (t : Nat) : msSince t t = 0 := by
  unfold msSince
  have h : t % 2 ^ 32 ≤ t := Nat.mod_le _ _
  have e : t + 2 ^ 32 - t % 2 ^ 32 = 2 ^ 32 * (t / 2 ^ 32 + 1) := by
    have := Nat.div_add_mod t (2 ^ 32)
    omega
  rw [e]
  exact Nat.mul_mod_right _ _

/-- A buffer that is within the timeout survives the purge and is still the
one the search finds. -/
theorem find_purge (now : Nat) (bufs : List FragmentBuffer) (s n : Nat) (fb : FragmentBuffer)
    (hf : bufs.find? (bufferMatches s n) = some fb)
    (ht : msSince now fb.firstSeenMs ≤ FRAGMENT_TIMEOUT_MS) :
    (purgeOldFragments now bufs).find? (bufferMatches s n) = some fb := by
  unfold purgeOldFragments
  exact find_filter_some _ _ fb (by simpa using ht) bufs hf

/-- The remaining fragments of a message, handled in any order by a receiver
whose buffer already holds the fragments in `got`: only the last call returns
true, and it delivers the message. -/
theorem run_fragments (c : Crypto) (key : List Byte) (s n : Nat) (iv cipher : List Byte)
    (t0 : Nat) (msg : List Byte)
    (hs : s < 2 ^ 32) (hn : n < 65536) (hn1 : n ≠ 1) (hiv : iv.length = 16)
    (hne : ∀ k, k < n → fragmentChunk cipher k ≠ [])
    (hmsg : extractMessage (aesCtrCrypt c key iv
      ((List.range n).map (fragmentChunk cipher)).flatten) = some msg) :
    ∀ (is : List Nat) (sched : List (Nat × List Byte)) (got : List Nat) (fm : FragmentManager),
      is ≠ [] →
      sched.map Prod.snd = is.map (fun i => dataPacket c (fragmentChunk cipher i) s i n iv key) →
      (is ++ got).Nodup → (∀ k, k < n ↔ k ∈ is ++ got) →
      fm.fragmentBuffers.find? (bufferMatches s n) = some (partialBuffer s n iv cipher t0 got) →
      (∀ x ∈ sched, msSince x.1 t0 ≤ FRAGMENT_TIMEOUT_MS) →
      (receiveAll c key fm sched).map (fun r => r.ret) =
          List.replicate (is.length - 1) false ++ [true] ∧
      (receiveAll c key fm sched).map (fun r => r.delivered) =
          List.replicate (is.length - 1) none ++ [some msg] := by
  intro is
  induction is with
  | nil => intro sched got fm h; exact absurd rfl h
  | cons i is ih =>
    intro sched got fm _ hsched hnd hmem hfind htime
    cases sched with
    | nil => simp at hsched
    | cons x sched =>
      obtain ⟨now, p⟩ := x
      simp only [List.map_cons, List.cons.injEq] at hsched
      obtain ⟨hp, hrest⟩ := hsched
      subst hp
      have hi : i < n := (hmem i).mpr (by simp)
      have hnot : i ∉ got := by
        intro h
        have := (List.nodup_cons.mp hnd).1
        exact this (List.mem_append_right _ h)
      have hpos : 0 < n := by omega
      have hfp := find_purge now fm.fragmentBuffers s n _ hfind
        (htime (now, _) (List.mem_cons_self _ _))
      obtain ⟨hr, hd, hf⟩ := handle_fragment c fm now key s n iv cipher t0 i got hs hn hn1 hi hnot
        hiv (by rw [hfp]; rfl)
      cases is with
      | nil =>
        have hs0 : sched = [] := by simpa using hrest
        subst hs0
        have hall : ∀ k, k < n → k ∈ i :: got := by
          intro k hk
          simpa using (hmem k).mp hk
        have hfin := finish_partial_complete c key s n iv cipher t0 (i :: got) msg hpos hall hne
          hmsg
        simp only [receiveAll, List.map_cons, List.map_nil, hr, hd, hfin, List.length_singleton,
          Nat.sub_self, List.replicate_zero, List.nil_append, and_self]
      | cons j is =>
        have hj : j < n := (hmem j).mpr (by simp)
        have hjnot : j ∉ i :: got := by
          intro h
          have h1 := List.nodup_cons.mp hnd
          rcases List.mem_cons.mp h with h | h
          · exact h1.1 (by simp [h])
          · have h2 := List.nodup_cons.mp h1.2
            exact h2.1 (List.mem_append_right _ h)
        have hfin := finish_partial_incomplete c key s n iv cipher t0 (i :: got) j hj hjnot
        rw [hfin] at hr hd hf
        have hnd' : ((j :: is) ++ (i :: got)).Nodup := by
          have := List.nodup_middle.mpr hnd
          simpa using this
        have hmem' : ∀ k, k < n ↔ k ∈ (j :: is) ++ (i :: got) := by
          intro k
          rw [hmem k]
          simp only [List.mem_append, List.mem_cons]
          tauto
        obtain ⟨e1, e2⟩ := ih sched (i :: got)
          (handleDataPacket c fm now (dataPacket c (fragmentChunk cipher i) s i n iv key) key).fm
          (by simp) hrest hnd' hmem' hf
          (fun x hx => htime x (List.mem_cons_of_mem _ hx))
        simp only [receiveAll, List.map_cons, hr, hd, e1, e2]
        simp [List.replicate_succ]

/-- A permutation of the image of a list is the image of a permutation. -/
theorem perm_map_inv {α β : Type} (f : α → β) :
    ∀ (l₂ : List α) (l : List β), l.Perm (l₂.map f) → ∃ l₁ : List α, l₁.Perm l₂ ∧ l = l₁.map f := by
  intro l₂
  induction l₂ with
  | nil =>
    intro l h
    have : l = [] := by simpa using h
    exact ⟨[], List.Perm.refl _, by simp [this]⟩
  | cons a l₂ ih =>
    intro l h
    have hmem : f a ∈ l := h.mem_iff.mpr (by simp)
    obtain ⟨u, v, rfl⟩ := List.append_of_mem hmem
    have h' : (u ++ v).Perm (l₂.map f) := by
      have := (@List.perm_middle _ (f a) u v).symm.trans h
      rw [List.map_cons] at this
      exact (List.perm_cons (f a)).mp this
    obtain ⟨l₁, hp, he⟩ := ih (u ++ v) h'
    refine ⟨l₁.take u.length ++ a :: l₁.drop u.length, ?_, ?_⟩
    · have : (a :: (l₁.take u.length ++ l₁.drop u.length)).Perm (a :: l₂) := by
        rw [List.take_append_drop]
        exact List.Perm.cons a hp
      exact List.perm_middle.trans this
    · have hu : (l₁.take u.length).map f = u := by
        rw [List.map_take, ← he]
        simp
      have hv : (l₁.drop u.length).map f = v := by
        rw [List.map_drop, ← he]
        simp
      simp [hu, hv]

/-- A valid packet that declares a single fragment and carries fragment index
0 with its IV is decrypted at once; the state is not touched. -/
theorem handle_single (c : Crypto) (fm : FragmentManager) (now : Nat) (P key : List Byte)
    (hv : validTag c key P) (h1 : rdU16 P 7 = 1) (h5 : rdU16 P 5 = 0)
    (hl : 25 ≤ P.length - 16) :
    handleDataPacket c fm now P key =
      match extractMessage (aesCtrCrypt c key (dataIv P) (dataCipherFrag P)) with
      | none => ⟨false, fm, [sendAck c (rdU32 P 1) 0 key], none⟩
      | some msg => ⟨true, fm, [sendAck c (rdU32 P 1) 0 key], some msg⟩ := by
  obtain ⟨hlen, htag⟩ := hv
  unfold handleDataPacket
  rw [if_neg (by omega)]
  simp only [htag, bne_self_eq_false, Bool.false_eq_true, if_false, h1, h5, beq_self_eq_true,
    if_true, Bool.true_and, decide_eq_true_eq, Bool.not_true]
  rw [if_neg (by omega)]

theorem generateRandomBytes_length (rnd : Nat → Nat) (n : Nat) :
    (generateRandomBytes rnd n).length = n := by
  simp [generateRandomBytes]

/-- Reassembly in any arrival order: the packets of one message, handled in
any order by a receiver that has no buffer for the message and whose clock stays
within the fragment timeout of the first arrival, make `handleDataPacket`
return true on the last packet only, and the message delivered there is the
text cut to the length its 16-bit prefix can express. -/
theorem reassembly (c : Crypto) (env : SendEnv) (pms : List PendingMessage)
    (text key : List Byte) (seqNumber : Nat) (fm : FragmentManager)
    (sched : List (Nat × List Byte))
    (hinv : ∀ d, aesCtrCrypt c key (generateRandomBytes env.rnd 16)
      (aesCtrCrypt c key (generateRandomBytes env.rnd 16) d) = d)
    (hwrap : (text.length + 2 + MAX_FRAGMENT_PAYLOAD - 1) / MAX_FRAGMENT_PAYLOAD < 2 ^ 16)
    (hseq : seqNumber < 2 ^ 32)
    (hperm : (sched.map Prod.snd).Perm (sendSecureMessage c env pms text key seqNumber).sent)
    (hfresh : ∀ fb ∈ fm.fragmentBuffers, ¬ (fb.seq = seqNumber ∧
      fb.totalFrags = (sendSecureMessage c env pms text key seqNumber).sent.length))
    (htime : ∀ x ∈ sched, msSince x.1 (sched.headD (0, [])).1 ≤ FRAGMENT_TIMEOUT_MS) :
    (receiveAll c key fm sched).map (fun r => r.ret) =
        List.replicate (sched.length - 1) false ++ [true] ∧
    (receiveAll c key fm sched).map (fun r => r.delivered) =
        List.replicate (sched.length - 1) none ++ [some (text.take (text.length % 2 ^ 16))] := by
  have hsent := sendSecureMessage_sent c env pms text key seqNumber hwrap
  generalize hn : (text.length + 2 + MAX_FRAGMENT_PAYLOAD - 1) / MAX_FRAGMENT_PAYLOAD = n at *
  generalize hivd : generateRandomBytes env.rnd 16 = iv at *
  generalize hcd : aesCtrCrypt c key iv (serializeText text) = cipher at *
  have hiv : iv.length = 16 := by rw [← hivd, generateRandomBytes_length]
  have hcl : cipher.length = text.length + 2 := by
    rw [← hcd, aesCtrCrypt_length, serializeText_length]
  have hn65 : n < 65536 := by simpa using hwrap
  unfold MAX_FRAGMENT_PAYLOAD at hn
  have hpos : 0 < n := by omega
  rw [hsent] at hperm hfresh
  simp only [List.length_map, List.length_range] at hfresh
  have hslen : sched.length = n := by
    have := hperm.length_eq
    simpa using this
  obtain ⟨is, hisp, hise⟩ := perm_map_inv _ _ _ hperm
  have hne : ∀ k, k < n → fragmentChunk cipher k ≠ [] := by
    intro k hk h
    have := fragmentChunk_length cipher k
    rw [h, hcl] at this
    unfold MAX_FRAGMENT_PAYLOAD at this
    simp only [List.length_nil] at this
    omega
  have hmsg : extractMessage (aesCtrCrypt c key iv
      ((List.range n).map (fragmentChunk cipher)).flatten) =
      some (text.take (text.length % 2 ^ 16)) := by
    rw [fragmentChunk_flatten, List.take_of_length_le
      (by rw [hcl]; unfold MAX_FRAGMENT_PAYLOAD; omega), ← hcd, hinv,
      extractMessage_serializeText]
  have hfind0 : ∀ now, ((purgeOldFragments now fm.fragmentBuffers).find?
      (bufferMatches seqNumber n)).getD (newFragmentBuffer seqNumber n now) =
      partialBuffer seqNumber n iv cipher now [] := by
    intro now
    have : fm.fragmentBuffers.find? (bufferMatches seqNumber n) = none := by
      rw [List.find?_eq_none]
      intro x hx hm
      exact hfresh x hx ((bufferMatches_iff _ _ _).mp hm)
    unfold purgeOldFragments
    rw [find_filter_none _ _ _ this, Option.getD_none]
    exact newFragmentBuffer_eq_partial _ _ _ _ _
  have hisnd : is.Nodup := hisp.nodup_iff.mpr (List.nodup_range n)
  have hismem : ∀ k, k < n ↔ k ∈ is := by
    intro k
    rw [hisp.mem_iff, List.mem_range]
  have hislen : is.length = n := by
    have := hisp.length_eq
    simpa using this
  rw [hslen]
  cases is with
  | nil => simp at hislen; omega
  | cons i is =>
    cases sched with
    | nil => simp at hise
    | cons x sched =>
      obtain ⟨now, p⟩ := x
      simp only [List.map_cons, List.cons.injEq] at hise
      obtain ⟨hp, hrest⟩ := hise
      subst hp
      simp only [List.headD_cons] at htime
      have hi : i < n := (hismem i).mpr (by simp)
      by_cases hn1 : n = 1
      · -- a single fragment
        subst hn1
        have his0 : is = [] := by
          simp only [List.length_cons] at hislen
          exact List.length_eq_zero.mp (by omega)
        subst his0
        have hs0 : sched = [] := by simpa using hrest
        subst hs0
        have hi0 : i = 0 := by omega
        subst hi0
        obtain ⟨hv, hlen, h1, h5, h7, hiv0, hcf⟩ :=
          dataPacket_parse c (fragmentChunk cipher 0) seqNumber 0 1 iv key hseq (by omega)
            (by omega) hiv
        have hsingle := handle_single c fm now _ key hv h7 h5 (by rw [hlen]; simp)
        rw [hiv0 rfl, hcf] at hsingle
        have hc0 : fragmentChunk cipher 0 = ((List.range 1).map (fragmentChunk cipher)).flatten := by
          simp [show List.range 1 = [0] from rfl]
        rw [hc0, hmsg] at hsingle
        simp only [receiveAll, List.map_cons, List.map_nil, Nat.sub_self,
          List.replicate_zero, List.nil_append]
        rw [hc0, hsingle]
        exact ⟨rfl, rfl⟩
      · -- several fragments: the first one creates the buffer
        obtain ⟨hr, hd, hf⟩ := handle_fragment c fm now key seqNumber n iv cipher now i []
          hseq hn65 hn1 hi (by simp) hiv (hfind0 now)
        cases is with
        | nil => simp at hislen; omega
        | cons j is =>
          have hj : j < n := (hismem j).mpr (by simp)
          have hjnot : j ∉ [i] := by
            intro h
            have h1 := List.nodup_cons.mp hisnd
            exact h1.1 (by simp at h; simp [h])
          have hfin := finish_partial_incomplete c key seqNumber n iv cipher now [i] j hj hjnot
          rw [hfin] at hr hd hf
          have hnd' : ((j :: is) ++ [i]).Nodup := by
            have := List.nodup_middle.mpr (show (i :: ((j :: is) ++ [])).Nodup by simpa using hisnd)
            simpa using this
          have hmem' : ∀ k, k < n ↔ k ∈ (j :: is) ++ [i] := by
            intro k
            rw [hismem k]
            simp only [List.mem_append, List.mem_cons, List.mem_singleton]
            tauto
          obtain ⟨e1, e2⟩ := run_fragments c key seqNumber n iv cipher now _ hseq hn65 hn1 hiv
            hne hmsg (j :: is) sched [i] _ (by simp) hrest hnd' hmem' hf
            (fun x hx => htime x (List.mem_cons_of_mem _ hx))
          simp only [receiveAll, List.map_cons, hr, hd, e1, e2]
          simp only [List.length_cons] at hislen ⊢
          have : n - 1 = (is.length + 1 - 1) + 1 := by omega
          rw [this, List.replicate_succ, List.replicate_succ]
          simp

theorem xor_byte_involutive (b : Byte) :
    toByte ((toByte (b.val ^^^ 0x5A)).val ^^^ 0x5A) = b := by
  have h1 : b.val ^^^ 0x5A < 2 ^ 8 := Nat.xor_lt_two_pow (by simp) (by decide)
  have h2 : (toByte (b.val ^^^ 0x5A)).val = b.val ^^^ 0x5A := by
    simp only [toByte]
    exact Nat.mod_eq_of_lt (by simpa using h1)
  rw [h2, Nat.xor_assoc, Nat.xor_self, Nat.xor_zero]
  apply Fin.ext
  simp only [toByte]
  exact Nat.mod_eq_of_lt b.isLt

theorem fixLen_self (l : List Byte) : fixLen l.length l = l := by
  simp [fixLen]

theorem xorCrypto_involutive (k iv d : List Byte) :
    aesCtrCrypt xorCrypto k iv (aesCtrCrypt xorCrypto k iv d) = d := by
  have h1 : ∀ x : List Byte, aesCtrCrypt xorCrypto k iv x =
      x.map (fun b => toByte (b.val ^^^ 0x5A)) := by
    intro x
    have := fixLen_self (x.map (fun b => toByte (b.val ^^^ 0x5A)))
    simpa [aesCtrCrypt, xorCrypto] using this
  rw [h1, h1, List.map_map]
  conv_rhs => rw [← List.map_id d]
  apply List.map_congr_left
  intro b _
  exact xor_byte_involutive b

/-! ## C1: reassembly in arbitrary arrival order -/

/-- C1 (amended): for every text of at most 65535 bytes, every session key and
every permutation of the DATA packets `sendSecureMessage` emits for it, a
receiver with the same key that holds no buffer for the message and handles the
packets in the permuted order, with clock readings within the fragment timeout
of the first one (so that nothing is purged) and AES-CTR self-inverse, returns
true exactly once, on the last packet, and the message delivered there is the
original text byte for byte. -/
theorem C1_reassembly_any_order (c : Crypto) (env : SendEnv) (pms : List PendingMessage)
    (text key : List Byte) (seqNumber : Nat) (fm : FragmentManager)
    (sched : List (Nat × List Byte))
    (hinv : ∀ k iv d, aesCtrCrypt c k iv (aesCtrCrypt c k iv d) = d)
    (hlen : text.length ≤ 65535)
    (hseq : seqNumber < 2 ^ 32)
    (hperm : (sched.map Prod.snd).Perm (sendSecureMessage c env pms text key seqNumber).sent)
    (hfresh : ∀ fb ∈ fm.fragmentBuffers, ¬ (fb.seq = seqNumber ∧
      fb.totalFrags = (sendSecureMessage c env pms text key seqNumber).sent.length))
    (htime : ∀ x ∈ sched, msSince x.1 (sched.headD (0, [])).1 ≤ FRAGMENT_TIMEOUT_MS) :
    (receiveAll c key fm sched).map (fun r => r.ret) =
        List.replicate (sched.length - 1) false ++ [true] ∧
    (receiveAll c key fm sched).map (fun r => r.delivered) =
        List.replicate (sched.length - 1) none ++ [some text] := by
  have h := reassembly c env pms text key seqNumber fm sched (hinv _ _)
    (by unfold MAX_FRAGMENT_PAYLOAD; omega) hseq hperm hfresh htime
  rwa [Nat.mod_eq_of_lt (by omega), List.take_of_length_le (le_refl _)] at h

theorem text400_length : text400.length = 400 := by
  unfold text400
  exact List.length_replicate _ _

theorem text65536_length : text65536.length = 65536 := by
  unfold text65536
  exact List.length_replicate _ _

theorem sent400_eq : ∃ p0 p1 p2, sent400 = [p0, p1, p2] := by
  have h := sendSecureMessage_sent xorCrypto demoEnv [] text400 demoKey 5
    (by rw [text400_length]; decide)
  have hn : (text400.length + 2 + MAX_FRAGMENT_PAYLOAD - 1) / MAX_FRAGMENT_PAYLOAD = 3 := by
    rw [text400_length]; decide
  rw [hn] at h
  exact ⟨_, _, _, h⟩

/-- C1, witness: a 400-byte text whose three packets arrive in the order
2, 0, 1. -/
theorem C1_reassembly_any_order_witness :
    (∀ k iv d, aesCtrCrypt xorCrypto k iv (aesCtrCrypt xorCrypto k iv d) = d) ∧
    text400.length ≤ 65535 ∧
    (arrival201.map Prod.snd).Perm (sendSecureMessage xorCrypto demoEnv [] text400 demoKey 5).sent ∧
    (receiveAll xorCrypto demoKey ⟨[], []⟩ arrival201).map (fun r => r.ret) =
        [false, false, true] ∧
    (receiveAll xorCrypto demoKey ⟨[], []⟩ arrival201).map (fun r => r.delivered) =
        [none, none, some text400] := by
  have hperm : (arrival201.map Prod.snd).Perm
      (sendSecureMessage xorCrypto demoEnv [] text400 demoKey 5).sent := by
    obtain ⟨p0, p1, p2, h⟩ := sent400_eq
    show (arrival201.map Prod.snd).Perm sent400
    simp only [arrival201, h, List.map_cons, List.map_nil, List.getD_cons_zero,
      List.getD_cons_succ]
    exact @List.perm_append_comm _ [p2] [p0, p1]
  have hlen : text400.length ≤ 65535 := by rw [text400_length]; decide
  refine ⟨xorCrypto_involutive, hlen, hperm, ?_⟩
  exact C1_reassembly_any_order xorCrypto demoEnv [] text400 demoKey 5 ⟨[], []⟩ arrival201
    xorCrypto_involutive hlen (by decide) hperm
    (by intro fb hfb; exact absurd hfb (List.not_mem_nil fb))
    (by
      intro x hx
      simp only [arrival201, List.mem_cons, List.mem_singleton, List.not_mem_nil, or_false] at hx
      simp only [arrival201, List.headD_cons]
      rcases hx with rfl | rfl | rfl
      · show msSince 1000 1000 ≤ FRAGMENT_TIMEOUT_MS
        decide
      · show msSince 1200 1000 ≤ FRAGMENT_TIMEOUT_MS
        decide
      · show msSince 1300 1000 ≤ FRAGMENT_TIMEOUT_MS
        decide)

/-- C1, counterexample: the 421 packets of a 65536-byte text, handled in the
order they were sent by a fresh receiver with the same key, make the last call
return true, but the message delivered is empty, not the text. -/
theorem C1_counterexample_long_text :
    text65536.length = 65536 ∧
    (arrival65536.map Prod.snd).Perm
      (sendSecureMessage xorCrypto demoEnv [] text65536 demoKey 0).sent ∧
    (receiveAll xorCrypto demoKey ⟨[], []⟩ arrival65536).map (fun r => r.ret) =
        List.replicate 420 false ++ [true] ∧
    (receiveAll xorCrypto demoKey ⟨[], []⟩ arrival65536).map (fun r => r.delivered) =
        List.replicate 420 none ++ [some []] := by
  have hl : text65536.length = 65536 := text65536_length
  have hperm : (arrival65536.map Prod.snd).Perm
      (sendSecureMessage xorCrypto demoEnv [] text65536 demoKey 0).sent := by
    unfold arrival65536
    rw [List.map_map]
    have hid : (Prod.snd ∘ fun p : List Byte => ((1000 : Nat), p)) = id := rfl
    rw [hid, List.map_id]
  have hwrap : (text65536.length + 2 + MAX_FRAGMENT_PAYLOAD - 1) / MAX_FRAGMENT_PAYLOAD < 2 ^ 16 := by
    rw [hl]; decide
  have hsl : arrival65536.length = 421 := by
    have h := sendSecureMessage_sent xorCrypto demoEnv [] text65536 demoKey 0 hwrap
    simp only [arrival65536, List.length_map, h, List.length_range, hl]
    decide
  have hhead : ∀ x ∈ arrival65536, x.1 = 1000 := by
    intro x hx
    simp only [arrival65536, List.mem_map] at hx
    obtain ⟨p, -, rfl⟩ := hx
    rfl
  have h := reassembly xorCrypto demoEnv [] text65536 demoKey 0 ⟨[], []⟩ arrival65536
    (xorCrypto_involutive _ _) hwrap (by decide) hperm
    (by intro fb hfb; exact absurd hfb (List.not_mem_nil fb))
    (by
      intro x hx
      have h1 := hhead x hx
      have h2 : (arrival65536.headD (0, [])).1 = 1000 := by
        cases hc : arrival65536 with
        | nil => rw [hc] at hsl; simp at hsl
        | cons y l =>
          simp only [List.headD_cons]
          exact hhead y (by rw [hc]; simp)
      rw [h1, h2]
      show msSince 1000 1000 ≤ FRAGMENT_TIMEOUT_MS
      decide)
  have e0 : 65536 % 2 ^ 16 = 0 := by decide
  rw [hsl, hl, e0, List.take_zero] at h
  exact ⟨hl, hperm, h⟩

/-! ## C2: a packet with a wrong tag is dropped -/

/-- C2: a DATA packet of at least 25 bytes whose last 16 bytes differ from the
keyed tag of the bytes before them makes `handleDataPacket` return false, send
nothing (no ACK), deliver nothing and leave the fragment buffers and the
pending messages as they were; this holds whatever the packet declares, in
particular for `totalFrags = 1`. -/
theorem C2_bad_tag_dropped (c : Crypto) (fm : FragmentManager) (now : Nat)
    (packet key : List Byte) (hlen : 25 ≤ packet.length)
    (htag : packet.drop (packet.length - 16) ≠
      hmacSha256Trunc16 c key (packet.take (packet.length - 16))) :
    handleDataPacket c fm now packet key = ⟨false, fm, [], none⟩ := by
  unfold handleDataPacket
  rw [if_neg (by omega)]
  simp only [bne_iff_ne, ne_eq, htag, not_false_eq_true, if_true]

set_option maxRecDepth 4000 in
/-- C2, witness: a packet that declares `totalFrags = 1` and carries a tag of
sixteen zero bytes. -/
theorem C2_bad_tag_dropped_witness :
    25 ≤ packetBadTag.length ∧ rdU16 packetBadTag 7 = 1 ∧
    packetBadTag.drop (packetBadTag.length - 16) ≠
      hmacSha256Trunc16 xorCrypto demoKey (packetBadTag.take (packetBadTag.length - 16)) ∧
    handleDataPacket xorCrypto ⟨[], []⟩ 0 packetBadTag demoKey = ⟨false, ⟨[], []⟩, [], none⟩ :=
  ⟨by decide, by decide, by decide,
    C2_bad_tag_dropped xorCrypto ⟨[], []⟩ 0 packetBadTag demoKey (by decide) (by decide)⟩

/-! ## C6: a single-fragment message that arrives twice -/

/-- The packet of a message that fits in one fragment is decrypted and
delivered by every call that handles it, whatever the state of the receiver,
which it leaves unchanged. -/
theorem handle_whole_message (c : Crypto) (fm : FragmentManager) (now : Nat)
    (text key iv : List Byte) (s : Nat)
    (hinv : aesCtrCrypt c key iv (aesCtrCrypt c key iv (serializeText text)) = serializeText text)
    (hs : s < 2 ^ 32) (hiv : iv.length = 16) :
    handleDataPacket c fm now
        (dataPacket c (aesCtrCrypt c key iv (serializeText text)) s 0 1 iv key) key =
      ⟨true, fm, [sendAck c s 0 key], some (text.take (text.length % 2 ^ 16))⟩ := by
  obtain ⟨hv, hlen, h1, h5, h7, hiv0, hcf⟩ :=
    dataPacket_parse c (aesCtrCrypt c key iv (serializeText text)) s 0 1 iv key hs (by omega)
      (by omega) hiv
  have hsingle := handle_single c fm now _ key hv h7 h5 (by rw [hlen]; simp)
  rw [hiv0 rfl, hcf, hinv, extractMessage_serializeText, h1] at hsingle
  exact hsingle

theorem packetHi_eq :
    packetHi = dataPacket xorCrypto
      (aesCtrCrypt xorCrypto demoKey (generateRandomBytes demoEnv.rnd 16) (serializeText textHi))
      9 0 1 (generateRandomBytes demoEnv.rnd 16) demoKey := by
  have h := sendSecureMessage_sent xorCrypto demoEnv [] textHi demoKey 9 (by decide)
  have hn : (textHi.length + 2 + MAX_FRAGMENT_PAYLOAD - 1) / MAX_FRAGMENT_PAYLOAD = 1 := by decide
  rw [hn] at h
  unfold packetHi
  rw [h]
  have hc : fragmentChunk
      (aesCtrCrypt xorCrypto demoKey (generateRandomBytes demoEnv.rnd 16) (serializeText textHi)) 0
      = aesCtrCrypt xorCrypto demoKey (generateRandomBytes demoEnv.rnd 16) (serializeText textHi) := by
    unfold fragmentChunk
    rw [Nat.zero_mul, List.drop_zero, List.take_of_length_le]
    rw [aesCtrCrypt_length, serializeText_length]
    decide
  simp only [show List.range 1 = [0] from rfl, List.map_cons, List.map_nil, List.getD_cons_zero, hc]

/-- C6, the code at the failing input: the valid single-fragment packet of the
text "hi" (sequence number 9), handled twice by the same receiver, is
acknowledged, decrypted and delivered both times, and both calls return
true. -/
theorem C6_single_fragment_delivered_twice :
    rdU16 packetHi 7 = 1 ∧ validTag xorCrypto demoKey packetHi ∧
    handleDataPacket xorCrypto ⟨[], []⟩ 1000 packetHi demoKey =
      ⟨true, ⟨[], []⟩, [sendAck xorCrypto 9 0 demoKey], some textHi⟩ ∧
    handleDataPacket xorCrypto
        (handleDataPacket xorCrypto ⟨[], []⟩ 1000 packetHi demoKey).fm 3000 packetHi demoKey =
      ⟨true, ⟨[], []⟩, [sendAck xorCrypto 9 0 demoKey], some textHi⟩ := by
  have hiv : (generateRandomBytes demoEnv.rnd 16).length = 16 := generateRandomBytes_length _ _
  obtain ⟨hv, -, -, -, h7, -, -⟩ := dataPacket_parse xorCrypto
    (aesCtrCrypt xorCrypto demoKey (generateRandomBytes demoEnv.rnd 16) (serializeText textHi))
    9 0 1 (generateRandomBytes demoEnv.rnd 16) demoKey (by decide) (by decide) (by decide) hiv
  have h := fun fm now => handle_whole_message xorCrypto fm now textHi demoKey
    (generateRandomBytes demoEnv.rnd 16) 9 (xorCrypto_involutive _ _ _) (by decide) hiv
  rw [← packetHi_eq] at hv h7 h
  have ht : textHi.take (textHi.length % 2 ^ 16) = textHi := by decide
  rw [ht] at h
  refine ⟨h7, hv, h _ _, ?_⟩
  rw [h ⟨[], []⟩ 1000]
  exact h _ _

/-! ## C10: the fragments of a 400-byte text -/

/-- The ciphertext lengths carried by the packets of a 400-byte text. -/
theorem cipher_lengths_400 (c : Crypto) (env : SendEnv) (pms : List PendingMessage)
    (text key : List Byte) (seqNumber : Nat) (hlen : text.length = 400)
    (hseq : seqNumber < 2 ^ 32) :
    (sendSecureMessage c env pms text key seqNumber).sent.map
        (fun p => (rdU16 p 5, rdU16 p 7, (dataCipherFrag p).length)) =
      [(0, 3, 156), (1, 3, 156), (2, 3, 90)] := by
  have h := sendSecureMessage_sent c env pms text key seqNumber (by rw [hlen]; decide)
  have hn : (text.length + 2 + MAX_FRAGMENT_PAYLOAD - 1) / MAX_FRAGMENT_PAYLOAD = 3 := by
    rw [hlen]; decide
  rw [hn] at h
  rw [h]
  have hiv : (generateRandomBytes env.rnd 16).length = 16 := generateRandomBytes_length _ _
  generalize hcd : aesCtrCrypt c key (generateRandomBytes env.rnd 16) (serializeText text) = cipher
  have hcl : cipher.length = 402 := by
    rw [← hcd, aesCtrCrypt_length, serializeText_length, hlen]
  have hp := fun i (hi : i < 65536) => dataPacket_parse c (fragmentChunk cipher i) seqNumber i 3
    (generateRandomBytes env.rnd 16) key hseq hi (by decide) hiv
  have hl := fun i => fragmentChunk_length cipher i
  simp only [show List.range 3 = [0, 1, 2] from rfl, List.map_cons, List.map_nil]
  obtain ⟨-, -, -, a5, a7, -, ac⟩ := hp 0 (by decide)
  obtain ⟨-, -, -, b5, b7, -, bc⟩ := hp 1 (by decide)
  obtain ⟨-, -, -, c5, c7, -, cc⟩ := hp 2 (by decide)
  rw [a5, a7, ac, b5, b7, bc, c5, c7, cc, hl 0, hl 1, hl 2, hcl]
  rfl

/-- C10 (amended): a 400-byte text is split by `sendSecureMessage` into exactly
3 fragments, with indices 0, 1, 2 of 3, that carry 156, 156 and 90 ciphertext
bytes respectively: the ciphertext is the 2-byte length prefix followed by the
400 bytes of text, 402 bytes in all, without padding. -/
theorem C10_fragments_of_400_bytes (c : Crypto) (env : SendEnv) (pms : List PendingMessage)
    (text key : List Byte) (seqNumber : Nat) (hlen : text.length = 400)
    (hseq : seqNumber < 2 ^ 32) :
    (sendSecureMessage c env pms text key seqNumber).sent.length = 3 ∧
    (sendSecureMessage c env pms text key seqNumber).sent.map
        (fun p => (rdU16 p 5, rdU16 p 7, (dataCipherFrag p).length)) =
      [(0, 3, 156), (1, 3, 156), (2, 3, 90)] := by
  have h := cipher_lengths_400 c env pms text key seqNumber hlen hseq
  refine ⟨?_, h⟩
  have := congrArg List.length h
  simpa using this

/-- C10, witness: the text of 400 letters `A`. -/
theorem C10_fragments_of_400_bytes_witness :
    text400.length = 400 ∧ (5 : Nat) < 2 ^ 32 ∧
    sent400.length = 3 ∧
    sent400.map (fun p => (rdU16 p 5, rdU16 p 7, (dataCipherFrag p).length)) =
      [(0, 3, 156), (1, 3, 156), (2, 3, 90)] :=
  ⟨text400_length, by decide,
    C10_fragments_of_400_bytes xorCrypto demoEnv [] text400 demoKey 5 text400_length (by decide)⟩

/-- C10, counterexample: the third fragment of a 400-byte text does not carry
88 ciphertext bytes. -/
theorem C10_counterexample_third_fragment :
    text400.length = 400 ∧
    sent400.map (fun p => (dataCipherFrag p).length) ≠ [156, 156, 88] := by
  refine ⟨text400_length, ?_⟩
  have h := cipher_lengths_400 xorCrypto demoEnv [] text400 demoKey 5 text400_length (by decide)
  have h2 := congrArg (List.map (fun t : Nat × Nat × Nat => t.2.2)) h
  rw [List.map_map] at h2
  show List.map (fun p => (dataCipherFrag p).length)
    (sendSecureMessage xorCrypto demoEnv [] text400 demoKey 5).sent ≠ _
  have h3 : (fun t : Nat × Nat × Nat => t.2.2) ∘
      (fun p : List Byte => (rdU16 p 5, rdU16 p 7, (dataCipherFrag p).length)) =
      fun p => (dataCipherFrag p).length := rfl
  rw [h3] at h2
  rw [h2]
  decide

/-! ## Invariants of the reachable states -/

/-- What holds of every fragment buffer the program creates: it never
belongs to a single-fragment message, and slot 0 is only filled once the IV
is known. -/
theorem storeFragment_ok (c : Crypto) (key : List Byte) (fb : FragmentBuffer) (fragId : Nat)
    (iv chunk : List Byte)
    (hok : fb.fragments.getD 0 [] ≠ [] → fb.hasIv = true) :
    (storeFragment c key fb fragId (fragId == 0) iv chunk).fb.fragments.getD 0 [] ≠ [] →
      (storeFragment c key fb fragId (fragId == 0) iv chunk).fb.hasIv = true := by
  unfold storeFragment
  cases hc : captureIv fb (fragId == 0) iv with
  | none => exact hok
  | some fb1 =>
    obtain ⟨-, -, hfr, -, -, -, hfalse, htrue⟩ := captureIv_some _ _ _ _ hc
    have hok1 : fb1.fragments.getD 0 [] ≠ [] → fb1.hasIv = true := by
      intro h
      by_cases h0 : fragId = 0
      · exact (htrue (by simp [h0])).1
      · rw [hfalse (by simp [h0])] at h ⊢
        exact hok h
    simp only []
    split
    · exact hok1
    · split
      · exact hok1
      · have key2 : ∀ X : FragmentBuffer, X.fragments = fb1.fragments.set fragId chunk →
            X.hasIv = fb1.hasIv → (X.fragments.getD 0 [] ≠ [] → X.hasIv = true) := by
          intro X hX hXiv h
          rw [hXiv]
          by_cases h0 : fragId = 0
          · exact (htrue (by simp [h0])).1
          · apply hok1
            rw [hX] at h
            have h0' : ¬ fragId = 0 := h0
            simpa [List.getD_eq_getElem?_getD, List.getElem?_set, h0'] using h
        rcases finishIfComplete_fb c key { fb1 with fragments := fb1.fragments.set fragId chunk }
          with h | h <;> rw [h] <;> exact key2 _ rfl rfl

/-- Either `handleDataPacket` leaves the state alone, or the packet is a valid
fragment of a multi-fragment message. -/
theorem handle_fm_cases (c : Crypto) (fm : FragmentManager) (now : Nat) (P key : List Byte) :
    (handleDataPacket c fm now P key).fm = fm ∨
    (validTag c key P ∧ rdU16 P 7 ≠ 1 ∧ (rdU16 P 5 = 0 → 25 ≤ P.length - 16)) := by
  by_cases h1 : P.length < 1 + 4 + 2 + 2 + 16
  · left; unfold handleDataPacket; rw [if_pos h1]
  by_cases h2 : P.drop (P.length - 16) = hmacSha256Trunc16 c key (P.take (P.length - 16))
  swap
  · left
    unfold handleDataPacket
    rw [if_neg h1]
    simp only [bne_iff_ne, ne_eq, h2, not_false_eq_true, if_true]
  by_cases h3 : rdU16 P 5 = 0 ∧ P.length - 16 < 9 + 16
  · left
    unfold handleDataPacket
    rw [if_neg h1]
    simp only [h2, bne_self_eq_false, Bool.false_eq_true, if_false, h3.1, beq_self_eq_true,
      Bool.true_and, decide_eq_true_eq, h3.2, if_true]
  by_cases h4 : rdU16 P 7 = 1
  · left
    unfold handleDataPacket
    rw [if_neg h1]
    simp only [h2, bne_self_eq_false, Bool.false_eq_true, if_false, h4, beq_self_eq_true, if_true]
    split
    · rfl
    · split
      · rfl
      · split <;> rfl
  · right
    refine ⟨⟨by omega, h2⟩, h4, ?_⟩
    intro h5
    by_contra h6
    exact h3 ⟨h5, by omega⟩

theorem locateBuffer_mem (bufs : List FragmentBuffer) (seq total now : Nat)
    (x : FragmentBuffer) (hx : x ∈ (locateBuffer bufs seq total now).1) :
    x ∈ bufs ∨ x = newFragmentBuffer seq total now := by
  unfold locateBuffer at hx
  split at hx
  · exact Or.inl hx
  · simp only [List.mem_append, List.mem_singleton] at hx
    exact hx

theorem purge_mem (now : Nat) (bufs : List FragmentBuffer) (x : FragmentBuffer)
    (hx : x ∈ purgeOldFragments now bufs) : x ∈ bufs :=
  (List.mem_filter.mp hx).1

/-- Every fragment buffer of a reachable state satisfies `BufferOk`. -/
theorem reachable_ok (c : Crypto) (fm : FragmentManager) (h : Reachable c fm) :
    ∀ fb ∈ fm.fragmentBuffers, BufferOk fb := by
  induction h with
  | init pms => intro fb hfb; exact absurd hfb (List.not_mem_nil fb)
  | purge fm now _ ih => intro fb hfb; exact ih fb (purge_mem _ _ _ hfb)
  | pending fm pms _ ih => exact ih
  | data fm now P key _ ih =>
    rcases handle_fm_cases c fm now P key with h | ⟨hv, hm, h0⟩
    · rw [h]; exact ih
    · obtain ⟨o, bufs, ho, hr, -, hb⟩ := handle_multi c fm now P key hv hm h0
      rw [hr]
      simp only []
      have hfbok : BufferOk (((purgeOldFragments now fm.fragmentBuffers).find?
          (bufferMatches (rdU32 P 1) (rdU16 P 7))).getD
          (newFragmentBuffer (rdU32 P 1) (rdU16 P 7) now)) := by
        cases hfind : (purgeOldFragments now fm.fragmentBuffers).find?
            (bufferMatches (rdU32 P 1) (rdU16 P 7)) with
        | none => exact ⟨hm, by simp [newFragmentBuffer, List.getD_eq_getElem?_getD]⟩
        | some x => exact ih x (purge_mem _ _ _ (List.mem_of_find?_eq_some hfind))
      have hook : BufferOk o.fb := by
        rw [ho]
        exact ⟨by rw [(storeFragment_key _ _ _ _ _ _ _).2]; exact hfbok.1,
          storeFragment_ok c key _ _ _ _ hfbok.2⟩
      intro fb hfb
      rw [hb] at hfb
      rcases List.mem_or_eq_of_mem_set hfb with h | h
      · rcases locateBuffer_mem _ _ _ _ _ h with h | h
        · exact ih fb (purge_mem _ _ _ h)
        · rw [h]; exact ⟨hm, by simp [newFragmentBuffer, List.getD_eq_getElem?_getD]⟩
      · rw [h]; exact hook

/-! ## Duplicates, collisions and the IV of a buffer -/

theorem set_of_get {α : Type} (l : List α) (i : Nat) (x : α) (h : l.get? i = some x) :
    l.set i x = l := by
  apply List.ext_getElem?
  intro j
  rw [List.getElem?_set]
  split
  · rename_i hij
    subst hij
    split
    · simpa using h.symm
    · rename_i hlt
      simp only [not_lt] at hlt
      simp [List.getElem?_eq_none hlt]
  · rfl

/-- When the search finds a buffer, `locateBuffer` returns the list as it is
and the position of that buffer. -/
theorem locateBuffer_found (bufs : List FragmentBuffer) (seq total now : Nat)
    (fb : FragmentBuffer) (hf : bufs.find? (bufferMatches seq total) = some fb) :
    ∃ i, locateBuffer bufs seq total now = (bufs, i) ∧ bufs.get? i = some fb := by
  unfold locateBuffer
  cases hi : bufs.findIdx? (bufferMatches seq total) with
  | none =>
    have := findIdx_none_spec _ _ hi
    rw [this] at hf
    exact absurd hf (by simp)
  | some i =>
    obtain ⟨x, h1, -, h3, -⟩ := findIdx_some_spec _ fb _ _ hi
    rw [hf] at h1
    exact ⟨i, rfl, by rw [h3]; exact h1.symm⟩

/-- A buffer that knows its IV keeps it through `storeFragment`. -/
theorem storeFragment_iv (c : Crypto) (key : List Byte) (fb : FragmentBuffer) (fragId : Nat)
    (h : Bool) (iv chunk : List Byte) (hiv : fb.hasIv = true) :
    (storeFragment c key fb fragId h iv chunk).fb.iv = fb.iv ∧
    (storeFragment c key fb fragId h iv chunk).fb.hasIv = true := by
  unfold storeFragment
  cases hc : captureIv fb h iv with
  | none => exact ⟨rfl, hiv⟩
  | some fb1 =>
    obtain ⟨-, -, -, -, -, hsame, -, -⟩ := captureIv_some _ _ _ _ hc
    have e := hsame hiv
    subst e
    simp only []
    split
    · exact ⟨rfl, hiv⟩
    · split
      · exact ⟨rfl, hiv⟩
      · rcases finishIfComplete_fb c key { fb1 with fragments := fb1.fragments.set fragId chunk }
          with h | h <;> rw [h] <;> exact ⟨rfl, hiv⟩

/-- A valid packet for fragment 0 that is too short to hold an IV is dropped
before anything is sent or stored. -/
theorem handle_short_iv (c : Crypto) (fm : FragmentManager) (now : Nat) (P key : List Byte)
    (hv : validTag c key P) (h5 : rdU16 P 5 = 0) (hl : P.length - 16 < 25) :
    handleDataPacket c fm now P key = ⟨false, fm, [], none⟩ := by
  obtain ⟨hlen, htag⟩ := hv
  unfold handleDataPacket
  rw [if_neg (by omega)]
  simp only [htag, bne_self_eq_false, Bool.false_eq_true, if_false, h5, beq_self_eq_true,
    Bool.true_and, decide_eq_true_eq]
  rw [if_pos (by omega)]

/-- The outcome of a valid fragment of a multi-fragment message whose buffer
exists and is not purged, in terms of `storeFragment` on that buffer. -/
theorem handle_existing (c : Crypto) (fm : FragmentManager) (now : Nat) (P key : List Byte)
    (fb : FragmentBuffer)
    (hv : validTag c key P) (hm : rdU16 P 7 ≠ 1) (h0 : rdU16 P 5 = 0 → 25 ≤ P.length - 16)
    (hnopurge : purgeOldFragments now fm.fragmentBuffers = fm.fragmentBuffers)
    (hfb : fm.fragmentBuffers.find? (bufferMatches (rdU32 P 1) (rdU16 P 7)) = some fb) :
    ∃ i, fm.fragmentBuffers.get? i = some fb ∧
      handleDataPacket c fm now P key =
        ⟨(storeFragment c key fb (rdU16 P 5) (rdU16 P 5 == 0)
            (if rdU16 P 5 == 0 then dataIv P else []) (dataCipherFrag P)).ret,
          ⟨fm.pendingMessages, fm.fragmentBuffers.set i
            (storeFragment c key fb (rdU16 P 5) (rdU16 P 5 == 0)
              (if rdU16 P 5 == 0 then dataIv P else []) (dataCipherFrag P)).fb⟩,
          [sendAck c (rdU32 P 1) (rdU16 P 5) key],
          (storeFragment c key fb (rdU16 P 5) (rdU16 P 5 == 0)
            (if rdU16 P 5 == 0 then dataIv P else []) (dataCipherFrag P)).delivered⟩ := by
  obtain ⟨o, bufs, ho, hr, -, hb⟩ := handle_multi c fm now P key hv hm h0
  rw [hnopurge] at ho hb
  rw [hfb, Option.getD_some] at ho
  obtain ⟨i, hloc, hget⟩ := locateBuffer_found fm.fragmentBuffers (rdU32 P 1) (rdU16 P 7) now fb hfb
  rw [hloc] at hb
  refine ⟨i, hget, ?_⟩
  rw [hr, hb, ho]

theorem locateBuffer_notfound (bufs : List FragmentBuffer) (seq total now : Nat)
    (hf : bufs.find? (bufferMatches seq total) = none) :
    locateBuffer bufs seq total now =
      (bufs ++ [newFragmentBuffer seq total now], bufs.length) := by
  unfold locateBuffer
  cases hi : bufs.findIdx? (bufferMatches seq total) with
  | none => rfl
  | some i =>
    obtain ⟨x, h1, -⟩ := findIdx_some_spec _ (newFragmentBuffer seq total now) _ _ hi
    rw [hf] at h1
    exact absurd h1 (by simp)

/-- A fragment whose content is already in its slot is not stored again. -/
theorem store_duplicate (c : Crypto) (key : List Byte) (fb : FragmentBuffer) (fragId : Nat)
    (h : Bool) (iv chunk : List Byte)
    (hstored : fb.fragments.get? fragId = some chunk) (hne : chunk ≠ [])
    (hhas : h = true → fb.hasIv = true) :
    storeFragment c key fb fragId h iv chunk = ⟨false, fb, none⟩ := by
  have hcap : captureIv fb h iv = none ∨ captureIv fb h iv = some fb := by
    unfold captureIv
    cases h with
    | false => right; rfl
    | true =>
      rw [hhas rfl]
      simp only [if_true]
      split
      · left; rfl
      · right; rfl
  unfold storeFragment
  rcases hcap with hc | hc
  · rw [hc]
  · rw [hc]
    simp only []
    have hlt : fragId < fb.fragments.length := by
      by_contra hge
      simp only [not_lt] at hge
      rw [List.get?_eq_none.mpr hge] at hstored
      exact absurd hstored (by simp)
    have hslot : fb.fragments.getD fragId [] = chunk := by
      rw [List.getD_eq_getElem?_getD, ← List.get?_eq_getElem?, hstored]
      rfl
    rw [if_neg (by omega), hslot]
    have : (!chunk.isEmpty && chunk == chunk) = true := by
      cases chunk with
      | nil => exact absurd rfl hne
      | cons a l => simp
    rw [if_pos this]

/-- The ciphertext of a packet for fragment 0 that is too short to hold an IV
is empty. -/
theorem dataCipherFrag_short (P : List Byte) (h5 : rdU16 P 5 = 0) (hl : P.length - 16 < 25) :
    dataCipherFrag P = [] := by
  unfold dataCipherFrag
  simp only [h5, beq_self_eq_true, if_true]
  apply List.drop_eq_nil_of_le
  rw [List.length_take]
  omega

/-! ## C7: a duplicate fragment of a multi-fragment message -/

/-- C7: a validly tagged fragment of a multi-fragment message (`totalFrags >
1`) whose content is already stored in its slot of the message's buffer makes
`handleDataPacket`, in any reachable state and with no purge at that call,
return false, deliver nothing and leave the whole state, hence every
FragmentBuffer with its slots, IV, `hasIv` and `complete`, unchanged. Nothing
is assumed of `complete`, so this covers a message that has already been
reassembled and delivered. -/
theorem C7_duplicate_fragment_ignored (c : Crypto) (fm : FragmentManager) (now : Nat)
    (P key : List Byte) (fb : FragmentBuffer)
    (hreach : Reachable c fm) (hv : validTag c key P) (hmulti : 1 < rdU16 P 7)
    (hnopurge : purgeOldFragments now fm.fragmentBuffers = fm.fragmentBuffers)
    (hfb : fm.fragmentBuffers.find? (bufferMatches (rdU32 P 1) (rdU16 P 7)) = some fb)
    (hstored : fb.fragments.get? (rdU16 P 5) = some (dataCipherFrag P))
    (hne : dataCipherFrag P ≠ []) :
    (handleDataPacket c fm now P key).ret = false ∧
    (handleDataPacket c fm now P key).delivered = none ∧
    (handleDataPacket c fm now P key).fm = fm := by
  have h0 : rdU16 P 5 = 0 → 25 ≤ P.length - 16 := by
    intro h5
    by_contra hl
    exact hne (dataCipherFrag_short P h5 (by omega))
  obtain ⟨i, hget, hr⟩ := handle_existing c fm now P key fb hv (by omega) h0 hnopurge hfb
  have hok := reachable_ok c fm hreach fb (List.mem_of_find?_eq_some hfb)
  have hhas : (rdU16 P 5 == 0) = true → fb.hasIv = true := by
    intro h5
    have h5' : rdU16 P 5 = 0 := by simpa using h5
    apply hok.2
    rw [h5'] at hstored
    rw [List.getD_eq_getElem?_getD, ← List.get?_eq_getElem?, hstored]
    exact hne
  rw [store_duplicate c key fb _ _ _ _ hstored hne hhas] at hr
  rw [hr, set_of_get _ _ _ hget]
  exact ⟨rfl, rfl, rfl⟩

set_option maxRecDepth 8000 in
/-- C7, witness: the packet `packetCollision` handled a second time by the
receiver that has just stored it. -/
theorem C7_duplicate_fragment_ignored_witness :
    Reachable xorCrypto fmAfterCollision ∧ validTag xorCrypto demoKey packetCollision ∧
    1 < rdU16 packetCollision 7 ∧
    purgeOldFragments 500 fmAfterCollision.fragmentBuffers = fmAfterCollision.fragmentBuffers ∧
    fmAfterCollision.fragmentBuffers.find?
      (bufferMatches (rdU32 packetCollision 1) (rdU16 packetCollision 7)) =
        some fbAfterCollision ∧
    fbAfterCollision.fragments.get? (rdU16 packetCollision 5) =
      some (dataCipherFrag packetCollision) ∧
    dataCipherFrag packetCollision ≠ [] ∧
    (handleDataPacket xorCrypto fmAfterCollision 500 packetCollision demoKey).ret = false ∧
    (handleDataPacket xorCrypto fmAfterCollision 500 packetCollision demoKey).delivered = none ∧
    (handleDataPacket xorCrypto fmAfterCollision 500 packetCollision demoKey).fm =
      fmAfterCollision :=
  have hreach : Reachable xorCrypto fmAfterCollision :=
    Reachable.data ⟨[], []⟩ 0 packetCollision demoKey (Reachable.init [])
  have hv : validTag xorCrypto demoKey packetCollision := ⟨by decide, by decide⟩
  ⟨hreach, hv, by decide, by decide, by decide, by decide, by decide,
    C7_duplicate_fragment_ignored xorCrypto fmAfterCollision 500 packetCollision demoKey
      fbAfterCollision hreach hv (by decide) (by decide) (by decide) (by decide) (by decide)⟩

/-! ## C8: a fragment that collides with a filled slot -/

/-- A valid fragment for a slot that holds different content, and whose IV (for
index 0) does not contradict the buffer, replaces the content of the slot. -/
theorem collision_overwrites (c : Crypto) (fm : FragmentManager) (now : Nat)
    (P key : List Byte) (fb : FragmentBuffer)
    (hv : validTag c key P) (hm : rdU16 P 7 ≠ 1)
    (hnopurge : purgeOldFragments now fm.fragmentBuffers = fm.fragmentBuffers)
    (hfb : fm.fragmentBuffers.find? (bufferMatches (rdU32 P 1) (rdU16 P 7)) = some fb)
    (hidx : rdU16 P 5 < fb.fragments.length)
    (hdiff : fb.fragments.getD (rdU16 P 5) [] ≠ dataCipherFrag P)
    (hiv : rdU16 P 5 = 0 → 25 ≤ P.length - 16 ∧ (fb.hasIv = true → fb.iv = dataIv P)) :
    ∃ fb', (handleDataPacket c fm now P key).fm.fragmentBuffers.find?
        (bufferMatches (rdU32 P 1) (rdU16 P 7)) = some fb' ∧
      fb'.fragments = fb.fragments.set (rdU16 P 5) (dataCipherFrag P) ∧
      fb'.fragments.getD (rdU16 P 5) [] = dataCipherFrag P := by
  obtain ⟨o, bufs, ho, hr, hf, -⟩ := handle_multi c fm now P key hv hm (fun h => (hiv h).1)
  rw [hnopurge, hfb, Option.getD_some] at ho
  have hfr : o.fb.fragments = fb.fragments.set (rdU16 P 5) (dataCipherFrag P) := by
    rw [ho]
    unfold storeFragment
    cases hc : captureIv fb (rdU16 P 5 == 0) (if rdU16 P 5 == 0 then dataIv P else []) with
    | none =>
      exfalso
      unfold captureIv at hc
      by_cases h5 : rdU16 P 5 = 0
      · simp only [h5, beq_self_eq_true, if_true] at hc
        split at hc
        · rename_i hh
          have := (hiv h5).2 hh
          simp [this] at hc
        · simp at hc
      · simp [h5] at hc
    | some fb1 =>
      obtain ⟨-, -, hfr1, -⟩ := captureIv_some _ _ _ _ hc
      simp only []
      rw [hfr1, if_neg (by omega)]
      have hnd : ¬ ((!(fb.fragments.getD (rdU16 P 5) []).isEmpty &&
          fb.fragments.getD (rdU16 P 5) [] == dataCipherFrag P) = true) := by
        simp only [Bool.and_eq_true, beq_iff_eq, not_and]
        intro _
        exact hdiff
      rw [if_neg hnd]
      rcases finishIfComplete_fb c key
          { fb1 with fragments := fb.fragments.set (rdU16 P 5) (dataCipherFrag P) }
        with h | h <;> rw [h]
  refine ⟨o.fb, ?_, hfr, ?_⟩
  · rw [hr]; exact hf
  · rw [hfr, List.getD_eq_getElem?_getD, List.getElem?_set]
    simp [hidx]

/-- C8 (amended): if a validly tagged fragment of a multi-fragment message
arrives for an index of its FragmentBuffer that is already filled with
different content (no purge at that call; for index 0 the packet is long enough
to hold an IV, which equals the buffer's IV if the buffer has one), the new
content is authoritative: `handleDataPacket` overwrites that slot with the new
content and the previous content is dropped. -/
theorem C8_collision_overwrites_slot (c : Crypto) (fm : FragmentManager) (now : Nat)
    (P key : List Byte) (fb : FragmentBuffer)
    (hv : validTag c key P) (hm : rdU16 P 7 ≠ 1)
    (hnopurge : purgeOldFragments now fm.fragmentBuffers = fm.fragmentBuffers)
    (hfb : fm.fragmentBuffers.find? (bufferMatches (rdU32 P 1) (rdU16 P 7)) = some fb)
    (hidx : rdU16 P 5 < fb.fragments.length)
    (hfilled : fb.fragments.getD (rdU16 P 5) [] ≠ [])
    (hdiff : fb.fragments.getD (rdU16 P 5) [] ≠ dataCipherFrag P)
    (hiv : rdU16 P 5 = 0 → 25 ≤ P.length - 16 ∧ (fb.hasIv = true → fb.iv = dataIv P)) :
    ∃ fb', (handleDataPacket c fm now P key).fm.fragmentBuffers.find?
        (bufferMatches (rdU32 P 1) (rdU16 P 7)) = some fb' ∧
      fb'.fragments = fb.fragments.set (rdU16 P 5) (dataCipherFrag P) ∧
      fb'.fragments.getD (rdU16 P 5) [] = dataCipherFrag P ∧
      fb'.fragments.getD (rdU16 P 5) [] ≠ fb.fragments.getD (rdU16 P 5) [] := by
  obtain ⟨fb', h1, h2, h3⟩ := collision_overwrites c fm now P key fb hv hm hnopurge hfb hidx
    hdiff hiv
  refine ⟨fb', h1, h2, h3, ?_⟩
  rw [h3]
  exact fun h => hfilled (by rw [← h] at hdiff; exact absurd rfl hdiff)

set_option maxRecDepth 8000 in
/-- C8, witness: fragment 1 of the message `(0, 2)` arrives with content `02`
at a receiver whose slot 1 holds `01`. -/
theorem C8_collision_overwrites_slot_witness :
    validTag xorCrypto demoKey packetCollision ∧ rdU16 packetCollision 7 ≠ 1 ∧
    fmCollision.fragmentBuffers.find?
      (bufferMatches (rdU32 packetCollision 1) (rdU16 packetCollision 7)) =
        fmCollision.fragmentBuffers.head? ∧
    ∃ fb', (handleDataPacket xorCrypto fmCollision 0 packetCollision demoKey).fm.fragmentBuffers.find?
        (bufferMatches (rdU32 packetCollision 1) (rdU16 packetCollision 7)) = some fb' ∧
      fb'.fragments = [[], [0x02]] :=
  have hv : validTag xorCrypto demoKey packetCollision := ⟨by decide, by decide⟩
  ⟨hv, by decide, by decide,
    (C8_collision_overwrites_slot xorCrypto fmCollision 0 packetCollision demoKey
      { seq := 0, totalFrags := 2, iv := List.replicate 16 0, fragments := [[], [0x01]],
        firstSeenMs := 0, complete := false, hasIv := false }
      hv (by decide) (by decide) (by decide) (by decide) (by decide) (by decide)
      (by decide)).imp (fun _ h => ⟨h.1, h.2.1.trans (by decide)⟩)⟩

set_option maxRecDepth 8000 in
/-- C8, counterexample: slot 1 of the buffer for `(0, 2)` holds `01`; after a
validly tagged fragment 1 with content `02` is handled, the slot holds `02`:
the existing content was not kept. -/
theorem C8_counterexample_slot_replaced :
    validTag xorCrypto demoKey packetCollision ∧
    rdU32 packetCollision 1 = 0 ∧ rdU16 packetCollision 5 = 1 ∧ rdU16 packetCollision 7 = 2 ∧
    dataCipherFrag packetCollision = [0x02] ∧
    fmCollision.fragmentBuffers.map (fun fb => (fb.seq, fb.totalFrags, fb.fragments)) =
      [(0, 2, [[], [0x01]])] ∧
    (handleDataPacket xorCrypto fmCollision 0 packetCollision demoKey).fm.fragmentBuffers.map
      (fun fb => (fb.seq, fb.totalFrags, fb.fragments)) = [(0, 2, [[], [0x02]])] :=
  ⟨⟨by decide, by decide⟩, by decide, by decide, by decide, by decide, by decide, by decide⟩

/-! ## C9: the IV of a buffer is immutable -/

/-- C9: in a reachable state, with no purge at the call, a fragment buffer
that has captured an IV keeps its key, its `hasIv` flag and its IV through any
call of `handleDataPacket`; and a validly tagged fragment 0 for the key of
that buffer that carries a different IV is rejected: the call returns false,
delivers nothing and leaves the whole state unchanged, so neither the IV nor
the ciphertext of the packet is stored. -/
theorem C9_iv_immutable (c : Crypto) (fm : FragmentManager) (now : Nat) (P key : List Byte)
    (i : Nat) (fb : FragmentBuffer)
    (hreach : Reachable c fm)
    (hnopurge : purgeOldFragments now fm.fragmentBuffers = fm.fragmentBuffers)
    (hget : fm.fragmentBuffers.get? i = some fb) (hhas : fb.hasIv = true) :
    (∃ fb', (handleDataPacket c fm now P key).fm.fragmentBuffers.get? i = some fb' ∧
      fb'.seq = fb.seq ∧ fb'.totalFrags = fb.totalFrags ∧ fb'.hasIv = true ∧ fb'.iv = fb.iv) ∧
    (validTag c key P → rdU16 P 5 = 0 →
      fm.fragmentBuffers.find? (bufferMatches (rdU32 P 1) (rdU16 P 7)) = some fb →
      fb.iv ≠ dataIv P →
      (handleDataPacket c fm now P key).ret = false ∧
      (handleDataPacket c fm now P key).delivered = none ∧
      (handleDataPacket c fm now P key).fm = fm) := by
  constructor
  · rcases handle_fm_cases c fm now P key with h | ⟨hv, hm, h0⟩
    · rw [h]; exact ⟨fb, hget, rfl, rfl, hhas, rfl⟩
    · cases hfind : fm.fragmentBuffers.find? (bufferMatches (rdU32 P 1) (rdU16 P 7)) with
      | none =>
        obtain ⟨o, bufs, -, hr, -, hb⟩ := handle_multi c fm now P key hv hm h0
        rw [hnopurge, locateBuffer_notfound _ _ _ _ hfind] at hb
        refine ⟨fb, ?_, rfl, rfl, hhas, rfl⟩
        rw [hr, hb]
        simp only []
        have hlt : i < fm.fragmentBuffers.length := by
          by_contra hge
          simp only [not_lt] at hge
          rw [List.get?_eq_none.mpr hge] at hget
          exact absurd hget (by simp)
        rw [List.get?_eq_getElem?, List.getElem?_set_ne (by omega),
          List.getElem?_append_left hlt, ← List.get?_eq_getElem?]
        exact hget
      | some fbk =>
        obtain ⟨j, hgetj, hr⟩ := handle_existing c fm now P key fbk hv hm h0 hnopurge hfind
        rw [hr]
        simp only []
        by_cases hij : j = i
        · subst hij
          have e : fbk = fb := by
            rw [hgetj] at hget
            exact Option.some.inj hget
          subst e
          have hlt : j < fm.fragmentBuffers.length := by
            by_contra hge
            simp only [not_lt] at hge
            rw [List.get?_eq_none.mpr hge] at hgetj
            exact absurd hgetj (by simp)
          obtain ⟨k1, k2⟩ := storeFragment_key c key fbk (rdU16 P 5) (rdU16 P 5 == 0)
            (if rdU16 P 5 == 0 then dataIv P else []) (dataCipherFrag P)
          obtain ⟨v1, v2⟩ := storeFragment_iv c key fbk (rdU16 P 5) (rdU16 P 5 == 0)
            (if rdU16 P 5 == 0 then dataIv P else []) (dataCipherFrag P) hhas
          refine ⟨_, ?_, k1, k2, v2, v1⟩
          rw [List.get?_eq_getElem?, List.getElem?_set_self hlt]
        · refine ⟨fb, ?_, rfl, rfl, hhas, rfl⟩
          rw [List.get?_eq_getElem?, List.getElem?_set_ne hij, ← List.get?_eq_getElem?]
          exact hget
  · intro hv h5 hfind hne
    by_cases hl : P.length - 16 < 25
    · rw [handle_short_iv c fm now P key hv h5 hl]
      exact ⟨rfl, rfl, rfl⟩
    · have hok := reachable_ok c fm hreach fb (List.mem_of_find?_eq_some hfind)
      have hkey := (bufferMatches_iff _ _ _).mp (List.find?_some hfind)
      have hm : rdU16 P 7 ≠ 1 := by rw [← hkey.2]; exact hok.1
      obtain ⟨j, hgetj, hr⟩ := handle_existing c fm now P key fb hv hm (fun _ => by omega)
        hnopurge hfind
      have hst : storeFragment c key fb (rdU16 P 5) (rdU16 P 5 == 0)
          (if rdU16 P 5 == 0 then dataIv P else []) (dataCipherFrag P) = ⟨false, fb, none⟩ := by
        unfold storeFragment captureIv
        simp [h5, hhas, hne]
      rw [hst] at hr
      rw [hr, set_of_get _ _ _ hgetj]
      exact ⟨rfl, rfl, rfl⟩

set_option maxRecDepth 8000 in
/-- C9, witness: the receiver that captured the IV `01 .. 01` from fragment 0
of the message `(0, 2)` handles a valid fragment 0 of the same message with the
IV `02 .. 02`. -/
theorem C9_iv_immutable_witness :
    Reachable xorCrypto fmAfterFrag0 ∧
    purgeOldFragments 500 fmAfterFrag0.fragmentBuffers = fmAfterFrag0.fragmentBuffers ∧
    fmAfterFrag0.fragmentBuffers.get? 0 = some fbAfterFrag0 ∧ fbAfterFrag0.hasIv = true ∧
    validTag xorCrypto demoKey packetFrag0B ∧ rdU16 packetFrag0B 5 = 0 ∧
    fbAfterFrag0.iv ≠ dataIv packetFrag0B ∧
    (handleDataPacket xorCrypto fmAfterFrag0 500 packetFrag0B demoKey).ret = false ∧
    (handleDataPacket xorCrypto fmAfterFrag0 500 packetFrag0B demoKey).delivered = none ∧
    (handleDataPacket xorCrypto fmAfterFrag0 500 packetFrag0B demoKey).fm = fmAfterFrag0 :=
  have hreach : Reachable xorCrypto fmAfterFrag0 :=
    Reachable.data ⟨[], []⟩ 0 packetFrag0A demoKey (Reachable.init [])
  have hv : validTag xorCrypto demoKey packetFrag0B := ⟨by decide, by decide⟩
  ⟨hreach, by decide, by decide, by decide, hv, by decide, by decide,
    (C9_iv_immutable xorCrypto fmAfterFrag0 500 packetFrag0B demoKey 0 fbAfterFrag0 hreach
      (by decide) (by decide) (by decide)).2 hv (by decide) (by decide) (by decide)⟩

/-! ## Handshake packets, as their receiver reads them -/

theorem byteAt_append (pre l : List Byte) (k : Nat) :
    byteAt (pre ++ l) (pre.length + k) = byteAt l k := by
  unfold byteAt
  rw [List.getD_eq_getElem?_getD, List.getD_eq_getElem?_getD, List.getElem?_append_right (by omega)]
  simp

theorem rdU32_append (pre l : List Byte) (k : Nat) :
    rdU32 (pre ++ l) (pre.length + k) = rdU32 l k := by
  unfold rdU32
  rw [byteAt_append, show pre.length + k + 1 = pre.length + (k + 1) by omega, byteAt_append,
    show pre.length + k + 2 = pre.length + (k + 2) by omega, byteAt_append,
    show pre.length + k + 3 = pre.length + (k + 3) by omega, byteAt_append]

theorem rdU32_be32_zero (x : Nat) (hx : x < 2 ^ 32) (l : List Byte) :
    rdU32 (be32 x ++ l) 0 = x := by
  have h := rdU32_be32 x hx 0 l
  have h2 := rdU32_append [(0 : Byte)] (be32 x ++ l) 0
  simp only [List.length_singleton, List.singleton_append] at h2
  rw [← h2]
  exact h

theorem be32_length (x : Nat) : (be32 x).length = 4 := rfl

theorem toByte_val_of_lt (n : Nat) (h : n < 256) : (toByte n).val = n :=
  Nat.mod_eq_of_lt h

/-- The header fields of a BIND_REQUEST or BIND_RESPONSE packet. -/
theorem bind_fields (t : Byte) (a b : Nat) (nonce pub rest : List Byte)
    (ha : a < 2 ^ 32) (hb : b < 2 ^ 32) (hn : nonce.length = 16) (hp : pub.length < 256) :
    rdU32 ([t] ++ be32 a ++ be32 b ++ nonce ++ [toByte pub.length] ++ pub ++ rest) 1 = a ∧
    rdU32 ([t] ++ be32 a ++ be32 b ++ nonce ++ [toByte pub.length] ++ pub ++ rest) 5 = b ∧
    byteAt ([t] ++ be32 a ++ be32 b ++ nonce ++ [toByte pub.length] ++ pub ++ rest) 25
      = pub.length ∧
    (([t] ++ be32 a ++ be32 b ++ nonce ++ [toByte pub.length] ++ pub ++ rest).drop 9).take 16
      = nonce ∧
    (([t] ++ be32 a ++ be32 b ++ nonce ++ [toByte pub.length] ++ pub ++ rest).drop 26).take
      pub.length = pub ∧
    ([t] ++ be32 a ++ be32 b ++ nonce ++ [toByte pub.length] ++ pub ++ rest).length
      = 26 + pub.length + rest.length := by
  refine ⟨?_, ?_, ?_, ?_, ?_, ?_⟩
  · have h := rdU32_append [t] (be32 a ++ (be32 b ++ nonce ++ [toByte pub.length] ++ pub ++ rest)) 0
    simp only [List.length_singleton, List.append_assoc] at h ⊢
    rw [h]
    exact rdU32_be32_zero a ha _
  · have h := rdU32_append ([t] ++ be32 a) (be32 b ++ (nonce ++ [toByte pub.length] ++ pub ++ rest)) 0
    simp only [List.length_append, List.length_singleton, be32_length, List.append_assoc] at h ⊢
    rw [h]
    exact rdU32_be32_zero b hb _
  · have h := byteAt_append ([t] ++ be32 a ++ be32 b ++ nonce) ([toByte pub.length] ++ pub ++ rest) 0
    simp only [List.length_append, List.length_singleton, be32_length, hn, List.append_assoc] at h ⊢
    rw [h]
    simp only [byteAt, List.singleton_append, List.getD_cons_zero]
    exact toByte_val_of_lt _ hp
  · have e : [t] ++ be32 a ++ be32 b ++ nonce ++ [toByte pub.length] ++ pub ++ rest =
        ([t] ++ be32 a ++ be32 b) ++ (nonce ++ ([toByte pub.length] ++ pub ++ rest)) := by
      simp only [List.append_assoc]
    rw [e, List.drop_left' (by simp [be32_length]), List.take_left' hn]
  · have e : [t] ++ be32 a ++ be32 b ++ nonce ++ [toByte pub.length] ++ pub ++ rest =
        ([t] ++ be32 a ++ be32 b ++ nonce ++ [toByte pub.length]) ++ (pub ++ rest) := by
      simp only [List.append_assoc]
    rw [e, List.drop_left' (by simp [be32_length, hn]), List.take_left' rfl]
  · simp only [List.length_append, List.length_singleton, be32_length, hn]

/-! ## The steps of the handshake -/

theorem generateKeypair_ok (c : Crypto) (sec : SecurityManager) (d : Nat)
    (hp : (c.pubOf d).length ≤ 100) :
    generateKeypair c sec (some d) = (⟨true, d, c.pubOf d⟩, some (c.pubOf d)) := by
  simp [generateKeypair, hp]

/-- `sendBindRequest` when key generation succeeds. -/
theorem sendBindRequest_ok (c : Crypto) (env : PairEnv) (dev : Device) (target d : Nat)
    (hgen : env.gen = some d) (hp : (c.pubOf d).length ≤ 100) :
    sendBindRequest c env dev target =
      ⟨true,
        { pm := { dev.pm with nonceInitiator := generateRandomBytes env.rnd 16,
                              currentPubI := c.pubOf d },
          sec := ⟨true, d, c.pubOf d⟩, nvs := dev.nvs },
        [[PKT_BIND_REQ] ++ be32 target ++ be32 dev.pm.deviceId ++ generateRandomBytes env.rnd 16 ++
          [toByte (c.pubOf d).length] ++ c.pubOf d]⟩ := by
  unfold sendBindRequest
  rw [hgen, generateKeypair_ok c dev.sec d hp]

/-- `handleBindRequest` on a well-formed request addressed to the device. -/
theorem handleBindRequest_ok (dev : Device) (initId : Nat) (nonce pub : List Byte)
    (hid : dev.pm.deviceId < 2 ^ 32) (hinit : initId < 2 ^ 32) (hn : nonce.length = 16)
    (hp : pub.length < 256) :
    handleBindRequest dev
        ([PKT_BIND_REQ] ++ be32 dev.pm.deviceId ++ be32 initId ++ nonce ++ [toByte pub.length] ++
          pub) =
      ⟨true,
        { dev with pm := { dev.pm with pendingNonceI := nonce, pendingInitiatorId := initId,
                                       pendingPubI := pub, pendingBind := true } },
        []⟩ := by
  obtain ⟨f1, f5, f25, fn, fp, fl⟩ :=
    bind_fields PKT_BIND_REQ dev.pm.deviceId initId nonce pub [] hid hinit hn hp
  simp only [List.append_nil] at f1 f5 f25 fn fp fl
  unfold handleBindRequest
  simp only [f1, f5, f25, fn, fp, fl, List.length_nil, Nat.add_zero]
  rw [if_neg (by omega)]
  simp only [bne_self_eq_false, Bool.false_eq_true, if_false]
  rw [if_neg (by omega)]

/-- `acceptPendingBind` when key generation and the key agreement succeed. -/
theorem acceptPendingBind_ok (c : Crypto) (env : PairEnv) (dev : Device) (d : Nat)
    (z : List Byte) (hpend : dev.pm.pendingBind = true)
    (hgen : env.gen = some d) (hp : (c.pubOf d).length ≤ 100)
    (hz : c.ecdhRaw d dev.pm.pendingPubI = some z) :
    acceptPendingBind c env dev =
      ⟨true,
        { pm := { dev.pm with nonceInitiator := dev.pm.pendingNonceI,
                              nonceResponder := generateRandomBytes env.rnd 16,
                              currentPubR := c.pubOf d, pendingBind := false },
          sec := ⟨true, d, c.pubOf d⟩, nvs := dev.nvs },
        [[PKT_BIND_RESP] ++ be32 dev.pm.pendingInitiatorId ++ be32 dev.pm.deviceId ++
          generateRandomBytes env.rnd 16 ++ [toByte (c.pubOf d).length] ++ c.pubOf d ++
          hmacSha256Trunc16 c
            (deriveSessionKeyFromShared c z dev.pm.pendingNonceI (generateRandomBytes env.rnd 16))
            (labelRESP ++ dev.pm.pendingNonceI ++ generateRandomBytes env.rnd 16 ++
              dev.pm.pendingPubI ++ c.pubOf d)]⟩ := by
  unfold acceptPendingBind sendBindResponse
  simp only [hpend, Bool.not_true, Bool.false_eq_true, if_false, hgen,
    generateKeypair_ok c dev.sec d hp, computeSharedSecret, hz]

/-- `handleBindResponse` on a response addressed to the device whose tag is
the one the handler recomputes. -/
theorem handleBindResponse_ok (c : Crypto) (env : PairEnv) (dev : Device) (respId : Nat)
    (nonceR pubR z : List Byte)
    (hid : dev.pm.deviceId < 2 ^ 32) (hresp : respId < 2 ^ 32) (hn : nonceR.length = 16)
    (hp : pubR.length < 256) (hq : dev.sec.ecdhQ.length ≤ 100)
    (hz : c.ecdhRaw dev.sec.ecdhD pubR = some z) :
    handleBindResponse c env dev
        ([PKT_BIND_RESP] ++ be32 dev.pm.deviceId ++ be32 respId ++ nonceR ++
          [toByte pubR.length] ++ pubR ++
          hmacSha256Trunc16 c (deriveSessionKeyFromShared c z dev.pm.nonceInitiator nonceR)
            (labelRESP ++ dev.pm.nonceInitiator ++ nonceR ++ dev.sec.ecdhQ ++ pubR)) =
      ⟨true,
        { pm :=
            { dev.pm with
              nonceResponder := nonceR,
              sessionKey := deriveSessionKeyFromShared c z dev.pm.nonceInitiator nonceR,
              paired := true,
              pairedDeviceId := respId },
          sec := { dev.sec with initialized := true },
          nvs := (nvsSavePairingState dev.nvs env.nvsOpens
            (deriveSessionKeyFromShared c z dev.pm.nonceInitiator nonceR) true).1 },
        [[PKT_BIND_CONFIRM] ++
          hmacSha256Trunc16 c (deriveSessionKeyFromShared c z dev.pm.nonceInitiator nonceR)
            (labelCONF ++ dev.pm.nonceInitiator ++ nonceR ++ dev.sec.ecdhQ ++ pubR)]⟩ := by
  generalize hmacd : hmacSha256Trunc16 c
    (deriveSessionKeyFromShared c z dev.pm.nonceInitiator nonceR)
    (labelRESP ++ dev.pm.nonceInitiator ++ nonceR ++ dev.sec.ecdhQ ++ pubR) = mac
  have hml : mac.length = 16 := by rw [← hmacd]; exact hmac_length _ _ _
  obtain ⟨f1, f5, f25, fn, fp, fl⟩ :=
    bind_fields PKT_BIND_RESP dev.pm.deviceId respId nonceR pubR mac hid hresp hn hp
  have hd : ([PKT_BIND_RESP] ++ be32 dev.pm.deviceId ++ be32 respId ++ nonceR ++
      [toByte pubR.length] ++ pubR ++ mac).drop
      (([PKT_BIND_RESP] ++ be32 dev.pm.deviceId ++ be32 respId ++ nonceR ++
      [toByte pubR.length] ++ pubR ++ mac).length - 16) = mac :=
    (take_drop_tag _ mac hml).2
  unfold handleBindResponse
  rw [if_neg (by rw [fl]; omega)]
  simp only [f1, f5, f25, fn, fp, hd, bne_self_eq_false, Bool.false_eq_true, if_false]
  rw [if_neg (by rw [fl]; omega)]
  simp only [computeSharedSecret, hz, exportPublicKey, Bool.not_true, Bool.false_eq_true,
    if_false, hq, if_true, hmacd, bne_self_eq_false, savePairingState, sendBindConfirm]

/-- `handleBindConfirm` on a confirmation whose tag is the one the handler
recomputes from its pending state; whether the pending request was accepted
plays no part. -/
theorem handleBindConfirm_ok (c : Crypto) (env : PairEnv) (dev : Device) (z : List Byte)
    (hq : dev.sec.ecdhQ.length ≤ 100)
    (hz : c.ecdhRaw dev.sec.ecdhD dev.pm.pendingPubI = some z) :
    handleBindConfirm c env dev
        ([PKT_BIND_CONFIRM] ++
          hmacSha256Trunc16 c
            (deriveSessionKeyFromShared c z dev.pm.pendingNonceI dev.pm.nonceResponder)
            (labelCONF ++ dev.pm.pendingNonceI ++ dev.pm.nonceResponder ++ dev.pm.pendingPubI ++
              dev.sec.ecdhQ)) =
      ⟨true,
        { pm :=
            { dev.pm with
              sessionKey :=
                deriveSessionKeyFromShared c z dev.pm.pendingNonceI dev.pm.nonceResponder,
              paired := true,
              pairedDeviceId := dev.pm.pendingInitiatorId,
              pendingBind := false },
          sec := { dev.sec with initialized := true },
          nvs := (nvsSavePairingState dev.nvs env.nvsOpens
            (deriveSessionKeyFromShared c z dev.pm.pendingNonceI dev.pm.nonceResponder) true).1 },
        []⟩ := by
  generalize hmacd : hmacSha256Trunc16 c
    (deriveSessionKeyFromShared c z dev.pm.pendingNonceI dev.pm.nonceResponder)
    (labelCONF ++ dev.pm.pendingNonceI ++ dev.pm.nonceResponder ++ dev.pm.pendingPubI ++
      dev.sec.ecdhQ) = mac
  have hml : mac.length = 16 := by rw [← hmacd]; exact hmac_length _ _ _
  have hrx : (([PKT_BIND_CONFIRM] ++ mac).drop 1).take 16 = mac := by
    simp only [List.singleton_append, List.drop_succ_cons, List.drop_zero]
    exact List.take_of_length_le (by omega)
  unfold handleBindConfirm
  rw [if_neg (by simp [hml])]
  simp only [hrx, computeSharedSecret, hz, exportPublicKey, Bool.not_true, Bool.false_eq_true,
    if_false, hq, if_true, hmacd, bne_self_eq_false, savePairingState]

/-! ## C3: a complete handshake -/

/-- C3: when key generation succeeds on both sides (with public keys that fit
the 100-byte export buffer), the key agreement is commutative and every packet
is delivered unchanged, the handshake request, accept, response, confirm makes
every step succeed, so both tag checks pass; both devices end paired, each
records the id of the other as its paired peer, and both hold the same 16-byte
session key. -/
theorem C3_handshake_pairs_both (c : Crypto) (envI envR : PairEnv) (devI devR : Device)
    (dI dR : Nat) (z : List Byte)
    (hidI : devI.pm.deviceId < 2 ^ 32) (hidR : devR.pm.deviceId < 2 ^ 32)
    (hgenI : envI.gen = some dI) (hgenR : envR.gen = some dR)
    (hpI : (c.pubOf dI).length ≤ 100) (hpR : (c.pubOf dR).length ≤ 100)
    (hzI : c.ecdhRaw dI (c.pubOf dR) = some z) (hzR : c.ecdhRaw dR (c.pubOf dI) = some z) :
    (runHandshake c envI envR devI devR).request.ret = true ∧
    (runHandshake c envI envR devI devR).gotRequest.ret = true ∧
    (runHandshake c envI envR devI devR).accept.ret = true ∧
    (runHandshake c envI envR devI devR).gotResponse.ret = true ∧
    (runHandshake c envI envR devI devR).gotConfirm.ret = true ∧
    (runHandshake c envI envR devI devR).gotResponse.dev.pm.paired = true ∧
    (runHandshake c envI envR devI devR).gotConfirm.dev.pm.paired = true ∧
    (runHandshake c envI envR devI devR).gotResponse.dev.pm.pairedDeviceId = devR.pm.deviceId ∧
    (runHandshake c envI envR devI devR).gotConfirm.dev.pm.pairedDeviceId = devI.pm.deviceId ∧
    (runHandshake c envI envR devI devR).gotResponse.dev.pm.sessionKey =
      (runHandshake c envI envR devI devR).gotConfirm.dev.pm.sessionKey ∧
    (runHandshake c envI envR devI devR).gotResponse.dev.pm.sessionKey.length = 16 := by
  have hnI : (generateRandomBytes envI.rnd 16).length = 16 := generateRandomBytes_length _ _
  have hnR : (generateRandomBytes envR.rnd 16).length = 16 := generateRandomBytes_length _ _
  have h1 := sendBindRequest_ok c envI devI devR.pm.deviceId dI hgenI hpI
  have h2 := handleBindRequest_ok devR devI.pm.deviceId (generateRandomBytes envI.rnd 16)
    (c.pubOf dI) hidR hidI hnI (by omega)
  unfold runHandshake
  simp only [h1, List.getD_cons_zero, h2]
  have h3 := acceptPendingBind_ok c envR
    { devR with pm := { devR.pm with pendingNonceI := generateRandomBytes envI.rnd 16,
                                     pendingInitiatorId := devI.pm.deviceId,
                                     pendingPubI := c.pubOf dI, pendingBind := true } }
    dR z rfl hgenR hpR hzR
  simp only [h3, List.getD_cons_zero]
  have h4 := handleBindResponse_ok c envI
    { pm := { devI.pm with nonceInitiator := generateRandomBytes envI.rnd 16,
                           currentPubI := c.pubOf dI },
      sec := ⟨true, dI, c.pubOf dI⟩, nvs := devI.nvs }
    devR.pm.deviceId (generateRandomBytes envR.rnd 16) (c.pubOf dR) z hidI hidR hnR (by omega)
    hpI hzI
  simp only [] at h4
  simp only [h4, List.getD_cons_zero]
  have h5 := handleBindConfirm_ok c envR
    { pm := { devR.pm with pendingNonceI := generateRandomBytes envI.rnd 16,
                           pendingInitiatorId := devI.pm.deviceId,
                           pendingPubI := c.pubOf dI,
                           nonceInitiator := generateRandomBytes envI.rnd 16,
                           nonceResponder := generateRandomBytes envR.rnd 16,
                           currentPubR := c.pubOf dR, pendingBind := false },
      sec := ⟨true, dR, c.pubOf dR⟩, nvs := devR.nvs }
    z hpR hzR
  simp only [] at h5
  simp only [h5]
  refine ⟨trivial, trivial, trivial, trivial, trivial, trivial, trivial, trivial, trivial,
    trivial, ?_⟩
  simp [deriveSessionKeyFromShared, sha256, fixLen_length]

set_option maxRecDepth 8000 in
/-- C3, witness: initiator `0x11112222` and responder `0x33334444`, both
fresh. -/
theorem C3_handshake_pairs_both_witness :
    (freshDevice 0x11112222).pm.deviceId < 2 ^ 32 ∧
    (freshDevice 0x33334444).pm.deviceId < 2 ^ 32 ∧
    xorCrypto.ecdhRaw 5 (xorCrypto.pubOf 7) = xorCrypto.ecdhRaw 7 (xorCrypto.pubOf 5) ∧
    (runHandshake xorCrypto (demoPairEnv 5) (demoPairEnv 7) (freshDevice 0x11112222)
      (freshDevice 0x33334444)).gotResponse.dev.pm.paired = true ∧
    (runHandshake xorCrypto (demoPairEnv 5) (demoPairEnv 7) (freshDevice 0x11112222)
      (freshDevice 0x33334444)).gotConfirm.dev.pm.paired = true ∧
    (runHandshake xorCrypto (demoPairEnv 5) (demoPairEnv 7) (freshDevice 0x11112222)
      (freshDevice 0x33334444)).gotResponse.dev.pm.pairedDeviceId = 0x33334444 ∧
    (runHandshake xorCrypto (demoPairEnv 5) (demoPairEnv 7) (freshDevice 0x11112222)
      (freshDevice 0x33334444)).gotConfirm.dev.pm.pairedDeviceId = 0x11112222 ∧
    (runHandshake xorCrypto (demoPairEnv 5) (demoPairEnv 7) (freshDevice 0x11112222)
      (freshDevice 0x33334444)).gotResponse.dev.pm.sessionKey =
    (runHandshake xorCrypto (demoPairEnv 5) (demoPairEnv 7) (freshDevice 0x11112222)
      (freshDevice 0x33334444)).gotConfirm.dev.pm.sessionKey :=
  have h := C3_handshake_pairs_both xorCrypto (demoPairEnv 5) (demoPairEnv 7)
    (freshDevice 0x11112222) (freshDevice 0x33334444) 5 7 [35]
    (by decide) (by decide) rfl rfl (by decide) (by decide) (by decide) (by decide)
  ⟨by decide, by decide, by decide, h.2.2.2.2.2.1, h.2.2.2.2.2.2.1, h.2.2.2.2.2.2.2.1,
    h.2.2.2.2.2.2.2.2.1, h.2.2.2.2.2.2.2.2.2.1⟩

/-! ## C4: a handshake tag that does not verify -/

/-- C4: `handleBindResponse` and `handleBindConfirm` install a session key
only when the tag of the packet equals the one they recompute. Whenever the
last 16 bytes of a BIND_RESPONSE differ from `keyed_tag(tempKey, "RESP" ‖
nonceI ‖ nonceR ‖ pubI ‖ pubR)`, respectively bytes 1..16 of a BIND_CONFIRM
from `keyed_tag(tempKey, "CONF" ‖ nonceI ‖ nonceR ‖ pubI ‖ pubR)`, for the
`tempKey` and public keys of that handler, the handler returns false, leaves
the paired flag, the session key, the paired peer id and the persisted pairing
state unchanged, and sends nothing, so no BIND_CONFIRM. -/
theorem C4_bad_handshake_tag_rejected (c : Crypto) (env : PairEnv) (dev : Device)
    (packet : List Byte) :
    ((∀ shared pubI,
        c.ecdhRaw dev.sec.ecdhD ((packet.drop 26).take (byteAt packet 25)) = some shared →
        exportPublicKey { dev.sec with initialized := true } = some pubI →
        packet.drop (packet.length - 16) ≠
          hmacSha256Trunc16 c
            (deriveSessionKeyFromShared c shared dev.pm.nonceInitiator ((packet.drop 9).take 16))
            (labelRESP ++ dev.pm.nonceInitiator ++ (packet.drop 9).take 16 ++ pubI ++
              (packet.drop 26).take (byteAt packet 25))) →
      (handleBindResponse c env dev packet).ret = false ∧
      (handleBindResponse c env dev packet).dev.pm.paired = dev.pm.paired ∧
      (handleBindResponse c env dev packet).dev.pm.sessionKey = dev.pm.sessionKey ∧
      (handleBindResponse c env dev packet).dev.pm.pairedDeviceId = dev.pm.pairedDeviceId ∧
      (handleBindResponse c env dev packet).dev.nvs = dev.nvs ∧
      (handleBindResponse c env dev packet).sent = []) ∧
    ((∀ shared pubR,
        c.ecdhRaw dev.sec.ecdhD dev.pm.pendingPubI = some shared →
        exportPublicKey { dev.sec with initialized := true } = some pubR →
        (packet.drop 1).take 16 ≠
          hmacSha256Trunc16 c
            (deriveSessionKeyFromShared c shared dev.pm.pendingNonceI dev.pm.nonceResponder)
            (labelCONF ++ dev.pm.pendingNonceI ++ dev.pm.nonceResponder ++ dev.pm.pendingPubI ++
              pubR)) →
      (handleBindConfirm c env dev packet).ret = false ∧
      (handleBindConfirm c env dev packet).dev.pm = dev.pm ∧
      (handleBindConfirm c env dev packet).dev.nvs = dev.nvs ∧
      (handleBindConfirm c env dev packet).sent = []) := by
  constructor
  · intro H
    generalize hr : handleBindResponse c env dev packet = r
    unfold handleBindResponse at hr
    by_cases h1 : packet.length < 1 + 4 + 4 + 16 + 1 + 16
    · rw [if_pos h1] at hr; subst hr; exact ⟨rfl, rfl, rfl, rfl, rfl, rfl⟩
    rw [if_neg h1] at hr
    simp only [] at hr
    by_cases h2 : (rdU32 packet 1 != dev.pm.deviceId) = true
    · rw [if_pos h2] at hr; subst hr; exact ⟨rfl, rfl, rfl, rfl, rfl, rfl⟩
    rw [if_neg h2] at hr
    by_cases h3 : packet.length < 1 + 4 + 4 + 16 + 1 + byteAt packet (1 + 4 + 4 + 16) + 16
    · rw [if_pos h3] at hr; subst hr; exact ⟨rfl, rfl, rfl, rfl, rfl, rfl⟩
    rw [if_neg h3] at hr
    simp only [computeSharedSecret] at hr
    cases hsh : c.ecdhRaw dev.sec.ecdhD
        ((packet.drop (1 + 4 + 4 + 16 + 1)).take (byteAt packet (1 + 4 + 4 + 16))) with
    | none => rw [hsh] at hr; subst hr; exact ⟨rfl, rfl, rfl, rfl, rfl, rfl⟩
    | some shared =>
      rw [hsh] at hr
      simp only [] at hr
      cases hex : exportPublicKey { dev.sec with initialized := true } with
      | none => rw [hex] at hr; subst hr; exact ⟨rfl, rfl, rfl, rfl, rfl, rfl⟩
      | some pubI =>
        rw [hex] at hr
        simp only [] at hr
        have hne := H shared pubI hsh hex
        rw [if_pos (by simpa using hne)] at hr
        subst hr
        exact ⟨rfl, rfl, rfl, rfl, rfl, rfl⟩
  · intro H
    generalize hr : handleBindConfirm c env dev packet = r
    unfold handleBindConfirm at hr
    by_cases h1 : packet.length < 1 + 16
    · rw [if_pos h1] at hr; subst hr; exact ⟨rfl, rfl, rfl, rfl⟩
    rw [if_neg h1] at hr
    simp only [computeSharedSecret] at hr
    cases hsh : c.ecdhRaw dev.sec.ecdhD dev.pm.pendingPubI with
    | none => rw [hsh] at hr; subst hr; exact ⟨rfl, rfl, rfl, rfl⟩
    | some shared =>
      rw [hsh] at hr
      simp only [] at hr
      cases hex : exportPublicKey { dev.sec with initialized := true } with
      | none => rw [hex] at hr; subst hr; exact ⟨rfl, rfl, rfl, rfl⟩
      | some pubR =>
        rw [hex] at hr
        simp only [] at hr
        have hne := H shared pubR hsh hex
        rw [if_pos (by simpa using hne)] at hr
        subst hr
        exact ⟨rfl, rfl, rfl, rfl⟩

set_option maxRecDepth 8000 in
/-- C4, witness: a BIND_RESPONSE and a BIND_CONFIRM whose tags are sixteen zero
bytes, handled by a device that holds a key pair and a pending request. -/
theorem C4_bad_handshake_tag_rejected_witness :
    (handleBindResponse xorCrypto (demoPairEnv 7) devicePending responseBadTag).ret = false ∧
    (handleBindResponse xorCrypto (demoPairEnv 7) devicePending responseBadTag).dev.pm.paired =
      false ∧
    (handleBindResponse xorCrypto (demoPairEnv 7) devicePending responseBadTag).sent = [] ∧
    (handleBindConfirm xorCrypto (demoPairEnv 7) devicePending confirmBadTag).ret = false ∧
    (handleBindConfirm xorCrypto (demoPairEnv 7) devicePending confirmBadTag).dev.pm =
      devicePending.pm ∧
    (handleBindConfirm xorCrypto (demoPairEnv 7) devicePending confirmBadTag).sent = [] :=
  have h1 := (C4_bad_handshake_tag_rejected xorCrypto (demoPairEnv 7) devicePending
    responseBadTag).1 (by
      intro shared pubI hs hp
      have e1 : some [35] = some shared := Eq.trans (by decide) hs
      have e2 : some [7] = some pubI := Eq.trans (by decide) hp
      cases e1
      cases e2
      decide)
  have h2 := (C4_bad_handshake_tag_rejected xorCrypto (demoPairEnv 7) devicePending
    confirmBadTag).2 (by
      intro shared pubR hs hp
      have e1 : some [35] = some shared := Eq.trans (by decide) hs
      have e2 : some [7] = some pubR := Eq.trans (by decide) hp
      cases e1
      cases e2
      decide)
  ⟨h1.1, h1.2.1.trans (by decide), h1.2.2.2.2.2, h2.1, h2.2.1, h2.2.2.2⟩

/-! ## C5: a confirmation that arrives before the local accept -/

/-- C5, what the code does: a device that holds a key pair handles a
BIND_REQUEST addressed to it, which leaves the request pending
(`hasPendingBind()` is true) and the device as paired or unpaired as it was.
Without any call of `acceptPendingBind`, it then handles a BIND_CONFIRM whose
tag is the keyed tag over the nonce and public key of the request and the
responder nonce and public key the device already holds, under the key derived
from the shared secret. `handleBindConfirm` does not look at the pending flag:
it returns true, the device is paired with the requester and the derived key is
its session key. With a commutative key agreement the sender of the request
can compute that shared secret from the public key of the device. -/
theorem C5_confirm_pairs_without_accept (c : Crypto) (env : PairEnv) (dev : Device)
    (a requesterId : Nat) (nonceA z : List Byte)
    (hid : dev.pm.deviceId < 2 ^ 32) (hreq : requesterId < 2 ^ 32)
    (hn : nonceA.length = 16) (hpa : (c.pubOf a).length < 256)
    (hq : dev.sec.ecdhQ.length ≤ 100)
    (hzA : c.ecdhRaw a dev.sec.ecdhQ = some z)
    (hcomm : c.ecdhRaw dev.sec.ecdhD (c.pubOf a) = c.ecdhRaw a dev.sec.ecdhQ) :
    (handleBindRequest dev
      ([PKT_BIND_REQ] ++ be32 dev.pm.deviceId ++ be32 requesterId ++ nonceA ++
        [toByte (c.pubOf a).length] ++ c.pubOf a)).ret = true ∧
    (handleBindRequest dev
      ([PKT_BIND_REQ] ++ be32 dev.pm.deviceId ++ be32 requesterId ++ nonceA ++
        [toByte (c.pubOf a).length] ++ c.pubOf a)).dev.pm.pendingBind = true ∧
    (handleBindRequest dev
      ([PKT_BIND_REQ] ++ be32 dev.pm.deviceId ++ be32 requesterId ++ nonceA ++
        [toByte (c.pubOf a).length] ++ c.pubOf a)).dev.pm.paired = dev.pm.paired ∧
    (handleBindConfirm c env
      (handleBindRequest dev
        ([PKT_BIND_REQ] ++ be32 dev.pm.deviceId ++ be32 requesterId ++ nonceA ++
          [toByte (c.pubOf a).length] ++ c.pubOf a)).dev
      ([PKT_BIND_CONFIRM] ++
        hmacSha256Trunc16 c (deriveSessionKeyFromShared c z nonceA dev.pm.nonceResponder)
          (labelCONF ++ nonceA ++ dev.pm.nonceResponder ++ c.pubOf a ++ dev.sec.ecdhQ))).ret
      = true ∧
    (handleBindConfirm c env
      (handleBindRequest dev
        ([PKT_BIND_REQ] ++ be32 dev.pm.deviceId ++ be32 requesterId ++ nonceA ++
          [toByte (c.pubOf a).length] ++ c.pubOf a)).dev
      ([PKT_BIND_CONFIRM] ++
        hmacSha256Trunc16 c (deriveSessionKeyFromShared c z nonceA dev.pm.nonceResponder)
          (labelCONF ++ nonceA ++ dev.pm.nonceResponder ++ c.pubOf a ++ dev.sec.ecdhQ))).dev.pm
      = { dev.pm with
          sessionKey := deriveSessionKeyFromShared c z nonceA dev.pm.nonceResponder,
          paired := true,
          pairedDeviceId := requesterId,
          pendingInitiatorId := requesterId,
          pendingPubI := c.pubOf a,
          pendingNonceI := nonceA,
          pendingBind := false } := by
  have h1 := handleBindRequest_ok dev requesterId nonceA (c.pubOf a) hid hreq hn hpa
  rw [h1]
  have h2 := handleBindConfirm_ok c env
    { dev with pm := { dev.pm with pendingNonceI := nonceA, pendingInitiatorId := requesterId,
                                   pendingPubI := c.pubOf a, pendingBind := true } }
    z hq (hcomm.trans hzA)
  simp only [] at h2
  rw [h2]
  exact ⟨rfl, rfl, rfl, rfl, rfl⟩

set_option maxRecDepth 8000 in
/-- C5, the code at the failing input: the device `0x33334444` holds the key
pair it made for an earlier request of its own; the stranger `0x66667777` sends
it a BIND_REQUEST and then, with no accept on the device, the BIND_CONFIRM it
computed from public values. The device ends paired with the stranger. -/
theorem C5_confirm_pairs_without_accept_witness :
    devicePending.pm.pendingBind = true ∧ devicePending.pm.paired = false ∧
    (handleBindConfirm xorCrypto (demoPairEnv 7) devicePending confirmFromStranger).ret = true ∧
    (handleBindConfirm xorCrypto (demoPairEnv 7) devicePending
      confirmFromStranger).dev.pm.paired = true ∧
    (handleBindConfirm xorCrypto (demoPairEnv 7) devicePending
      confirmFromStranger).dev.pm.pairedDeviceId = 0x66667777 :=
  have h := C5_confirm_pairs_without_accept xorCrypto (demoPairEnv 7) deviceWithKey 5
    0x66667777 (List.replicate 16 9) [35] (by decide) (by decide) (by decide) (by decide)
    (by decide) (by decide) (by decide)
  ⟨by decide, by decide, h.2.2.2.1.trans rfl,
    (congrArg PairingManager.paired h.2.2.2.2).trans rfl,
    (congrArg PairingManager.pairedDeviceId h.2.2.2.2).trans rfl⟩

/-! ## C11: the fragments of one message -/

theorem sendSecureMessage_seqNumber (c : Crypto) (env : SendEnv) (pms : List PendingMessage)
    (text key : List Byte) (seqNumber : Nat) :
    (sendSecureMessage c env pms text key seqNumber).seqNumber = (seqNumber + 1) % 2 ^ 32 := by
  unfold sendSecureMessage
  simp only []
  split <;> rfl

theorem sendSecureMessage_sent_length (c : Crypto) (env : SendEnv) (pms : List PendingMessage)
    (text key : List Byte) (seqNumber : Nat) :
    (sendSecureMessage c env pms text key seqNumber).sent.length =
      ((text.length + 2 + MAX_FRAGMENT_PAYLOAD - 1) / MAX_FRAGMENT_PAYLOAD) % 2 ^ 16 := by
  unfold sendSecureMessage
  simp only [aesCtrCrypt_length, serializeText_length]
  split
  · rename_i h
    simp only [beq_iff_eq] at h
    rw [h]
    rfl
  · rw [sendFragments_sent]
    simp

theorem chunk_length_of_message (c : Crypto) (key iv text : List Byte) (i : Nat)
    (hi : i < (text.length + 2 + 155) / 156) :
    (fragmentChunk (aesCtrCrypt c key iv (serializeText text)) i).length =
      (if i + 1 < (text.length + 2 + 155) / 156 then 156
        else text.length + 2 - 156 * ((text.length + 2 + 155) / 156 - 1)) ∧
    1 ≤ (fragmentChunk (aesCtrCrypt c key iv (serializeText text)) i).length ∧
    (fragmentChunk (aesCtrCrypt c key iv (serializeText text)) i).length ≤ 156 := by
  rw [fragmentChunk_length, aesCtrCrypt_length, serializeText_length]
  simp only [MAX_FRAGMENT_PAYLOAD]
  split <;> omega

/-- C11 (amended): for every text whose fragment count `n = ceil((L + 2) / 156)`
fits the 16-bit field, `sendSecureMessage` emits exactly `n` packets and leaves
the counter at `seqNumber + 1` modulo 2^32; packet `i` is a DATA packet that
carries the sequence number the counter had before the call, the index `i` and
the total `n`, `156` ciphertext bytes unless it is the last, which carries the
remaining `1..156`, and its length is header, IV (for index 0 only), ciphertext
and tag. -/
theorem C11_fragments_emitted (c : Crypto) (env : SendEnv) (pms : List PendingMessage)
    (text key : List Byte) (seqNumber : Nat) (hs : seqNumber < 2 ^ 32)
    (hn : (text.length + 2 + 155) / 156 < 2 ^ 16) :
    (sendSecureMessage c env pms text key seqNumber).sent.length
        = (text.length + 2 + 155) / 156 ∧
    (sendSecureMessage c env pms text key seqNumber).seqNumber = (seqNumber + 1) % 2 ^ 32 ∧
    ∀ i, i < (text.length + 2 + 155) / 156 →
      ((sendSecureMessage c env pms text key seqNumber).sent.getD i []).head? = some PKT_DATA ∧
      rdU32 ((sendSecureMessage c env pms text key seqNumber).sent.getD i []) 1 = seqNumber ∧
      rdU16 ((sendSecureMessage c env pms text key seqNumber).sent.getD i []) 5 = i ∧
      rdU16 ((sendSecureMessage c env pms text key seqNumber).sent.getD i []) 7
        = (text.length + 2 + 155) / 156 ∧
      (dataCipherFrag ((sendSecureMessage c env pms text key seqNumber).sent.getD i [])).length
        = (if i + 1 < (text.length + 2 + 155) / 156 then 156
            else text.length + 2 - 156 * ((text.length + 2 + 155) / 156 - 1)) ∧
      1 ≤ (dataCipherFrag
        ((sendSecureMessage c env pms text key seqNumber).sent.getD i [])).length ∧
      (dataCipherFrag
        ((sendSecureMessage c env pms text key seqNumber).sent.getD i [])).length ≤ 156 ∧
      ((sendSecureMessage c env pms text key seqNumber).sent.getD i []).length
        = 9 + (if i = 0 then 16 else 0) +
          (dataCipherFrag
            ((sendSecureMessage c env pms text key seqNumber).sent.getD i [])).length + 16 ∧
      (i = 0 → dataIv ((sendSecureMessage c env pms text key seqNumber).sent.getD i [])
        = generateRandomBytes env.rnd 16) := by
  have hn' : (text.length + 2 + MAX_FRAGMENT_PAYLOAD - 1) / MAX_FRAGMENT_PAYLOAD
      = (text.length + 2 + 155) / 156 := rfl
  have hsent := sendSecureMessage_sent c env pms text key seqNumber (by rw [hn']; exact hn)
  rw [hn'] at hsent
  refine ⟨?_, sendSecureMessage_seqNumber c env pms text key seqNumber, ?_⟩
  · rw [hsent, List.length_map, List.length_range]
  · intro i hi
    have hget : (sendSecureMessage c env pms text key seqNumber).sent.getD i [] =
        dataPacket c
          (fragmentChunk (aesCtrCrypt c key (generateRandomBytes env.rnd 16)
            (serializeText text)) i)
          seqNumber i ((text.length + 2 + 155) / 156) (generateRandomBytes env.rnd 16) key := by
      rw [hsent, List.getD_eq_getElem?_getD, List.getElem?_map,
        List.getElem?_range hi]
      rfl
    rw [hget]
    obtain ⟨-, hlen, h1, h5, h7, hiv, hfrag⟩ := dataPacket_parse c
      (fragmentChunk (aesCtrCrypt c key (generateRandomBytes env.rnd 16)
        (serializeText text)) i)
      seqNumber i ((text.length + 2 + 155) / 156) (generateRandomBytes env.rnd 16) key
      hs (by have : (2:Nat) ^ 16 = 65536 := by norm_num
             omega) (by simpa using hn) (generateRandomBytes_length _ _)
    obtain ⟨hc1, hc2, hc3⟩ := chunk_length_of_message c key (generateRandomBytes env.rnd 16)
      text i hi
    rw [hfrag]
    refine ⟨?_, h1, h5, h7, hc1, hc2, hc3, hlen, hiv⟩
    rw [dataPacket_eq]
    rfl

theorem text10M_length : (List.replicate 10223614 (0 : Byte)).length = 10223614 :=
  List.length_replicate _ _

/-- C11, witness: a 400-byte text sent with counter 5. -/
theorem C11_fragments_emitted_witness :
    (5 < 2 ^ 32 ∧ (text400.length + 2 + 155) / 156 < 2 ^ 16) ∧
    (sendSecureMessage xorCrypto demoEnv [] text400 demoKey 5).sent.length
        = (text400.length + 2 + 155) / 156 :=
  ⟨⟨by decide, by rw [text400_length]; decide⟩,
    (C11_fragments_emitted xorCrypto demoEnv [] text400 demoKey 5 (by decide)
      (by rw [text400_length]; decide)).1⟩

/-- C11, counterexample: a text of 10223614 bytes needs 65536 fragments, which
the 16-bit count turns into 0, so that no packet at all is emitted; and a call
made with the counter at `2^32 - 1` leaves it at 0. -/
theorem C11_counterexample_wrap :
    (10223614 + 2 + 155) / 156 = 65536 ∧
    (sendSecureMessage xorCrypto demoEnv [] (List.replicate 10223614 0) demoKey 0).sent = [] ∧
    (sendSecureMessage xorCrypto demoEnv [] [] demoKey (2 ^ 32 - 1)).seqNumber = 0 := by
  refine ⟨by decide, ?_, ?_⟩
  · apply List.eq_nil_of_length_eq_zero
    rw [sendSecureMessage_sent_length, text10M_length]
    decide
  · rw [sendSecureMessage_seqNumber]
    decide

/-! ## C12: the acknowledgement -/

theorem be16_rdU16 (p : List Byte) (i : Nat) (h : i + 2 ≤ p.length) :
    be16 (rdU16 p i) = (p.drop i).take 2 := by
  obtain ⟨a, b, rest, hp⟩ : ∃ a b rest, p.drop i = a :: b :: rest := by
    match hd : p.drop i with
    | [] => have := congrArg List.length hd; simp at this; omega
    | [_] => have := congrArg List.length hd; simp at this; omega
    | a :: b :: rest => exact ⟨a, b, rest, rfl⟩
  have ha : p.getD i 0 = a := by
    have := congrArg (fun l => l.getD 0 0) hp
    simpa [List.getD_eq_getElem?_getD, List.getElem?_drop] using this
  have hb : p.getD (i + 1) 0 = b := by
    have := congrArg (fun l => l.getD 1 0) hp
    simpa [List.getD_eq_getElem?_getD, List.getElem?_drop] using this
  rw [hp]
  unfold rdU16 byteAt
  rw [ha, hb, rd16_eq _ _ b.isLt]
  simp only [be16, List.take, Nat.shiftRight_eq_div_pow]
  have h1 : toByte ((a.val * 256 + b.val) / 2 ^ 8 &&& 0xFF) = a := by
    apply Fin.ext
    rw [toByte_and_val]
    have := a.isLt; have := b.isLt
    omega
  have h2 : toByte ((a.val * 256 + b.val) &&& 0xFF) = b := by
    apply Fin.ext
    rw [toByte_and_val]
    have := a.isLt; have := b.isLt
    omega
  rw [h1, h2]

theorem be32_rdU32 (p : List Byte) (i : Nat) (h : i + 4 ≤ p.length) :
    be32 (rdU32 p i) = (p.drop i).take 4 := by
  obtain ⟨a, b, d, e, rest, hp⟩ : ∃ a b d e rest, p.drop i = a :: b :: d :: e :: rest := by
    match hd : p.drop i with
    | [] => have := congrArg List.length hd; simp at this; omega
    | [_] => have := congrArg List.length hd; simp at this; omega
    | [_, _] => have := congrArg List.length hd; simp at this; omega
    | [_, _, _] => have := congrArg List.length hd; simp at this; omega
    | a :: b :: d :: e :: rest => exact ⟨a, b, d, e, rest, rfl⟩
  have ha : p.getD i 0 = a := by
    have := congrArg (fun l => l.getD 0 0) hp
    simpa [List.getD_eq_getElem?_getD, List.getElem?_drop] using this
  have hb : p.getD (i + 1) 0 = b := by
    have := congrArg (fun l => l.getD 1 0) hp
    simpa [List.getD_eq_getElem?_getD, List.getElem?_drop] using this
  have hd : p.getD (i + 2) 0 = d := by
    have := congrArg (fun l => l.getD 2 0) hp
    simpa [List.getD_eq_getElem?_getD, List.getElem?_drop] using this
  have he : p.getD (i + 3) 0 = e := by
    have := congrArg (fun l => l.getD 3 0) hp
    simpa [List.getD_eq_getElem?_getD, List.getElem?_drop] using this
  rw [hp]
  unfold rdU32 byteAt
  rw [ha, hb, hd, he, rd32_eq _ _ _ _ b.isLt d.isLt e.isLt]
  simp only [be32, List.take, Nat.shiftRight_eq_div_pow]
  have := a.isLt; have := b.isLt; have := d.isLt; have := e.isLt
  have h1 : toByte ((a.val * 2 ^ 24 + b.val * 2 ^ 16 + d.val * 2 ^ 8 + e.val) / 2 ^ 24 &&& 0xFF)
      = a := by
    apply Fin.ext
    rw [toByte_and_val]
    omega
  have h2 : toByte ((a.val * 2 ^ 24 + b.val * 2 ^ 16 + d.val * 2 ^ 8 + e.val) / 2 ^ 16 &&& 0xFF)
      = b := by
    apply Fin.ext
    rw [toByte_and_val]
    omega
  have h3 : toByte ((a.val * 2 ^ 24 + b.val * 2 ^ 16 + d.val * 2 ^ 8 + e.val) / 2 ^ 8 &&& 0xFF)
      = d := by
    apply Fin.ext
    rw [toByte_and_val]
    omega
  have h4 : toByte ((a.val * 2 ^ 24 + b.val * 2 ^ 16 + d.val * 2 ^ 8 + e.val) &&& 0xFF)
      = e := by
    apply Fin.ext
    rw [toByte_and_val]
    omega
  rw [h1, h2, h3, h4]

theorem handle_sent (c : Crypto) (fm : FragmentManager) (now : Nat) (P key : List Byte)
    (hv : validTag c key P) (h0 : rdU16 P 5 = 0 → 25 ≤ P.length - 16) :
    (handleDataPacket c fm now P key).sent = [sendAck c (rdU32 P 1) (rdU16 P 5) key] := by
  by_cases hm : rdU16 P 7 = 1
  · generalize hr : handleDataPacket c fm now P key = r
    unfold handleDataPacket at hr
    have hlen : ¬ P.length < 1 + 4 + 2 + 2 + 16 := by have := hv.1; omega
    rw [if_neg hlen] at hr
    simp only [] at hr
    have htag : ¬ ((P.drop (P.length - 16) !=
        hmacSha256Trunc16 c key (P.take (P.length - 16))) = true) := by
      rw [hv.2]; simp
    rw [if_neg htag] at hr
    have hiv : ¬ ((rdU16 P 5 == 0 && decide (P.length - 16 < 9 + 16)) = true) := by
      intro h
      simp only [Bool.and_eq_true, beq_iff_eq, decide_eq_true_eq] at h
      have := h0 h.1
      omega
    rw [if_neg hiv] at hr
    have h1 : (rdU16 P 7 == 1) = true := by simp [hm]
    rw [if_pos h1] at hr
    by_cases h5 : rdU16 P 5 = 0
    · have hn : ¬ ((!(rdU16 P 5 == 0)) = true) := by simp [h5]
      rw [if_neg hn] at hr
      subst hr
      split <;> rfl
    · have hn : ((!(rdU16 P 5 == 0)) = true) := by simp [h5]
      rw [if_pos hn] at hr
      subst hr
      rfl
  · obtain ⟨o, bufs, -, hh, -⟩ := handle_multi c fm now P key hv hm h0
    rw [hh]

/-- C12: a DATA packet that passes the length and tag checks (at least 25
bytes, a valid tag and, for fragment index 0, at least 16 bytes of IV before
the tag) makes `handleDataPacket` send exactly one packet, the ACK: the byte
0x11, the sequence number and the fragment index of the packet in big-endian
order (its bytes 1 to 6), and the keyed tag of those 7 bytes under the session
key; this holds in every state of the receiver, so for new and for duplicate
fragments alike. -/
theorem C12_one_ack_per_valid_packet (c : Crypto) (fm : FragmentManager) (now : Nat)
    (P key : List Byte) (hv : validTag c key P)
    (h0 : rdU16 P 5 = 0 → 25 ≤ P.length - 16) :
    (handleDataPacket c fm now P key).sent =
      [[PKT_ACK] ++ be32 (rdU32 P 1) ++ be16 (rdU16 P 5) ++
        hmacSha256Trunc16 c key ([PKT_ACK] ++ be32 (rdU32 P 1) ++ be16 (rdU16 P 5))] ∧
    PKT_ACK = 0x11 ∧
    be32 (rdU32 P 1) = (P.drop 1).take 4 ∧
    be16 (rdU16 P 5) = (P.drop 5).take 2 := by
  refine ⟨?_, rfl, be32_rdU32 P 1 (by have := hv.1; omega),
    be16_rdU16 P 5 (by have := hv.1; omega)⟩
  rw [handle_sent c fm now P key hv h0]
  rfl

set_option maxRecDepth 8000 in
/-- C12, witness: the packet `packetCollision` handled by a receiver that
already holds its fragment. -/
theorem C12_one_ack_per_valid_packet_witness :
    validTag xorCrypto demoKey packetCollision ∧
    (rdU16 packetCollision 5 = 0 → 25 ≤ packetCollision.length - 16) ∧
    (handleDataPacket xorCrypto fmAfterCollision 500 packetCollision demoKey).sent =
      [[PKT_ACK] ++ be32 (rdU32 packetCollision 1) ++ be16 (rdU16 packetCollision 5) ++
        hmacSha256Trunc16 xorCrypto demoKey
          ([PKT_ACK] ++ be32 (rdU32 packetCollision 1) ++ be16 (rdU16 packetCollision 5))] :=
  have hv : validTag xorCrypto demoKey packetCollision := ⟨by decide, by decide⟩
  ⟨hv, by decide,
    (C12_one_ack_per_valid_packet xorCrypto fmAfterCollision 500 packetCollision demoKey hv
      (by decide)).1⟩

/-! ## C13: a fragment index that is out of range -/

theorem finishIfComplete_fragments (c : Crypto) (key : List Byte) (fb : FragmentBuffer) :
    (finishIfComplete c key fb).fb.fragments = fb.fragments := by
  rcases finishIfComplete_fb c key fb with h | h <;> rw [h]

theorem storeFragment_len (c : Crypto) (key : List Byte) (fb : FragmentBuffer) (fragId : Nat)
    (hasIv : Bool) (iv chunk : List Byte) :
    (storeFragment c key fb fragId hasIv iv chunk).fb.fragments.length = fb.fragments.length := by
  unfold storeFragment
  cases hc : captureIv fb hasIv iv with
  | none => rfl
  | some fb1 =>
    obtain ⟨-, -, hf, -⟩ := captureIv_some fb fb1 hasIv iv hc
    simp only []
    split
    · simp only [hf]
    · split
      · simp only [hf]
      · rw [finishIfComplete_fragments]
        simp only [List.length_set, hf]

theorem storeFragment_out_of_range (c : Crypto) (key : List Byte) (fb : FragmentBuffer)
    (fragId : Nat) (hasIv : Bool) (iv chunk : List Byte) (hge : fb.fragments.length ≤ fragId) :
    (storeFragment c key fb fragId hasIv iv chunk).ret = false ∧
    (storeFragment c key fb fragId hasIv iv chunk).delivered = none ∧
    (storeFragment c key fb fragId hasIv iv chunk).fb.fragments = fb.fragments ∧
    (storeFragment c key fb fragId hasIv iv chunk).fb.complete = fb.complete := by
  unfold storeFragment
  cases hc : captureIv fb hasIv iv with
  | none => exact ⟨rfl, rfl, rfl, rfl⟩
  | some fb1 =>
    obtain ⟨-, -, hf, -, hcomp, -⟩ := captureIv_some fb fb1 hasIv iv hc
    simp only []
    have h : fragId ≥ fb1.fragments.length := by rw [hf]; exact hge
    rw [if_pos h]
    exact ⟨rfl, rfl, hf, hcomp⟩

/-- Every fragment buffer of a reachable state has as many slots as the
message has fragments. -/
theorem reachable_sized (c : Crypto) (fm : FragmentManager) (h : Reachable c fm) :
    ∀ fb ∈ fm.fragmentBuffers, fb.fragments.length = fb.totalFrags := by
  induction h with
  | init pms => intro fb hfb; exact absurd hfb (List.not_mem_nil fb)
  | purge fm now _ ih => intro fb hfb; exact ih fb (purge_mem _ _ _ hfb)
  | pending fm pms _ ih => exact ih
  | data fm now P key _ ih =>
    rcases handle_fm_cases c fm now P key with h | ⟨hv, hm, h0⟩
    · rw [h]; exact ih
    · obtain ⟨o, bufs, ho, hr, -, hb⟩ := handle_multi c fm now P key hv hm h0
      rw [hr]
      simp only []
      have hfbok : (((purgeOldFragments now fm.fragmentBuffers).find?
          (bufferMatches (rdU32 P 1) (rdU16 P 7))).getD
          (newFragmentBuffer (rdU32 P 1) (rdU16 P 7) now)).fragments.length =
          (((purgeOldFragments now fm.fragmentBuffers).find?
          (bufferMatches (rdU32 P 1) (rdU16 P 7))).getD
          (newFragmentBuffer (rdU32 P 1) (rdU16 P 7) now)).totalFrags := by
        cases hfind : (purgeOldFragments now fm.fragmentBuffers).find?
            (bufferMatches (rdU32 P 1) (rdU16 P 7)) with
        | none => simp [newFragmentBuffer]
        | some x => exact ih x (purge_mem _ _ _ (List.mem_of_find?_eq_some hfind))
      have hook : o.fb.fragments.length = o.fb.totalFrags := by
        rw [ho, storeFragment_len, (storeFragment_key _ _ _ _ _ _ _).2]
        exact hfbok
      intro fb hfb
      rw [hb] at hfb
      rcases List.mem_or_eq_of_mem_set hfb with h | h
      · rcases locateBuffer_mem _ _ _ _ _ h with h | h
        · exact ih fb (purge_mem _ _ _ h)
        · rw [h]; simp [newFragmentBuffer]
      · rw [h]; exact hook

theorem handle_single_noiv (c : Crypto) (fm : FragmentManager) (now : Nat) (P key : List Byte)
    (hv : validTag c key P) (h1 : rdU16 P 7 = 1) (h5 : rdU16 P 5 ≠ 0) :
    handleDataPacket c fm now P key =
      ⟨false, fm, [sendAck c (rdU32 P 1) (rdU16 P 5) key], none⟩ := by
  generalize hr : handleDataPacket c fm now P key = r
  unfold handleDataPacket at hr
  have hlen : ¬ P.length < 1 + 4 + 2 + 2 + 16 := by have := hv.1; omega
  rw [if_neg hlen] at hr
  simp only [] at hr
  have htag : ¬ ((P.drop (P.length - 16) !=
      hmacSha256Trunc16 c key (P.take (P.length - 16))) = true) := by
    rw [hv.2]; simp
  rw [if_neg htag] at hr
  have hiv : ¬ ((rdU16 P 5 == 0 && decide (P.length - 16 < 9 + 16)) = true) := by
    simp [h5]
  rw [if_neg hiv] at hr
  have h1' : (rdU16 P 7 == 1) = true := by simp [h1]
  rw [if_pos h1'] at hr
  have hn : ((!(rdU16 P 5 == 0)) = true) := by simp [h5]
  rw [if_pos hn] at hr
  exact hr.symm

/-- C13 (amended): a DATA packet that passes the length and tag checks and
whose fragment index is not below its total fragment count is not delivered:
in every reachable state `handleDataPacket` returns false, prints no message
and stores the fragment in no slot (every buffer present afterwards either
existed before with the same slots and completion flag, or has only empty
slots), but it does send the ACK for the packet. -/
theorem C13_index_out_of_range (c : Crypto) (fm : FragmentManager) (now : Nat)
    (P key : List Byte) (hreach : Reachable c fm) (hv : validTag c key P)
    (h0 : rdU16 P 5 = 0 → 25 ≤ P.length - 16) (hge : rdU16 P 7 ≤ rdU16 P 5) :
    (handleDataPacket c fm now P key).ret = false ∧
    (handleDataPacket c fm now P key).delivered = none ∧
    (handleDataPacket c fm now P key).sent = [sendAck c (rdU32 P 1) (rdU16 P 5) key] ∧
    (handleDataPacket c fm now P key).fm.pendingMessages = fm.pendingMessages ∧
    ∀ fb1 ∈ (handleDataPacket c fm now P key).fm.fragmentBuffers,
      (∃ fb ∈ fm.fragmentBuffers, fb1.seq = fb.seq ∧ fb1.totalFrags = fb.totalFrags ∧
        fb1.fragments = fb.fragments ∧ fb1.complete = fb.complete) ∨
      (fb1.fragments = List.replicate fb1.totalFrags [] ∧ fb1.complete = false) := by
  by_cases hm : rdU16 P 7 = 1
  · rw [handle_single_noiv c fm now P key hv hm (by omega)]
    exact ⟨rfl, rfl, rfl, rfl, fun fb1 h => Or.inl ⟨fb1, h, rfl, rfl, rfl, rfl⟩⟩
  · obtain ⟨o, bufs, ho, hr, -, hb⟩ := handle_multi c fm now P key hv hm h0
    have hsized := reachable_sized c fm hreach
    have hcase : (∃ fb ∈ fm.fragmentBuffers,
          ((purgeOldFragments now fm.fragmentBuffers).find?
            (bufferMatches (rdU32 P 1) (rdU16 P 7))).getD
            (newFragmentBuffer (rdU32 P 1) (rdU16 P 7) now) = fb ∧ fb.totalFrags = rdU16 P 7) ∨
        ((purgeOldFragments now fm.fragmentBuffers).find?
            (bufferMatches (rdU32 P 1) (rdU16 P 7))).getD
            (newFragmentBuffer (rdU32 P 1) (rdU16 P 7) now) =
          newFragmentBuffer (rdU32 P 1) (rdU16 P 7) now := by
      cases hfind : (purgeOldFragments now fm.fragmentBuffers).find?
          (bufferMatches (rdU32 P 1) (rdU16 P 7)) with
      | none => right; rfl
      | some x =>
        left
        refine ⟨x, purge_mem _ _ _ (List.mem_of_find?_eq_some hfind), rfl, ?_⟩
        exact ((bufferMatches_iff _ _ _).mp (List.find?_some hfind)).2
    have hlen : (((purgeOldFragments now fm.fragmentBuffers).find?
            (bufferMatches (rdU32 P 1) (rdU16 P 7))).getD
            (newFragmentBuffer (rdU32 P 1) (rdU16 P 7) now)).fragments.length ≤ rdU16 P 5 := by
      rcases hcase with ⟨fb, hmem, heq, ht⟩ | heq
      · rw [heq, hsized fb hmem, ht]; exact hge
      · rw [heq]; simpa [newFragmentBuffer] using hge
    obtain ⟨hret, hdel, hfr, hcomp⟩ := storeFragment_out_of_range c key _ (rdU16 P 5)
      (rdU16 P 5 == 0) (if rdU16 P 5 == 0 then dataIv P else []) (dataCipherFrag P) hlen
    obtain ⟨hseq, htot⟩ := storeFragment_key c key
      (((purgeOldFragments now fm.fragmentBuffers).find?
            (bufferMatches (rdU32 P 1) (rdU16 P 7))).getD
            (newFragmentBuffer (rdU32 P 1) (rdU16 P 7) now)) (rdU16 P 5)
      (rdU16 P 5 == 0) (if rdU16 P 5 == 0 then dataIv P else []) (dataCipherFrag P)
    rw [← ho] at hret hdel hfr hcomp hseq htot
    rw [hr]
    refine ⟨hret, hdel, rfl, rfl, ?_⟩
    intro fb1 hfb1
    simp only [] at hfb1
    rw [hb] at hfb1
    rcases List.mem_or_eq_of_mem_set hfb1 with h | h
    · rcases locateBuffer_mem _ _ _ _ _ h with h | h
      · exact Or.inl ⟨fb1, purge_mem _ _ _ h, rfl, rfl, rfl, rfl⟩
      · right; rw [h]; exact ⟨rfl, rfl⟩
    · rcases hcase with ⟨fb, hmem, heq, -⟩ | heq
      · left
        rw [heq] at hfr hcomp hseq htot
        exact ⟨fb, hmem, by rw [h, hseq], by rw [h, htot], by rw [h, hfr], by rw [h, hcomp]⟩
      · right
        rw [heq] at hfr hcomp htot
        rw [h, hfr, hcomp, htot]
        exact ⟨rfl, rfl⟩

set_option maxRecDepth 8000 in
/-- C13, witness: fragment index 5 of a message of 2 fragments, handled by a
receiver that holds another fragment of that message. -/
theorem C13_index_out_of_range_witness :
    Reachable xorCrypto fmAfterCollision ∧ validTag xorCrypto demoKey packetIndex5of2 ∧
    (rdU16 packetIndex5of2 5 = 0 → 25 ≤ packetIndex5of2.length - 16) ∧
    rdU16 packetIndex5of2 7 ≤ rdU16 packetIndex5of2 5 ∧
    (handleDataPacket xorCrypto fmAfterCollision 500 packetIndex5of2 demoKey).ret = false ∧
    (handleDataPacket xorCrypto fmAfterCollision 500 packetIndex5of2 demoKey).delivered
      = none :=
  have hreach : Reachable xorCrypto fmAfterCollision :=
    Reachable.data ⟨[], []⟩ 0 packetCollision demoKey (Reachable.init [])
  have hv : validTag xorCrypto demoKey packetIndex5of2 := ⟨by decide, by decide⟩
  have h := C13_index_out_of_range xorCrypto fmAfterCollision 500 packetIndex5of2 demoKey
    hreach hv (by decide) (by decide)
  ⟨hreach, hv, by decide, by decide, h.1, h.2.1⟩

set_option maxRecDepth 8000 in
/-- C13, counterexample: fragment index 5 of a message of 2 fragments, with a
valid tag, handled by a receiver with no buffers: the call returns false, but
a reply (the ACK) is sent and a fragment buffer is created. -/
theorem C13_counterexample_ack_and_buffer :
    validTag xorCrypto demoKey packetIndex5of2 ∧
    rdU16 packetIndex5of2 5 = 5 ∧ rdU16 packetIndex5of2 7 = 2 ∧
    (handleDataPacket xorCrypto ⟨[], []⟩ 0 packetIndex5of2 demoKey).ret = false ∧
    (handleDataPacket xorCrypto ⟨[], []⟩ 0 packetIndex5of2 demoKey).sent =
      [sendAck xorCrypto 0 5 demoKey] ∧
    (handleDataPacket xorCrypto ⟨[], []⟩ 0 packetIndex5of2 demoKey).fm.fragmentBuffers =
      [newFragmentBuffer 0 2 0] ∧
    (handleDataPacket xorCrypto ⟨[], []⟩ 0 packetIndex5of2 demoKey).fm.fragmentBuffers ≠ [] :=
  ⟨⟨by decide, by decide⟩, by decide, by decide, by decide, by decide, by decide, by decide⟩

/-! ## C14: the target of a BIND_REQUEST -/

/-- C14: `handleBindRequest` processes a request exactly when its target id is
the local device id. A request whose target differs makes it return false,
send nothing and leave the whole state as it was; it returns true only for
requests addressed to the local id; and a well-formed request addressed to the
local id (its public key fits in the packet) becomes the pending bind, with
the initiator id, the nonce and the public key exactly as carried, whatever
was pending before, while the paired flag and the session key stay as they
were and nothing is sent. -/
theorem C14_bind_request_target (dev : Device) (packet : List Byte) :
    (rdU32 packet 1 ≠ dev.pm.deviceId → handleBindRequest dev packet = ⟨false, dev, []⟩) ∧
    ((handleBindRequest dev packet).ret = true → rdU32 packet 1 = dev.pm.deviceId) ∧
    (rdU32 packet 1 = dev.pm.deviceId → 26 + byteAt packet 25 ≤ packet.length →
      (handleBindRequest dev packet).ret = true ∧
      (handleBindRequest dev packet).sent = [] ∧
      (handleBindRequest dev packet).dev.pm.pendingBind = true ∧
      (handleBindRequest dev packet).dev.pm.pendingInitiatorId = rdU32 packet 5 ∧
      (handleBindRequest dev packet).dev.pm.pendingNonceI = (packet.drop 9).take 16 ∧
      (handleBindRequest dev packet).dev.pm.pendingPubI
        = (packet.drop 26).take (byteAt packet 25) ∧
      (handleBindRequest dev packet).dev.pm.paired = dev.pm.paired ∧
      (handleBindRequest dev packet).dev.pm.sessionKey = dev.pm.sessionKey ∧
      (handleBindRequest dev packet).dev.pm.pairedDeviceId = dev.pm.pairedDeviceId ∧
      (handleBindRequest dev packet).dev.sec = dev.sec ∧
      (handleBindRequest dev packet).dev.nvs = dev.nvs) := by
  refine ⟨?_, ?_, ?_⟩
  · intro hne
    unfold handleBindRequest
    by_cases h1 : packet.length < 1 + 4 + 4 + 16 + 1
    · rw [if_pos h1]
    · rw [if_neg h1]
      simp only []
      rw [if_pos (by simpa using hne)]
  · intro hret
    by_contra hne
    have : handleBindRequest dev packet = ⟨false, dev, []⟩ := by
      unfold handleBindRequest
      by_cases h1 : packet.length < 1 + 4 + 4 + 16 + 1
      · rw [if_pos h1]
      · rw [if_neg h1]
        simp only []
        rw [if_pos (by simpa using hne)]
    rw [this] at hret
    exact Bool.false_ne_true hret
  · intro heq hlen
    generalize hr : handleBindRequest dev packet = r
    unfold handleBindRequest at hr
    have h1 : ¬ packet.length < 1 + 4 + 4 + 16 + 1 := by omega
    rw [if_neg h1] at hr
    simp only [] at hr
    rw [if_neg (by simpa using heq)] at hr
    have h3 : ¬ packet.length < 1 + 4 + 4 + 16 + 1 + byteAt packet (1 + 4 + 4 + 16) := by
      show ¬ packet.length < 26 + byteAt packet 25
      omega
    rw [if_neg h3] at hr
    subst hr
    exact ⟨rfl, rfl, rfl, rfl, rfl, rfl, rfl, rfl, rfl, rfl, rfl⟩

set_option maxRecDepth 8000 in
/-- C14, witness: the request `requestFromStranger`, addressed to `0x33334444`,
handled by the device `0x11112222` and by the device `0x33334444`. -/
theorem C14_bind_request_target_witness :
    rdU32 requestFromStranger 1 ≠ (freshDevice 0x11112222).pm.deviceId ∧
    handleBindRequest (freshDevice 0x11112222) requestFromStranger =
      ⟨false, freshDevice 0x11112222, []⟩ ∧
    rdU32 requestFromStranger 1 = deviceWithKey.pm.deviceId ∧
    26 + byteAt requestFromStranger 25 ≤ requestFromStranger.length ∧
    (handleBindRequest deviceWithKey requestFromStranger).ret = true ∧
    (handleBindRequest deviceWithKey requestFromStranger).dev.pm.pendingInitiatorId
      = rdU32 requestFromStranger 5 :=
  have h := (C14_bind_request_target deviceWithKey requestFromStranger).2.2
    (by decide) (by decide)
  ⟨by decide,
    (C14_bind_request_target (freshDevice 0x11112222) requestFromStranger).1 (by decide),
    by decide, by decide, h.1, h.2.2.2.1⟩

/-! ## C15: failures of the key pair and of the key agreement -/

/-- C15, what the code does: when key generation fails, `sendBindRequest`
returns false and sends nothing. `acceptPendingBind` with a pending request
also sends nothing when key generation or the shared-secret computation fails
inside `sendBindResponse`, but that function is `void`: `acceptPendingBind`
clears the pending request and returns true all the same. -/
theorem C15_accept_returns_true_on_failure (c : Crypto) (env : PairEnv) (dev : Device)
    (hpend : dev.pm.pendingBind = true)
    (hfail : (generateKeypair c dev.sec env.gen).2 = none ∨
      (computeSharedSecret c (generateKeypair c dev.sec env.gen).1 dev.pm.pendingPubI).2
        = none) :
    (acceptPendingBind c env dev).ret = true ∧
    (acceptPendingBind c env dev).sent = [] ∧
    (acceptPendingBind c env dev).dev.pm.pendingBind = false ∧
    ((generateKeypair c dev.sec env.gen).2 = none →
      ∀ targetId, (sendBindRequest c env dev targetId).ret = false ∧
        (sendBindRequest c env dev targetId).sent = []) := by
  refine ⟨?_, ?_, ?_, ?_⟩
  · unfold acceptPendingBind
    rw [if_neg (by simp [hpend])]
  · generalize hr : acceptPendingBind c env dev = r
    unfold acceptPendingBind at hr
    rw [if_neg (by simp [hpend])] at hr
    simp only [sendBindResponse] at hr
    cases hg : generateKeypair c dev.sec env.gen with
    | mk sec o =>
      rw [hg] at hr hfail
      cases o with
      | none => simp only [] at hr; subst hr; rfl
      | some pubR =>
        simp only [] at hr
        cases hs : computeSharedSecret c sec dev.pm.pendingPubI with
        | mk sec2 o2 =>
          rw [hs] at hr hfail
          cases o2 with
          | none => simp only [] at hr; subst hr; rfl
          | some z =>
            rcases hfail with h | h
            · exact absurd h (by simp)
            · exact absurd h (by simp)
  · unfold acceptPendingBind
    rw [if_neg (by simp [hpend])]
  · intro hnone targetId
    generalize hr : sendBindRequest c env dev targetId = r
    unfold sendBindRequest at hr
    cases hg : generateKeypair c dev.sec env.gen with
    | mk sec o =>
      rw [hg] at hr hnone
      simp only [] at hnone
      subst hnone
      simp only [] at hr
      subst hr
      exact ⟨rfl, rfl⟩

set_option maxRecDepth 8000 in
/-- C15, the code at the failing input: the device `0x33334444` receives a
BIND_REQUEST whose public key has length 0 and the operator accepts it; the
key agreement fails on the empty key. `acceptPendingBind` returns true, no
BIND_RESPONSE is sent and the request is no longer pending. The same happens
for the pending request of `devicePending` when key generation fails. -/
theorem C15_accept_returns_true_on_failure_witness :
    (handleBindRequest deviceWithKey requestEmptyKey).ret = true ∧
    devicePendingEmptyKey.pm.pendingBind = true ∧
    (computeSharedSecret strictCrypto
      (generateKeypair strictCrypto devicePendingEmptyKey.sec (demoPairEnv 7).gen).1
      devicePendingEmptyKey.pm.pendingPubI).2 = none ∧
    (acceptPendingBind strictCrypto (demoPairEnv 7) devicePendingEmptyKey).ret = true ∧
    (acceptPendingBind strictCrypto (demoPairEnv 7) devicePendingEmptyKey).sent = [] ∧
    (acceptPendingBind strictCrypto (demoPairEnv 7) devicePendingEmptyKey).dev.pm.pendingBind
      = false ∧
    devicePending.pm.pendingBind = true ∧
    (generateKeypair xorCrypto devicePending.sec demoPairEnvNoKey.gen).2 = none ∧
    (acceptPendingBind xorCrypto demoPairEnvNoKey devicePending).ret = true ∧
    (acceptPendingBind xorCrypto demoPairEnvNoKey devicePending).sent = [] ∧
    (acceptPendingBind xorCrypto demoPairEnvNoKey devicePending).dev.pm.pendingBind = false :=
  have h1 := C15_accept_returns_true_on_failure strictCrypto (demoPairEnv 7)
    devicePendingEmptyKey (by decide) (Or.inr (by decide))
  have h2 := C15_accept_returns_true_on_failure xorCrypto demoPairEnvNoKey devicePending
    (by decide) (Or.inl (by decide))
  ⟨by decide, by decide, by decide, h1.1, h1.2.1, h1.2.2.1, by decide, by decide, h2.1, h2.2.1,
    h2.2.2.1⟩

/-! ## C16: what is persisted when a handshake completes -/

theorem deriveSessionKeyFromShared_length (c : Crypto) (shared nonceI nonceR : List Byte) :
    (deriveSessionKeyFromShared c shared nonceI nonceR).length = 16 := by
  simp [deriveSessionKeyFromShared, sha256, fixLen_length]

theorem sendBindConfirm_dev (c : Crypto) (dev : Device) (pubI pubR : List Byte) :
    (sendBindConfirm c dev pubI pubR).dev.pm = dev.pm ∧
    (sendBindConfirm c dev pubI pubR).dev.nvs = dev.nvs := by
  unfold sendBindConfirm
  simp only [computeSharedSecret]
  cases c.ecdhRaw dev.sec.ecdhD pubR <;> exact ⟨rfl, rfl⟩

/-- What a successful `handleBindResponse` leaves behind. -/
theorem handleBindResponse_saved (c : Crypto) (env : PairEnv) (dev : Device)
    (packet : List Byte) (hret : (handleBindResponse c env dev packet).ret = true) :
    (handleBindResponse c env dev packet).dev.pm.paired = true ∧
    (handleBindResponse c env dev packet).dev.pm.sessionKey.length = 16 ∧
    (handleBindResponse c env dev packet).dev.pm.pairedDeviceId = rdU32 packet 5 ∧
    (handleBindResponse c env dev packet).dev.nvs =
      (nvsSavePairingState dev.nvs env.nvsOpens
        (handleBindResponse c env dev packet).dev.pm.sessionKey true).1 := by
  generalize hr : handleBindResponse c env dev packet = r at hret ⊢
  unfold handleBindResponse at hr
  by_cases h1 : packet.length < 1 + 4 + 4 + 16 + 1 + 16
  · rw [if_pos h1] at hr; subst hr; exact absurd hret (by simp)
  rw [if_neg h1] at hr
  simp only [] at hr
  by_cases h2 : (rdU32 packet 1 != dev.pm.deviceId) = true
  · rw [if_pos h2] at hr; subst hr; exact absurd hret (by simp)
  rw [if_neg h2] at hr
  by_cases h3 : packet.length < 1 + 4 + 4 + 16 + 1 + byteAt packet (1 + 4 + 4 + 16) + 16
  · rw [if_pos h3] at hr; subst hr; exact absurd hret (by simp)
  rw [if_neg h3] at hr
  simp only [computeSharedSecret] at hr
  cases hsh : c.ecdhRaw dev.sec.ecdhD
      ((packet.drop (1 + 4 + 4 + 16 + 1)).take (byteAt packet (1 + 4 + 4 + 16))) with
  | none => rw [hsh] at hr; subst hr; exact absurd hret (by simp)
  | some shared =>
    rw [hsh] at hr
    simp only [] at hr
    cases hex : exportPublicKey { dev.sec with initialized := true } with
    | none => rw [hex] at hr; subst hr; exact absurd hret (by simp)
    | some pubI =>
      rw [hex] at hr
      simp only [] at hr
      by_cases h4 : (packet.drop (packet.length - 16) !=
          hmacSha256Trunc16 c
            (deriveSessionKeyFromShared c shared dev.pm.nonceInitiator
              ((packet.drop (1 + 4 + 4)).take 16))
            (labelRESP ++ dev.pm.nonceInitiator ++ (packet.drop (1 + 4 + 4)).take 16 ++ pubI ++
              (packet.drop (1 + 4 + 4 + 16 + 1)).take (byteAt packet (1 + 4 + 4 + 16)))) = true
      · rw [if_pos h4] at hr; subst hr; exact absurd hret (by simp)
      rw [if_neg h4] at hr
      subst hr
      simp only []
      rw [(sendBindConfirm_dev _ _ _ _).1, (sendBindConfirm_dev _ _ _ _).2]
      exact ⟨rfl, deriveSessionKeyFromShared_length _ _ _ _, rfl, rfl⟩

/-- What a successful `handleBindConfirm` leaves behind. -/
theorem handleBindConfirm_saved (c : Crypto) (env : PairEnv) (dev : Device)
    (packet : List Byte) (hret : (handleBindConfirm c env dev packet).ret = true) :
    (handleBindConfirm c env dev packet).dev.pm.paired = true ∧
    (handleBindConfirm c env dev packet).dev.pm.sessionKey.length = 16 ∧
    (handleBindConfirm c env dev packet).dev.pm.pairedDeviceId = dev.pm.pendingInitiatorId ∧
    (handleBindConfirm c env dev packet).dev.nvs =
      (nvsSavePairingState dev.nvs env.nvsOpens
        (handleBindConfirm c env dev packet).dev.pm.sessionKey true).1 := by
  generalize hr : handleBindConfirm c env dev packet = r at hret ⊢
  unfold handleBindConfirm at hr
  by_cases h1 : packet.length < 1 + 16
  · rw [if_pos h1] at hr; subst hr; exact absurd hret (by simp)
  rw [if_neg h1] at hr
  simp only [computeSharedSecret] at hr
  cases hsh : c.ecdhRaw dev.sec.ecdhD dev.pm.pendingPubI with
  | none => rw [hsh] at hr; subst hr; exact absurd hret (by simp)
  | some shared =>
    rw [hsh] at hr
    simp only [] at hr
    cases hex : exportPublicKey { dev.sec with initialized := true } with
    | none => rw [hex] at hr; subst hr; exact absurd hret (by simp)
    | some pubR =>
      rw [hex] at hr
      simp only [] at hr
      by_cases h4 : ((packet.drop 1).take 16 !=
          hmacSha256Trunc16 c
            (deriveSessionKeyFromShared c shared dev.pm.pendingNonceI dev.pm.nonceResponder)
            (labelCONF ++ dev.pm.pendingNonceI ++ dev.pm.nonceResponder ++ dev.pm.pendingPubI ++
              pubR)) = true
      · rw [if_pos h4] at hr; subst hr; exact absurd hret (by simp)
      rw [if_neg h4] at hr
      subst hr
      exact ⟨rfl, deriveSessionKeyFromShared_length _ _ _ _, rfl, rfl⟩

/-- C16 (amended): when `handleBindResponse` or `handleBindConfirm` returns
true and the store opens, the store holds, before the handler returns, the
16-byte session key the handler installed and the paired flag `true`; these are
its only two entries. The identity of the peer (the responder id of the
response, the initiator id of the pending request) is kept in the
`PairingManager` only. -/
theorem C16_key_and_flag_persisted (c : Crypto) (env : PairEnv) (dev : Device)
    (packet : List Byte) (hopen : env.nvsOpens = true) :
    ((handleBindResponse c env dev packet).ret = true →
      (handleBindResponse c env dev packet).dev.pm.paired = true ∧
      (handleBindResponse c env dev packet).dev.pm.sessionKey.length = 16 ∧
      (handleBindResponse c env dev packet).dev.pm.pairedDeviceId = rdU32 packet 5 ∧
      (handleBindResponse c env dev packet).dev.nvs =
        ⟨some (handleBindResponse c env dev packet).dev.pm.sessionKey, some true⟩) ∧
    ((handleBindConfirm c env dev packet).ret = true →
      (handleBindConfirm c env dev packet).dev.pm.paired = true ∧
      (handleBindConfirm c env dev packet).dev.pm.sessionKey.length = 16 ∧
      (handleBindConfirm c env dev packet).dev.pm.pairedDeviceId = dev.pm.pendingInitiatorId ∧
      (handleBindConfirm c env dev packet).dev.nvs =
        ⟨some (handleBindConfirm c env dev packet).dev.pm.sessionKey, some true⟩) := by
  constructor
  · intro hret
    obtain ⟨h1, h2, h3, h4⟩ := handleBindResponse_saved c env dev packet hret
    refine ⟨h1, h2, h3, ?_⟩
    rw [h4]
    simp [nvsSavePairingState, hopen]
  · intro hret
    obtain ⟨h1, h2, h3, h4⟩ := handleBindConfirm_saved c env dev packet hret
    refine ⟨h1, h2, h3, ?_⟩
    rw [h4]
    simp [nvsSavePairingState, hopen]

set_option maxRecDepth 8000 in
/-- C16, witness: the device `devicePending` handles the confirmation
`confirmFromStranger` while the store opens. -/
theorem C16_key_and_flag_persisted_witness :
    (demoPairEnv 7).nvsOpens = true ∧
    (handleBindConfirm xorCrypto (demoPairEnv 7) devicePending confirmFromStranger).ret = true ∧
    (handleBindConfirm xorCrypto (demoPairEnv 7) devicePending confirmFromStranger).dev.nvs =
      ⟨some (handleBindConfirm xorCrypto (demoPairEnv 7) devicePending
        confirmFromStranger).dev.pm.sessionKey, some true⟩ :=
  ⟨rfl, by decide,
    ((C16_key_and_flag_persisted xorCrypto (demoPairEnv 7) devicePending confirmFromStranger
      rfl).2 (by decide)).2.2.2⟩

set_option maxRecDepth 8000 in
/-- C16, counterexample: the same confirmation completes the handshake of two
devices that differ only in the initiator id of their pending request; each
ends paired with its own initiator, and the two stores are equal, so the store
does not hold the identity of the peer. And when the store does not open, the
handler still returns true and the store holds nothing. -/
theorem C16_counterexample_store_without_peer :
    (handleBindConfirm xorCrypto (demoPairEnv 7) devicePending confirmFromStranger).ret = true ∧
    (handleBindConfirm xorCrypto (demoPairEnv 7) devicePendingOther confirmFromStranger).ret
      = true ∧
    (handleBindConfirm xorCrypto (demoPairEnv 7) devicePending
      confirmFromStranger).dev.pm.pairedDeviceId = 0x66667777 ∧
    (handleBindConfirm xorCrypto (demoPairEnv 7) devicePendingOther
      confirmFromStranger).dev.pm.pairedDeviceId = 0x12345678 ∧
    (handleBindConfirm xorCrypto (demoPairEnv 7) devicePending confirmFromStranger).dev.nvs =
      (handleBindConfirm xorCrypto (demoPairEnv 7) devicePendingOther
        confirmFromStranger).dev.nvs ∧
    (handleBindConfirm xorCrypto (demoPairEnvNoStore 7) devicePending confirmFromStranger).ret
      = true ∧
    (handleBindConfirm xorCrypto (demoPairEnvNoStore 7) devicePending
      confirmFromStranger).dev.nvs = ⟨none, none⟩ := by
  refine ⟨?_, ?_, ?_, ?_, ?_, ?_, ?_⟩ <;> decide

/-! ## C17: the packet type is searched in the first five bytes -/

theorem isPacketType_iff (b : Byte) :
    isPacketType b = true ↔
      (b = 0x20 ∨ b = 0x21 ∨ b = 0x22 ∨ b = 0x10 ∨ b = 0x30 ∨ b = 0x11 ∨ b = 0x31) := by
  simp only [isPacketType, PKT_BIND_REQ, PKT_BIND_RESP, PKT_BIND_CONFIRM, PKT_DATA, PKT_BEACON,
    PKT_ACK, PKT_HEARTBEAT, Bool.or_eq_true, beq_iff_eq]
  tauto

theorem isPacketType_ne_zero (b : Byte) (h : isPacketType b = true) : (b == 0) = false := by
  rcases (isPacketType_iff b).mp h with h | h | h | h | h | h | h <;> rw [h] <;> rfl

theorem findPacketTypeFrom_found (buffer : List Byte) (i : Nat) (hi : i < buffer.length)
    (hi5 : i < 5) (ht : isPacketType (buffer.getD i 0) = true) :
    ∀ fuel k, k ≤ i → i < k + fuel →
      (∀ j, k ≤ j → j < i → isPacketType (buffer.getD j 0) = false) →
      findPacketTypeFrom buffer k fuel = (buffer.getD i 0, i) := by
  intro fuel
  induction fuel with
  | zero => intro k hk hlt; omega
  | succ fuel ih =>
    intro k hk hlt hnot
    unfold findPacketTypeFrom
    rw [if_pos ⟨by omega, by omega⟩]
    by_cases hki : k = i
    · subst hki
      rw [if_pos ht]
    · have hk' : k < i := by omega
      rw [if_neg (by rw [hnot k (le_refl k) hk']; simp)]
      exact ih (k + 1) (by omega) (by omega) (fun j hj hji => hnot j (by omega) hji)

theorem findPacketTypeFrom_none (buffer : List Byte) :
    ∀ fuel k,
      (∀ j, k ≤ j → j < buffer.length → j < 5 → isPacketType (buffer.getD j 0) = false) →
      findPacketTypeFrom buffer k fuel = (0, 0) := by
  intro fuel
  induction fuel with
  | zero => intro k _; rfl
  | succ fuel ih =>
    intro k hnot
    unfold findPacketTypeFrom
    by_cases hk : k < buffer.length ∧ k < 5
    · rw [if_pos hk, if_neg (by rw [hnot k (le_refl k) hk.1 hk.2]; simp)]
      exact ih (k + 1) (fun j hj => hnot j (by omega))
    · rw [if_neg hk]

/-- The type found is the first byte among the first five that is a packet
type. -/
theorem findPacketType_first (buffer : List Byte) (i : Nat) (hi : i < min 5 buffer.length)
    (ht : isPacketType (buffer.getD i 0) = true)
    (hnot : ∀ j, j < i → isPacketType (buffer.getD j 0) = false) :
    findPacketType buffer = (buffer.getD i 0, i) := by
  have h5 : i < 5 := lt_of_lt_of_le hi (min_le_left _ _)
  have hl : i < buffer.length := lt_of_lt_of_le hi (min_le_right _ _)
  exact findPacketTypeFrom_found buffer i hl h5 ht 5 0 (Nat.zero_le _) (by omega)
    (fun j _ hj => hnot j hj)

theorem handlePacket_first (c : Crypto) (env : PairEnv) (handleAck : AckHandler) (now : Nat)
    (sys : System) (buffer : List Byte) (deviceId : Nat) (isPaired : Bool) (key : List Byte)
    (i : Nat) (hi : i < min 5 buffer.length)
    (ht : isPacketType (buffer.getD i 0) = true)
    (hnot : ∀ j, j < i → isPacketType (buffer.getD j 0) = false) :
    handlePacket c env handleAck now sys buffer deviceId isPaired key =
      dispatchPacket c env handleAck now sys (buffer.getD i 0) (buffer.drop i) deviceId isPaired
        key := by
  have hl : i < buffer.length := lt_of_lt_of_le hi (min_le_right _ _)
  unfold handlePacket
  have hne : buffer.isEmpty = false := by
    cases buffer with
    | nil => simp at hl
    | cons a l => rfl
  rw [hne]
  simp only [Bool.false_eq_true, if_false]
  rw [findPacketType_first buffer i hi ht hnot]
  simp only []
  rw [isPacketType_ne_zero _ ht]
  simp only [Bool.false_eq_true, if_false]
  by_cases h0 : i > 0
  · rw [if_pos h0]
  · rw [if_neg h0]
    have : i = 0 := by omega
    subst this
    rfl

theorem getD_noise_append (noise packet : List Byte) (t : Byte) (rest : List Byte)
    (hp : packet = t :: rest) :
    (noise ++ packet).getD noise.length 0 = t := by
  subst hp
  rw [List.getD_eq_getElem?_getD, List.getElem?_append_right (le_refl _)]
  simp

/-- C17: for every non-empty buffer `handlePacket` takes the smallest index
below `min(5, size)` whose byte is one of the seven packet types and
dispatches the bytes from that index on by that type. So up to 4 bytes of
noise, none of them a packet type, in front of a packet leave the handling of
the packet as it is without them. When none of the first 5 bytes is a packet
type, the buffer is dropped: `handlePacket` returns false, sends nothing and
changes no state. -/
theorem C17_type_searched_in_first_five (c : Crypto) (env : PairEnv) (handleAck : AckHandler)
    (now : Nat) (sys : System) (buffer : List Byte) (deviceId : Nat) (isPaired : Bool)
    (key : List Byte) :
    (∀ b, isPacketType b = true ↔
      (b = 0x20 ∨ b = 0x21 ∨ b = 0x22 ∨ b = 0x10 ∨ b = 0x30 ∨ b = 0x11 ∨ b = 0x31)) ∧
    (∀ i, i < min 5 buffer.length → isPacketType (buffer.getD i 0) = true →
      (∀ j, j < i → isPacketType (buffer.getD j 0) = false) →
      handlePacket c env handleAck now sys buffer deviceId isPaired key =
        dispatchPacket c env handleAck now sys (buffer.getD i 0) (buffer.drop i) deviceId
          isPaired key) ∧
    (∀ noise : List Byte, noise.length ≤ 4 → (∀ b ∈ noise, isPacketType b = false) →
      isPacketType (buffer.headD 0) = true →
      handlePacket c env handleAck now sys (noise ++ buffer) deviceId isPaired key =
        handlePacket c env handleAck now sys buffer deviceId isPaired key) ∧
    ((∀ i, i < min 5 buffer.length → isPacketType (buffer.getD i 0) = false) →
      handlePacket c env handleAck now sys buffer deviceId isPaired key =
        ⟨false, sys, [], none⟩) := by
  refine ⟨isPacketType_iff, ?_, ?_, ?_⟩
  · intro i hi ht hnot
    exact handlePacket_first c env handleAck now sys buffer deviceId isPaired key i hi ht hnot
  · intro noise hlen hnoise hhead
    cases hb : buffer with
    | nil => rw [hb] at hhead; exact absurd hhead (by decide)
    | cons t rest =>
      rw [hb] at hhead
      have ht : isPacketType t = true := hhead
      have h1 := handlePacket_first c env handleAck now sys (t :: rest) deviceId isPaired key 0
        (by simp) ht (fun j hj => absurd hj (Nat.not_lt_zero j))
      have hg : (noise ++ t :: rest).getD noise.length 0 = t :=
        getD_noise_append noise (t :: rest) t rest rfl
      have h2 := handlePacket_first c env handleAck now sys (noise ++ t :: rest) deviceId isPaired
        key noise.length (by simp; omega) (by rw [hg]; exact ht)
        (fun j hj => by
          have hj' : (noise ++ t :: rest).getD j 0 = noise.getD j 0 := by
            simp [List.getD_eq_getElem?_getD, List.getElem?_append_left hj]
          rw [hj']
          apply hnoise
          rw [List.getD_eq_getElem?_getD, List.getElem?_eq_getElem hj]
          exact List.getElem_mem hj)
      rw [h1, h2, hg]
      simp
  · intro hnone
    unfold handlePacket
    by_cases he : buffer.isEmpty = true
    · rw [if_pos he]
    · rw [if_neg he]
      have hf : findPacketType buffer = (0, 0) :=
        findPacketTypeFrom_none buffer 5 0
          (fun j _ hl h5 => hnone j (lt_min h5 hl))
      rw [hf]
      rfl

set_option maxRecDepth 8000 in
/-- C17, witness: the packet `packetHi` behind the two noise bytes `00 FF`, and
a buffer of five bytes none of which is a packet type. -/
theorem C17_type_searched_in_first_five_witness :
    ([0x00, 0xFF] : List Byte).length ≤ 4 ∧
    (∀ b ∈ ([0x00, 0xFF] : List Byte), isPacketType b = false) ∧
    isPacketType (packetHi.headD 0) = true ∧
    handlePacket xorCrypto (demoPairEnv 7) demoAck 1000 demoSystem ([0x00, 0xFF] ++ packetHi)
        0x33334444 true demoKey =
      handlePacket xorCrypto (demoPairEnv 7) demoAck 1000 demoSystem packetHi 0x33334444 true
        demoKey ∧
    (∀ i, i < min 5 ([1, 2, 3, 4, 5] : List Byte).length →
      isPacketType (([1, 2, 3, 4, 5] : List Byte).getD i 0) = false) ∧
    handlePacket xorCrypto (demoPairEnv 7) demoAck 1000 demoSystem [1, 2, 3, 4, 5] 0x33334444
        true demoKey = ⟨false, demoSystem, [], none⟩ :=
  ⟨by decide, by decide, by decide,
    (C17_type_searched_in_first_five xorCrypto (demoPairEnv 7) demoAck 1000 demoSystem packetHi
      0x33334444 true demoKey).2.2.1 [0x00, 0xFF] (by decide) (by decide) (by decide),
    by decide,
    (C17_type_searched_in_first_five xorCrypto (demoPairEnv 7) demoAck 1000 demoSystem
      [1, 2, 3, 4, 5] 0x33334444 true demoKey).2.2.2 (by decide)⟩

/-! ## C18: what an unpaired device drops -/

theorem findPacketType_head (t : Byte) (rest : List Byte) (ht : isPacketType t = true) :
    findPacketType (t :: rest) = (t, 0) :=
  findPacketType_first (t :: rest) 0 (by simp) ht (fun j hj => absurd hj (Nat.not_lt_zero j))

/-- C18: when `isPaired` is false, `handlePacket` drops every buffer whose type
is found to be HEARTBEAT, DATA or ACK, whatever its content and tag: it
returns false, sends nothing and leaves all state (heartbeat state, fragment
buffers, pending messages and the rest) unchanged. In particular this is so
for every packet that starts with one of these three type bytes. -/
theorem C18_unpaired_drops_traffic (c : Crypto) (env : PairEnv) (handleAck : AckHandler)
    (now : Nat) (sys : System) (packet : List Byte) (deviceId : Nat) (key : List Byte) :
    (((findPacketType packet).1 = PKT_HEARTBEAT ∨ (findPacketType packet).1 = PKT_DATA ∨
        (findPacketType packet).1 = PKT_ACK) →
      handlePacket c env handleAck now sys packet deviceId false key =
        ⟨false, sys, [], none⟩) ∧
    handlePacket c env handleAck now sys (PKT_HEARTBEAT :: packet) deviceId false key =
      ⟨false, sys, [], none⟩ ∧
    handlePacket c env handleAck now sys (PKT_DATA :: packet) deviceId false key =
      ⟨false, sys, [], none⟩ ∧
    handlePacket c env handleAck now sys (PKT_ACK :: packet) deviceId false key =
      ⟨false, sys, [], none⟩ := by
  have key1 : ∀ p : List Byte, ((findPacketType p).1 = PKT_HEARTBEAT ∨
      (findPacketType p).1 = PKT_DATA ∨ (findPacketType p).1 = PKT_ACK) →
      handlePacket c env handleAck now sys p deviceId false key = ⟨false, sys, [], none⟩ := by
    intro p h
    unfold handlePacket
    by_cases he : p.isEmpty = true
    · rw [if_pos he]
    · rw [if_neg he]
      simp only []
      rcases h with h | h | h <;> rw [h] <;> rfl
  refine ⟨key1 packet, ?_, ?_, ?_⟩
  · exact key1 _ (Or.inl (by rw [findPacketType_head _ _ (by decide)]))
  · exact key1 _ (Or.inr (Or.inl (by rw [findPacketType_head _ _ (by decide)])))
  · exact key1 _ (Or.inr (Or.inr (by rw [findPacketType_head _ _ (by decide)])))

set_option maxRecDepth 8000 in
/-- C18, witness: the valid DATA packet `packetHi` behind two noise bytes,
handled while not paired. -/
theorem C18_unpaired_drops_traffic_witness :
    (findPacketType ([0x00, 0xFF] ++ packetHi)).1 = PKT_DATA ∧
    handlePacket xorCrypto (demoPairEnv 7) demoAck 1000 demoSystem ([0x00, 0xFF] ++ packetHi)
        0x33334444 false demoKey = ⟨false, demoSystem, [], none⟩ :=
  ⟨by decide,
    (C18_unpaired_drops_traffic xorCrypto (demoPairEnv 7) demoAck 1000 demoSystem
      ([0x00, 0xFF] ++ packetHi) 0x33334444 demoKey).1 (Or.inr (Or.inl (by decide)))⟩

/-! ## C19: the peer is online once a heartbeat is accepted -/

/-- What an accepted heartbeat leaves in the `HeartbeatManager`. -/
theorem handleHeartbeat_accepted (c : Crypto) (hb : HeartbeatManager) (now : Nat)
    (packet key : List Byte) (deviceId pairedDeviceId : Nat)
    (hret : (handleHeartbeat c hb now packet key deviceId pairedDeviceId).ret = true) :
    (handleHeartbeat c hb now packet key deviceId pairedDeviceId).hb =
      { hb with lastHeartbeatReceivedMs := now, lastOnlineStateSent := true } ∧
    (handleHeartbeat c hb now packet key deviceId pairedDeviceId).pairedDeviceId
      = rdU32 packet 1 := by
  generalize hr : handleHeartbeat c hb now packet key deviceId pairedDeviceId = r at hret ⊢
  unfold handleHeartbeat at hr
  by_cases h1 : packet.length < 1 + 4 + 16
  · rw [if_pos h1] at hr; subst hr; exact absurd hret (by simp)
  rw [if_neg h1] at hr
  simp only [] at hr
  by_cases h2 : (rdU32 packet 1 == deviceId) = true
  · rw [if_pos h2] at hr; subst hr; exact absurd hret (by simp)
  rw [if_neg h2] at hr
  by_cases h3 : (packet.drop (packet.length - 16) !=
      hmacSha256Trunc16 c key (packet.take (packet.length - 16))) = true
  · rw [if_pos h3] at hr; subst hr; exact absurd hret (by simp)
  rw [if_neg h3] at hr
  subst hr
  constructor
  · cases hs : hb.lastOnlineStateSent
    · simp [hs]
    · cases hb
      simp only at hs
      subst hs
      rfl
  · simp only []
    by_cases hp : pairedDeviceId = rdU32 packet 1
    · by_cases hz : pairedDeviceId = 0
      · simp [hz, ← hp]
      · simp [hz, hp]
    · simp [hp]

/-- C19, what the code does: right after `handleHeartbeat` returns true at the
clock reading `now`, the reported online state is true, the time of the last
heartbeat is `now`, and `isPairedDeviceOnline()` at that same clock reading is
true exactly when `now` is not 0: the value 0 of the time of the last
heartbeat is read as "no heartbeat received yet". -/
theorem C19_online_unless_clock_zero (c : Crypto) (hb : HeartbeatManager) (now : Nat)
    (packet key : List Byte) (deviceId pairedDeviceId : Nat)
    (hret : (handleHeartbeat c hb now packet key deviceId pairedDeviceId).ret = true) :
    (handleHeartbeat c hb now packet key deviceId pairedDeviceId).hb.lastOnlineStateSent
      = true ∧
    (handleHeartbeat c hb now packet key deviceId pairedDeviceId).hb.lastHeartbeatReceivedMs
      = now ∧
    isPairedDeviceOnline (handleHeartbeat c hb now packet key deviceId pairedDeviceId).hb now
      = decide (now ≠ 0) := by
  obtain ⟨h, -⟩ := handleHeartbeat_accepted c hb now packet key deviceId pairedDeviceId hret
  rw [h]
  refine ⟨rfl, rfl, ?_⟩
  unfold isPairedDeviceOnline
  simp only []
  by_cases h0 : now = 0
  · subst h0; rfl
  · rw [if_neg (by simpa using h0), msSince_self now]
    simp [h0, HEARTBEAT_TIMEOUT_MS]

set_option maxRecDepth 8000 in
/-- C19, the code at the failing input: the heartbeat of the paired device
`0x66667777`, with a valid tag, handled when the 32-bit millisecond clock reads
0. `handleHeartbeat` returns true and the reported state is online, but
`isPairedDeviceOnline()` at that same clock reading is false. -/
theorem C19_online_unless_clock_zero_witness :
    (handleHeartbeat xorCrypto HeartbeatManager.initial 0 heartbeatFromPeer demoKey 0x33334444
      0x66667777).ret = true ∧
    (handleHeartbeat xorCrypto HeartbeatManager.initial 0 heartbeatFromPeer demoKey 0x33334444
      0x66667777).hb.lastOnlineStateSent = true ∧
    isPairedDeviceOnline (handleHeartbeat xorCrypto HeartbeatManager.initial 0 heartbeatFromPeer
      demoKey 0x33334444 0x66667777).hb 0 = false :=
  have h := C19_online_unless_clock_zero xorCrypto HeartbeatManager.initial 0 heartbeatFromPeer
    demoKey 0x33334444 0x66667777 (by decide)
  ⟨by decide, h.1, h.2.2⟩

/-! ## C20: the peer goes offline when its heartbeats stop -/

/-- C20: when the last valid heartbeat is 30000 ms old or older on the 32-bit
clock (so in particular when it is older than the timeout), or none was ever
received, `isPairedDeviceOnline()` is false, and a status check that runs
(`updateAndSendOnlineStatus` while paired, at least 500 ms after the previous
check) leaves the reported state offline. A status check while paired that
runs sets the reported state to the current online status and touches nothing
else but the time of the check; one that does not run changes nothing; so the
reported state changes only when it differs from the current online status. -/
theorem C20_offline_after_timeout (hb : HeartbeatManager) (now pairedDeviceId : Nat) :
    ((hb.lastHeartbeatReceivedMs = 0 ∨
        HEARTBEAT_TIMEOUT_MS ≤ msSince now hb.lastHeartbeatReceivedMs) →
      isPairedDeviceOnline hb now = false ∧
      (STATUS_UPDATE_INTERVAL_MS ≤ msSince now hb.lastStatusUpdateMs →
        (updateAndSendOnlineStatus hb now true pairedDeviceId).lastOnlineStateSent = false)) ∧
    (STATUS_UPDATE_INTERVAL_MS ≤ msSince now hb.lastStatusUpdateMs →
      updateAndSendOnlineStatus hb now true pairedDeviceId =
        { hb with lastStatusUpdateMs := now,
                  lastOnlineStateSent := isPairedDeviceOnline hb now }) ∧
    (msSince now hb.lastStatusUpdateMs < STATUS_UPDATE_INTERVAL_MS →
      updateAndSendOnlineStatus hb now true pairedDeviceId = hb) ∧
    ((updateAndSendOnlineStatus hb now true pairedDeviceId).lastOnlineStateSent
        ≠ hb.lastOnlineStateSent →
      isPairedDeviceOnline hb now ≠ hb.lastOnlineStateSent ∧
      (updateAndSendOnlineStatus hb now true pairedDeviceId).lastOnlineStateSent
        = isPairedDeviceOnline hb now) ∧
    HEARTBEAT_TIMEOUT_MS = 30000 ∧ STATUS_UPDATE_INTERVAL_MS = 500 := by
  have hrun : STATUS_UPDATE_INTERVAL_MS ≤ msSince now hb.lastStatusUpdateMs →
      updateAndSendOnlineStatus hb now true pairedDeviceId =
        { hb with lastStatusUpdateMs := now,
                  lastOnlineStateSent := isPairedDeviceOnline hb now } := by
    intro h
    unfold updateAndSendOnlineStatus
    rw [if_neg (by omega)]
    simp only [Bool.not_true, Bool.false_eq_true, if_false]
    have hon : isPairedDeviceOnline { hb with lastStatusUpdateMs := now } now
        = isPairedDeviceOnline hb now := rfl
    rw [hon]
    by_cases hd : (isPairedDeviceOnline hb now != hb.lastOnlineStateSent) = true
    · rw [if_pos hd]
    · rw [if_neg hd]
      have : isPairedDeviceOnline hb now = hb.lastOnlineStateSent := by simpa using hd
      rw [this]
  have hskip : msSince now hb.lastStatusUpdateMs < STATUS_UPDATE_INTERVAL_MS →
      updateAndSendOnlineStatus hb now true pairedDeviceId = hb := by
    intro h
    unfold updateAndSendOnlineStatus
    rw [if_pos h]
  have hoff : (hb.lastHeartbeatReceivedMs = 0 ∨
      HEARTBEAT_TIMEOUT_MS ≤ msSince now hb.lastHeartbeatReceivedMs) →
      isPairedDeviceOnline hb now = false := by
    intro h
    unfold isPairedDeviceOnline
    by_cases h0 : hb.lastHeartbeatReceivedMs = 0
    · rw [if_pos (by simpa using h0)]
    · rw [if_neg (by simpa using h0)]
      rcases h with h | h
      · exact absurd h h0
      · simp only [decide_eq_false_iff_not, not_lt]
        exact h
  refine ⟨?_, hrun, hskip, ?_, rfl, rfl⟩
  · intro h
    refine ⟨hoff h, ?_⟩
    intro h5
    rw [hrun h5]
    exact hoff h
  · intro hne
    by_cases h5 : STATUS_UPDATE_INTERVAL_MS ≤ msSince now hb.lastStatusUpdateMs
    · rw [hrun h5] at hne ⊢
      exact ⟨hne, rfl⟩
    · rw [hskip (by omega)] at hne
      exact absurd rfl hne

/-- C20, witness: the last heartbeat was received at clock reading 1000 and
reported online; the status check at clock reading 31000, later than 500 ms
after the previous check, reports offline. -/
theorem C20_offline_after_timeout_witness :
    HEARTBEAT_TIMEOUT_MS ≤ msSince 31000 hbStale.lastHeartbeatReceivedMs ∧
    STATUS_UPDATE_INTERVAL_MS ≤ msSince 31000 hbStale.lastStatusUpdateMs ∧
    hbStale.lastOnlineStateSent = true ∧
    isPairedDeviceOnline hbStale 31000 = false ∧
    (updateAndSendOnlineStatus hbStale 31000 true 0x66667777).lastOnlineStateSent = false :=
  have h := (C20_offline_after_timeout hbStale 31000 0x66667777).1 (Or.inr (by decide))
  ⟨by decide, by decide, rfl, h.1, h.2 (by decide)⟩

/-! ## C21: a heartbeat that is too short or badly tagged -/

/-- C21: a HEARTBEAT packet that is shorter than 21 bytes, or whose last 16
bytes differ from the keyed tag of all the bytes before them under the session
key, makes `handleHeartbeat` return false and leave the whole heartbeat state
(the time of the last heartbeat and the reported online state among it) and the
paired peer id of the caller as they were. -/
theorem C21_bad_heartbeat_rejected (c : Crypto) (hb : HeartbeatManager) (now : Nat)
    (packet key : List Byte) (deviceId pairedDeviceId : Nat)
    (hbad : packet.length < 21 ∨
      packet.drop (packet.length - 16) ≠
        hmacSha256Trunc16 c key (packet.take (packet.length - 16))) :
    handleHeartbeat c hb now packet key deviceId pairedDeviceId = ⟨false, hb, pairedDeviceId⟩ := by
  unfold handleHeartbeat
  by_cases h1 : packet.length < 1 + 4 + 16
  · rw [if_pos h1]
  rw [if_neg h1]
  simp only []
  by_cases h2 : (rdU32 packet 1 == deviceId) = true
  · rw [if_pos h2]
  rw [if_neg h2]
  rcases hbad with h | h
  · exact absurd h h1
  · rw [if_pos (by simpa using h)]

set_option maxRecDepth 8000 in
/-- C21, witness: a heartbeat of 21 bytes whose tag is sixteen zero bytes, and
a heartbeat of 5 bytes. -/
theorem C21_bad_heartbeat_rejected_witness :
    heartbeatBadTag.drop (heartbeatBadTag.length - 16) ≠
      hmacSha256Trunc16 xorCrypto demoKey (heartbeatBadTag.take (heartbeatBadTag.length - 16)) ∧
    handleHeartbeat xorCrypto hbStale 40000 heartbeatBadTag demoKey 0x33334444 0 =
      ⟨false, hbStale, 0⟩ ∧
    (heartbeatFromPeer.take 5).length < 21 ∧
    handleHeartbeat xorCrypto hbStale 40000 (heartbeatFromPeer.take 5) demoKey 0x33334444 0 =
      ⟨false, hbStale, 0⟩ :=
  ⟨by decide,
    C21_bad_heartbeat_rejected xorCrypto hbStale 40000 heartbeatBadTag demoKey 0x33334444 0
      (Or.inr (by decide)),
    by decide,
    C21_bad_heartbeat_rejected xorCrypto hbStale 40000 (heartbeatFromPeer.take 5) demoKey
      0x33334444 0 (Or.inl (by decide))⟩

/-! ## C22: the peer id learned from a heartbeat -/

/-- What `handleHeartbeat` does with a heartbeat that passes its three tests. -/
theorem handleHeartbeat_valid (c : Crypto) (hb : HeartbeatManager) (now : Nat)
    (packet key : List Byte) (deviceId pairedDeviceId : Nat)
    (hlen : 21 ≤ packet.length) (hsender : rdU32 packet 1 ≠ deviceId)
    (htag : packet.drop (packet.length - 16) =
      hmacSha256Trunc16 c key (packet.take (packet.length - 16))) :
    handleHeartbeat c hb now packet key deviceId pairedDeviceId =
      ⟨true, { hb with lastHeartbeatReceivedMs := now, lastOnlineStateSent := true },
        rdU32 packet 1⟩ := by
  have hret : (handleHeartbeat c hb now packet key deviceId pairedDeviceId).ret = true := by
    unfold handleHeartbeat
    rw [if_neg (by omega)]
    simp only []
    rw [if_neg (by simpa using hsender), if_neg (by rw [htag]; simp)]
  obtain ⟨h1, h2⟩ := handleHeartbeat_accepted c hb now packet key deviceId pairedDeviceId hret
  generalize handleHeartbeat c hb now packet key deviceId pairedDeviceId = r at hret h1 h2
  cases r
  simp only at hret h1 h2
  subst hret h1 h2
  rfl

/-- C22 (amended): a heartbeat from another device, with a valid tag, that
reaches a paired device through `handlePacket` is accepted: `handlePacket`
returns true, sends nothing, records the time of receipt and reports the peer
online. `handleHeartbeat` writes the sender id into the temporary copy that
`handlePacket` passes by reference, and that copy is dropped: the
`PairingManager` is left as it was, so `getPairedDeviceId()` still returns what
it returned before (0 when the peer was not yet known). -/
theorem C22_heartbeat_leaves_peer_id (c : Crypto) (env : PairEnv) (handleAck : AckHandler)
    (now : Nat) (sys : System) (rest key : List Byte) (deviceId : Nat)
    (hlen : 21 ≤ (PKT_HEARTBEAT :: rest).length)
    (hsender : rdU32 (PKT_HEARTBEAT :: rest) 1 ≠ deviceId)
    (htag : (PKT_HEARTBEAT :: rest).drop ((PKT_HEARTBEAT :: rest).length - 16) =
      hmacSha256Trunc16 c key
        ((PKT_HEARTBEAT :: rest).take ((PKT_HEARTBEAT :: rest).length - 16))) :
    handlePacket c env handleAck now sys (PKT_HEARTBEAT :: rest) deviceId true key =
      ⟨true,
        { sys with hb := { sys.hb with lastHeartbeatReceivedMs := now,
                                        lastOnlineStateSent := true } },
        [], none⟩ ∧
    (handlePacket c env handleAck now sys (PKT_HEARTBEAT :: rest) deviceId true
      key).sys.dev.pm.pairedDeviceId = sys.dev.pm.pairedDeviceId ∧
    (handleHeartbeat c sys.hb now (PKT_HEARTBEAT :: rest) key deviceId
      sys.dev.pm.pairedDeviceId).pairedDeviceId = rdU32 (PKT_HEARTBEAT :: rest) 1 := by
  have h := handlePacket_first c env handleAck now sys (PKT_HEARTBEAT :: rest) deviceId true key
    0 (by simp) (show isPacketType PKT_HEARTBEAT = true by decide)
    (fun j hj => absurd hj (Nat.not_lt_zero j))
  have hv := handleHeartbeat_valid c sys.hb now (PKT_HEARTBEAT :: rest) key deviceId
    sys.dev.pm.pairedDeviceId hlen hsender htag
  have hd : handlePacket c env handleAck now sys (PKT_HEARTBEAT :: rest) deviceId true key =
      ⟨true,
        { sys with hb := { sys.hb with lastHeartbeatReceivedMs := now,
                                        lastOnlineStateSent := true } },
        [], none⟩ := by
    rw [h]
    show dispatchPacket c env handleAck now sys PKT_HEARTBEAT (PKT_HEARTBEAT :: rest) deviceId
      true key = _
    unfold dispatchPacket
    simp only [show (PKT_HEARTBEAT == PKT_BIND_REQ) = false by decide,
      show (PKT_HEARTBEAT == PKT_BIND_RESP) = false by decide,
      show (PKT_HEARTBEAT == PKT_BIND_CONFIRM) = false by decide,
      show (PKT_HEARTBEAT == PKT_BEACON) = false by decide,
      show (PKT_HEARTBEAT == PKT_HEARTBEAT) = true by decide,
      Bool.false_eq_true, if_false, if_true, Bool.not_true]
    rw [hv]
  refine ⟨hd, ?_, ?_⟩
  · rw [hd]
  · rw [hv]

set_option maxRecDepth 8000 in
/-- C22, witness: the heartbeat of `0x66667777` handled by the device
`0x33334444` after a restart. -/
theorem C22_heartbeat_leaves_peer_id_witness :
    heartbeatFromPeer = PKT_HEARTBEAT :: heartbeatFromPeer.tail ∧
    21 ≤ (PKT_HEARTBEAT :: heartbeatFromPeer.tail).length ∧
    rdU32 (PKT_HEARTBEAT :: heartbeatFromPeer.tail) 1 ≠ 0x33334444 ∧
    (handlePacket xorCrypto (demoPairEnv 7) demoAck 1000 systemAfterBoot
      (PKT_HEARTBEAT :: heartbeatFromPeer.tail) 0x33334444 true demoKey).sys.dev.pm.pairedDeviceId
      = systemAfterBoot.dev.pm.pairedDeviceId :=
  ⟨by decide, by decide, by decide,
    (C22_heartbeat_leaves_peer_id xorCrypto (demoPairEnv 7) demoAck 1000 systemAfterBoot
      heartbeatFromPeer.tail demoKey 0x33334444 (by decide) (by decide) (by decide)).2.1⟩

set_option maxRecDepth 8000 in
/-- C22, counterexample: the device `0x33334444` is paired and its paired peer
id is 0; the heartbeat of `0x66667777`, with a valid tag, goes through
`handlePacket`, which returns true; the paired peer id of the `PairingManager`
is still 0, not `0x66667777`. -/
theorem C22_counterexample_peer_id_stays_zero :
    systemAfterBoot.dev.pm.paired = true ∧ systemAfterBoot.dev.pm.pairedDeviceId = 0 ∧
    rdU32 heartbeatFromPeer 1 = 0x66667777 ∧
    (handlePacket xorCrypto (demoPairEnv 7) demoAck 1000 systemAfterBoot heartbeatFromPeer
      0x33334444 systemAfterBoot.dev.pm.paired systemAfterBoot.dev.pm.sessionKey).ret = true ∧
    (handlePacket xorCrypto (demoPairEnv 7) demoAck 1000 systemAfterBoot heartbeatFromPeer
      0x33334444 systemAfterBoot.dev.pm.paired
      systemAfterBoot.dev.pm.sessionKey).sys.dev.pm.pairedDeviceId = 0 ∧
    (handlePacket xorCrypto (demoPairEnv 7) demoAck 1000 systemAfterBoot heartbeatFromPeer
      0x33334444 systemAfterBoot.dev.pm.paired
      systemAfterBoot.dev.pm.sessionKey).sys.dev.pm.pairedDeviceId ≠ 0x66667777 := by
  refine ⟨?_, ?_, ?_, ?_, ?_, ?_⟩ <;> decide

/-! ## C23: when a heartbeat is sent -/

/-- While fewer than 2^32 ms have passed since `earlier`, the elapsed time
grows with the clock. -/
theorem msSince_later (now earlier d : Nat) (h : msSince now earlier + d < 2 ^ 32) :
    msSince ((now + d) % 2 ^ 32) earlier = msSince now earlier + d := by
  unfold msSince at h ⊢
  omega

/-- C23: `sendHeartbeatIfDue` sends a heartbeat exactly when the device is
paired, no transmission is in flight and at least 10000 ms have elapsed on the
32-bit clock since the time of the last heartbeat sent. When it sends, the
packet is 0x31, the device id in 4 big-endian bytes and the keyed tag of those
5 bytes under the session key, and the time of the last heartbeat sent becomes
the current time; when it does not send, the state is unchanged. So a
heartbeat that is due but withheld because a transmission is in flight leaves
the state as it was and is sent by a later call made without a transmission in
flight, any number `d` of milliseconds later (as long as the 32-bit elapsed
time has not wrapped). -/
theorem C23_heartbeat_when_due (c : Crypto) (hb : HeartbeatManager) (now deviceId : Nat)
    (key : List Byte) (isPaired isTransmitting : Bool) :
    ((sendHeartbeatIfDue c hb now deviceId key isPaired isTransmitting).2 ≠ [] ↔
      (isPaired = true ∧ isTransmitting = false ∧
        HEARTBEAT_INTERVAL_MS ≤ msSince now hb.lastHeartbeatSentMs)) ∧
    ((isPaired = true ∧ isTransmitting = false ∧
        HEARTBEAT_INTERVAL_MS ≤ msSince now hb.lastHeartbeatSentMs) →
      sendHeartbeatIfDue c hb now deviceId key isPaired isTransmitting =
        ({ hb with lastHeartbeatSentMs := now },
          [[PKT_HEARTBEAT] ++ be32 deviceId ++
            hmacSha256Trunc16 c key ([PKT_HEARTBEAT] ++ be32 deviceId)])) ∧
    (¬ (isPaired = true ∧ isTransmitting = false ∧
        HEARTBEAT_INTERVAL_MS ≤ msSince now hb.lastHeartbeatSentMs) →
      sendHeartbeatIfDue c hb now deviceId key isPaired isTransmitting = (hb, [])) ∧
    (∀ d, HEARTBEAT_INTERVAL_MS ≤ msSince now hb.lastHeartbeatSentMs →
      msSince now hb.lastHeartbeatSentMs + d < 2 ^ 32 →
      sendHeartbeatIfDue c hb now deviceId key true true = (hb, []) ∧
      sendHeartbeatIfDue c (sendHeartbeatIfDue c hb now deviceId key true true).1
          ((now + d) % 2 ^ 32) deviceId key true false =
        ({ hb with lastHeartbeatSentMs := (now + d) % 2 ^ 32 },
          [[PKT_HEARTBEAT] ++ be32 deviceId ++
            hmacSha256Trunc16 c key ([PKT_HEARTBEAT] ++ be32 deviceId)])) ∧
    PKT_HEARTBEAT = 0x31 ∧ HEARTBEAT_INTERVAL_MS = 10000 := by
  have hsend : ∀ (h : HeartbeatManager) (t : Nat) (p tr : Bool),
      (p = true ∧ tr = false ∧ HEARTBEAT_INTERVAL_MS ≤ msSince t h.lastHeartbeatSentMs) →
      sendHeartbeatIfDue c h t deviceId key p tr =
        ({ h with lastHeartbeatSentMs := t },
          [[PKT_HEARTBEAT] ++ be32 deviceId ++
            hmacSha256Trunc16 c key ([PKT_HEARTBEAT] ++ be32 deviceId)]) := by
    intro h t p tr ⟨hp, ht, hd⟩
    subst hp ht
    unfold sendHeartbeatIfDue
    simp only [Bool.not_true, Bool.false_eq_true, if_false]
    rw [if_neg (by omega)]
    rfl
  have hskip : ∀ (h : HeartbeatManager) (t : Nat) (p tr : Bool),
      ¬ (p = true ∧ tr = false ∧ HEARTBEAT_INTERVAL_MS ≤ msSince t h.lastHeartbeatSentMs) →
      sendHeartbeatIfDue c h t deviceId key p tr = (h, []) := by
    intro h t p tr hn
    unfold sendHeartbeatIfDue
    cases p
    · rfl
    · cases tr
      · simp only [Bool.not_true, Bool.false_eq_true, if_false]
        rw [if_pos]
        by_contra hc
        exact hn ⟨rfl, rfl, by omega⟩
      · rfl
  refine ⟨?_, hsend hb now isPaired isTransmitting, hskip hb now isPaired isTransmitting, ?_,
    rfl, rfl⟩
  · constructor
    · intro hne
      by_contra hn
      rw [hskip hb now isPaired isTransmitting hn] at hne
      exact hne rfl
    · intro hc
      rw [hsend hb now isPaired isTransmitting hc]
      simp
  · intro d hdue hwrap
    have h1 : sendHeartbeatIfDue c hb now deviceId key true true = (hb, []) :=
      hskip hb now true true (by simp)
    refine ⟨h1, ?_⟩
    rw [h1]
    exact hsend hb ((now + d) % 2 ^ 32) true false
      ⟨rfl, rfl, by rw [msSince_later now _ d hwrap]; omega⟩

/-- C23, witness: the last heartbeat was sent at clock reading 5000; at 20000
a transmission is in flight and nothing is sent; 700 ms later it has ended and
the heartbeat is sent. -/
theorem C23_heartbeat_when_due_witness :
    HEARTBEAT_INTERVAL_MS ≤
      msSince 20000 (⟨5000, 0, 0, false⟩ : HeartbeatManager).lastHeartbeatSentMs ∧
    msSince 20000 (⟨5000, 0, 0, false⟩ : HeartbeatManager).lastHeartbeatSentMs + 700 < 2 ^ 32 ∧
    sendHeartbeatIfDue xorCrypto ⟨5000, 0, 0, false⟩ 20000 0x33334444 demoKey true true =
      (⟨5000, 0, 0, false⟩, []) ∧
    sendHeartbeatIfDue xorCrypto
        (sendHeartbeatIfDue xorCrypto ⟨5000, 0, 0, false⟩ 20000 0x33334444 demoKey true true).1
        ((20000 + 700) % 2 ^ 32) 0x33334444 demoKey true false =
      ({ (⟨5000, 0, 0, false⟩ : HeartbeatManager) with
          lastHeartbeatSentMs := (20000 + 700) % 2 ^ 32 },
        [[PKT_HEARTBEAT] ++ be32 0x33334444 ++
          hmacSha256Trunc16 xorCrypto demoKey ([PKT_HEARTBEAT] ++ be32 0x33334444)]) :=
  have h := (C23_heartbeat_when_due xorCrypto ⟨5000, 0, 0, false⟩ 20000 0x33334444 demoKey
    true true).2.2.2.1 700 (by decide) (by decide)
  ⟨by decide, by decide, h.1, h.2⟩

/-! ## C25: the purge of the discovered-peer table -/

theorem purgeLoop_eq (now : Nat) (l : List DiscoveredDevice) :
    ∀ keep, purgeLoop now l keep =
      keep ++ l.filter (fun d => decide (msSince now d.lastSeenMs ≤ DISCOVERY_TTL_MS)) := by
  induction l with
  | nil => intro keep; simp [purgeLoop]
  | cons d rest ih =>
    intro keep
    unfold purgeLoop
    by_cases h : msSince now d.lastSeenMs ≤ DISCOVERY_TTL_MS
    · rw [if_pos h, ih, List.filter_cons_of_pos (by simpa using h)]
      simp
    · rw [if_neg h, ih, List.filter_cons_of_neg (by simpa using h)]

theorem purgeDiscovered_eq (disc : DiscoveryManager) (now : Nat) :
    (purgeDiscovered disc now).discovered =
      disc.discovered.filter (fun d => decide (msSince now d.lastSeenMs ≤ DISCOVERY_TTL_MS)) := by
  unfold purgeDiscovered
  simp only [purgeLoop_eq, List.nil_append]

/-- C25: after `purgeDiscovered` runs at clock reading `now`, the table holds
exactly the previous entries whose age `now - lastSeenMs`, computed on the
32-bit clock, is at most 15000 ms, in their previous order and unchanged:
every older entry is absent, every other entry is kept; nothing else of the
`DiscoveryManager` changes. -/
theorem C25_purge_keeps_fresh_entries (disc : DiscoveryManager) (now : Nat) :
    (purgeDiscovered disc now).discovered =
      disc.discovered.filter (fun d => decide (msSince now d.lastSeenMs ≤ 15000)) ∧
    (purgeDiscovered disc now).discovered.Sublist disc.discovered ∧
    (∀ d, d ∈ (purgeDiscovered disc now).discovered ↔
      (d ∈ disc.discovered ∧ msSince now d.lastSeenMs ≤ 15000)) ∧
    (∀ d ∈ disc.discovered, 15000 < msSince now d.lastSeenMs →
      d ∉ (purgeDiscovered disc now).discovered) ∧
    (purgeDiscovered disc now).pairingMode = disc.pairingMode ∧
    (purgeDiscovered disc now).lastBeaconMs = disc.lastBeaconMs ∧
    (purgeDiscovered disc now).lastDiscoveryPrintMs = disc.lastDiscoveryPrintMs := by
  have h := purgeDiscovered_eq disc now
  have hmem : ∀ d, d ∈ (purgeDiscovered disc now).discovered ↔
      (d ∈ disc.discovered ∧ msSince now d.lastSeenMs ≤ 15000) := by
    intro d
    rw [h, List.mem_filter]
    simp [DISCOVERY_TTL_MS]
  refine ⟨h, ?_, hmem, ?_, rfl, rfl, rfl⟩
  · rw [h]; exact List.filter_sublist _
  · intro d _ hold hin
    have := ((hmem d).mp hin).2
    omega

/-- C25, witness: the table `discThree` purged at clock reading 25000: the
entries seen at 1000 and 9000 are older than 15000 ms and go, the entry seen at
20000 stays. -/
theorem C25_purge_keeps_fresh_entries_witness :
    (⟨0x11112222, -100, 0, 1000⟩ : DiscoveredDevice) ∈ discThree.discovered ∧
    15000 < msSince 25000 (⟨0x11112222, -100, 0, 1000⟩ : DiscoveredDevice).lastSeenMs ∧
    (purgeDiscovered discThree 25000).discovered = [⟨0x55556666, -100, 0, 20000⟩] ∧
    (⟨0x11112222, -100, 0, 1000⟩ : DiscoveredDevice) ∉
      (purgeDiscovered discThree 25000).discovered :=
  ⟨by decide, by decide,
    (C25_purge_keeps_fresh_entries discThree 25000).1.trans (by decide),
    (C25_purge_keeps_fresh_entries discThree 25000).2.2.2.1 _ (by decide) (by decide)⟩

/-! ## C24: beacons and the discovered-peer table -/

theorem updateFirst_ids (id : Nat) (rssi snr : Int) (now : Nat) (l : List DiscoveredDevice) :
    (updateFirst id rssi snr now l).map (fun d => d.id) = l.map (fun d => d.id) := by
  induction l with
  | nil => rfl
  | cons d rest ih =>
    unfold updateFirst
    by_cases h : (d.id == id) = true
    · rw [if_pos h]
      simp only [List.map_cons]
    · rw [if_neg h]
      simp only [List.map_cons, ih]

theorem updateFirst_others (id : Nat) (rssi snr : Int) (now : Nat)
    (l : List DiscoveredDevice) :
    (updateFirst id rssi snr now l).filter (fun d => !(d.id == id)) =
      l.filter (fun d => !(d.id == id)) := by
  induction l with
  | nil => rfl
  | cons d rest ih =>
    unfold updateFirst
    by_cases h : (d.id == id) = true
    · rw [if_pos h]
      have hid : d.id = id := by simpa using h
      simp only [List.filter_cons, hid, beq_self_eq_true, Bool.not_true, Bool.false_eq_true,
        if_false]
    · rw [if_neg h]
      have h' : (!(d.id == id)) = true := by simpa using h
      simp only [List.filter_cons, h', if_true, ih]

theorem filter_id_none (id : Nat) (l : List DiscoveredDevice)
    (h : id ∉ l.map (fun d => d.id)) : l.filter (fun d => d.id == id) = [] := by
  rw [List.filter_eq_nil_iff]
  intro d hd hid
  exact h (List.mem_map.mpr ⟨d, hd, by simpa using hid⟩)

theorem updateFirst_same (id : Nat) (rssi snr : Int) (now : Nat) (l : List DiscoveredDevice)
    (hnd : (l.map (fun d => d.id)).Nodup) (hin : id ∈ l.map (fun d => d.id)) :
    (updateFirst id rssi snr now l).filter (fun d => d.id == id) = [⟨id, rssi, snr, now⟩] := by
  induction l with
  | nil => simp at hin
  | cons d rest ih =>
    rw [List.map_cons, List.nodup_cons] at hnd
    unfold updateFirst
    by_cases h : (d.id == id) = true
    · rw [if_pos h]
      have hid : d.id = id := by simpa using h
      simp only [List.filter_cons, beq_self_eq_true, if_true]
      rw [filter_id_none id rest (by rw [← hid]; exact hnd.1)]
      rw [if_pos h, hid]
    · rw [if_neg h]
      simp only [List.filter_cons, h, if_false]
      have hne : ¬ d.id = id := by simpa using h
      rw [List.map_cons, List.mem_cons] at hin
      rcases hin with hin | hin
      · exact absurd hin.symm hne
      · exact ih hnd.2 hin

/-- What `handleBeacon` does with a beacon of another device. -/
theorem handleBeacon_other (disc : DiscoveryManager) (now : Nat) (packet : List Byte)
    (deviceId : Nat) (hlen : 5 ≤ packet.length) (hid : rdU32 packet 1 ≠ deviceId) :
    handleBeacon disc now packet deviceId =
      (true, upsertDiscovered disc now (rdU32 packet 1) (-100) 0) := by
  unfold handleBeacon
  rw [if_neg (by omega)]
  simp only []
  rw [if_neg (by simpa using hid)]

theorem handleBeacon_self (disc : DiscoveryManager) (now : Nat) (packet : List Byte)
    (deviceId : Nat) (hid : rdU32 packet 1 = deviceId) :
    handleBeacon disc now packet deviceId = (false, disc) := by
  unfold handleBeacon
  by_cases h : packet.length < 1 + 4
  · rw [if_pos h]
  · rw [if_neg h]
    simp only []
    rw [if_pos (by simpa using hid)]

theorem upsert_ids (disc : DiscoveryManager) (now id : Nat) (rssi snr : Int) :
    (upsertDiscovered disc now id rssi snr).discovered.map (fun d => d.id) =
      if id ∈ disc.discovered.map (fun d => d.id) then disc.discovered.map (fun d => d.id)
      else disc.discovered.map (fun d => d.id) ++ [id] := by
  unfold upsertDiscovered
  by_cases h : id ∈ disc.discovered.map (fun d => d.id)
  · have hany : disc.discovered.any (fun d => d.id == id) = true := by
      rw [List.any_eq_true]
      obtain ⟨d, hd, hdi⟩ := List.mem_map.mp h
      exact ⟨d, hd, by simpa using hdi⟩
    rw [if_pos hany, if_pos h]
    exact updateFirst_ids _ _ _ _ _
  · have hany : ¬ disc.discovered.any (fun d => d.id == id) = true := by
      rw [List.any_eq_true]
      rintro ⟨d, hd, hdi⟩
      exact h (List.mem_map.mpr ⟨d, hd, by simpa using hdi⟩)
    rw [if_neg hany, if_neg h]
    simp

/-- The ids of a reachable table are pairwise distinct and the local id is not
among them. -/
theorem disc_reachable_ok (deviceId : Nat) (disc : DiscoveryManager)
    (h : DiscReachable deviceId disc) :
    (disc.discovered.map (fun d => d.id)).Nodup ∧
    deviceId ∉ disc.discovered.map (fun d => d.id) := by
  have hpurge : ∀ (dm : DiscoveryManager) (t : Nat),
      ((dm.discovered.map (fun d => d.id)).Nodup ∧
        deviceId ∉ dm.discovered.map (fun d => d.id)) →
      (((purgeDiscovered dm t).discovered.map (fun d => d.id)).Nodup ∧
        deviceId ∉ (purgeDiscovered dm t).discovered.map (fun d => d.id)) := by
    intro dm t ⟨h1, h2⟩
    have hs : ((purgeDiscovered dm t).discovered.map (fun d => d.id)).Sublist
        (dm.discovered.map (fun d => d.id)) := by
      rw [purgeDiscovered_eq]
      exact (List.filter_sublist _).map _
    exact ⟨h1.sublist hs, fun hin => h2 (hs.subset hin)⟩
  induction h with
  | init => exact ⟨List.nodup_nil, by simp [DiscoveryManager.initial]⟩
  | mode disc enabled _ ih => exact ih
  | sendBeacon disc now _ ih =>
    unfold sendBeaconIfDue
    split
    · exact ih
    · split
      · exact ih
      · exact ih
  | beacon disc now packet _ ih =>
    by_cases hself : rdU32 packet 1 = deviceId
    · rw [handleBeacon_self disc now packet deviceId hself]; exact ih
    · by_cases hlen : packet.length < 1 + 4
      · unfold handleBeacon
        rw [if_pos hlen]
        exact ih
      · rw [handleBeacon_other disc now packet deviceId (by omega) hself]
        simp only []
        rw [upsert_ids]
        split
        · exact ih
        · rename_i hnot
          constructor
          · rw [List.nodup_append]
            refine ⟨ih.1, List.nodup_singleton _, ?_⟩
            intro a ha hb
            rw [List.mem_singleton] at hb
            subst hb
            exact hnot ha
          · intro hin
            rw [List.mem_append, List.mem_singleton] at hin
            rcases hin with hin | hin
            · exact ih.2 hin
            · exact hself hin.symm
  | purge disc now _ ih => exact hpurge disc now ih
  | print disc now _ ih =>
    unfold printDiscoveredIfDue
    split
    · exact ih
    · split
      · exact ih
      · exact hpurge _ now ih

/-- C24: a beacon whose device id is the local id makes `handleBeacon` return
false and leave the table unchanged, and in no reachable state of the
`DiscoveryManager` does the table hold the local id; its ids are pairwise
distinct. A beacon (5 bytes or more) with any other id makes `handleBeacon`
return true; afterwards the table holds exactly one entry for that id, stamped
with the current clock reading, the other entries are the ones of before, in
their order and unchanged, and the ids are still pairwise distinct. -/
theorem C24_beacon_table (deviceId : Nat) (disc : DiscoveryManager) (now : Nat)
    (packet : List Byte) :
    (rdU32 packet 1 = deviceId → handleBeacon disc now packet deviceId = (false, disc)) ∧
    (DiscReachable deviceId disc →
      (∀ d ∈ disc.discovered, d.id ≠ deviceId) ∧
      (disc.discovered.map (fun d => d.id)).Nodup) ∧
    (DiscReachable deviceId disc → 5 ≤ packet.length → rdU32 packet 1 ≠ deviceId →
      (handleBeacon disc now packet deviceId).1 = true ∧
      (handleBeacon disc now packet deviceId).2.discovered.filter
          (fun d => d.id == rdU32 packet 1) = [⟨rdU32 packet 1, -100, 0, now⟩] ∧
      (handleBeacon disc now packet deviceId).2.discovered.filter
          (fun d => !(d.id == rdU32 packet 1)) =
        disc.discovered.filter (fun d => !(d.id == rdU32 packet 1)) ∧
      ((handleBeacon disc now packet deviceId).2.discovered.map (fun d => d.id)).Nodup ∧
      (handleBeacon disc now packet deviceId).2.pairingMode = disc.pairingMode ∧
      (handleBeacon disc now packet deviceId).2.lastBeaconMs = disc.lastBeaconMs ∧
      (handleBeacon disc now packet deviceId).2.lastDiscoveryPrintMs
        = disc.lastDiscoveryPrintMs) := by
  refine ⟨handleBeacon_self disc now packet deviceId, ?_, ?_⟩
  · intro hr
    obtain ⟨h1, h2⟩ := disc_reachable_ok deviceId disc hr
    exact ⟨fun d hd hid => h2 (List.mem_map.mpr ⟨d, hd, hid⟩), h1⟩
  · intro hr hlen hid
    obtain ⟨h1, -⟩ := disc_reachable_ok deviceId disc hr
    have hnext := (disc_reachable_ok deviceId _
      (DiscReachable.beacon disc now packet hr)).1
    rw [handleBeacon_other disc now packet deviceId hlen hid] at hnext ⊢
    refine ⟨rfl, ?_, ?_, hnext, ?_, ?_, ?_⟩
    · simp only []
      unfold upsertDiscovered
      by_cases hin : rdU32 packet 1 ∈ disc.discovered.map (fun d => d.id)
      · have hany : disc.discovered.any (fun d => d.id == rdU32 packet 1) = true := by
          rw [List.any_eq_true]
          obtain ⟨d, hd, hdi⟩ := List.mem_map.mp hin
          exact ⟨d, hd, by simpa using hdi⟩
        rw [if_pos hany]
        exact updateFirst_same _ _ _ _ _ h1 hin
      · have hany : ¬ disc.discovered.any (fun d => d.id == rdU32 packet 1) = true := by
          rw [List.any_eq_true]
          rintro ⟨d, hd, hdi⟩
          exact hin (List.mem_map.mpr ⟨d, hd, by simpa using hdi⟩)
        rw [if_neg hany]
        simp only [List.filter_append, filter_id_none _ _ hin, List.nil_append]
        simp only [List.filter_cons, beq_self_eq_true, if_true, List.filter_nil]
    · simp only []
      unfold upsertDiscovered
      split
      · exact updateFirst_others _ _ _ _ _
      · simp
    · simp only []; unfold upsertDiscovered; split <;> rfl
    · simp only []; unfold upsertDiscovered; split <;> rfl
    · simp only []; unfold upsertDiscovered; split <;> rfl

set_option maxRecDepth 8000 in
/-- C24, witness: the device `0x33334444` with an empty table handles the
beacon of `0x66667777` at clock reading 7000, and a beacon that carries its
own id. -/
theorem C24_beacon_table_witness :
    DiscReachable 0x33334444 DiscoveryManager.initial ∧
    5 ≤ beaconFromPeer.length ∧ rdU32 beaconFromPeer 1 ≠ 0x33334444 ∧
    (handleBeacon DiscoveryManager.initial 7000 beaconFromPeer 0x33334444).1 = true ∧
    (handleBeacon DiscoveryManager.initial 7000 beaconFromPeer 0x33334444).2.discovered.filter
        (fun d => d.id == rdU32 beaconFromPeer 1) = [⟨rdU32 beaconFromPeer 1, -100, 0, 7000⟩] ∧
    rdU32 ([PKT_BEACON] ++ be32 0x33334444) 1 = 0x33334444 ∧
    handleBeacon discThree 7000 ([PKT_BEACON] ++ be32 0x33334444) 0x33334444 =
      (false, discThree) :=
  have h := (C24_beacon_table 0x33334444 DiscoveryManager.initial 7000 beaconFromPeer).2.2
    DiscReachable.init (by decide) (by decide)
  ⟨DiscReachable.init, by decide, by decide, h.1, h.2.1, by decide,
    (C24_beacon_table 0x33334444 discThree 7000 ([PKT_BEACON] ++ be32 0x33334444)).1
      (by decide)⟩

/-! ## C26: a buffer that timed out -/

theorem purge_expired_absent (now : Nat) (bufs : List FragmentBuffer) (fb : FragmentBuffer)
    (hexp : FRAGMENT_TIMEOUT_MS < msSince now fb.firstSeenMs) :
    fb ∉ purgeOldFragments now bufs := by
  intro hin
  have := (List.mem_filter.mp hin).2
  simp only [decide_eq_true_eq] at this
  omega

theorem find_none_of_expired (now : Nat) (bufs : List FragmentBuffer) (s n : Nat)
    (hexp : ∀ fb ∈ bufs, bufferMatches s n fb = true →
      FRAGMENT_TIMEOUT_MS < msSince now fb.firstSeenMs) :
    (purgeOldFragments now bufs).find? (bufferMatches s n) = none := by
  rw [List.find?_eq_none]
  intro fb hfb hmatch
  exact purge_expired_absent now bufs fb (hexp fb (purge_mem _ _ _ hfb) hmatch) hfb

theorem purge_without_expired (now : Nat) (bufs : List FragmentBuffer) (s n : Nat)
    (hexp : ∀ fb ∈ bufs, bufferMatches s n fb = true →
      FRAGMENT_TIMEOUT_MS < msSince now fb.firstSeenMs) :
    purgeOldFragments now bufs =
      purgeOldFragments now (bufs.filter (fun fb => !bufferMatches s n fb)) := by
  unfold purgeOldFragments
  rw [List.filter_filter]
  apply List.filter_congr
  intro fb hfb
  by_cases hmatch : bufferMatches s n fb = true
  · have := hexp fb hfb hmatch
    simp only [hmatch, Bool.not_true, Bool.and_false, decide_eq_false_iff_not, not_le]
    exact this
  · simp [hmatch]

/-- C26: a fragment buffer whose only timestamp, the time `firstSeenMs` of its
first fragment, is more than 15000 ms old on the 32-bit clock (so that no
fragment at all has come for longer than the fragment timeout) is absent from
the list after `purgeOldFragments`. When this holds of the buffers of the
message `(seq, totalFrags)` of a valid fragment `P`, then after the purge no
buffer matches that message, the purged list is the one a receiver that never
held those buffers would have, and `P`, handled at any clock reading `now2`
after the purge, is stored into the fresh buffer `newFragmentBuffer`, all of
whose slots are empty and which has no IV: the outcome is that of
`storeFragment` on this fresh buffer. -/
theorem C26_timed_out_buffer_is_gone (c : Crypto) (fm : FragmentManager) (now : Nat)
    (P key : List Byte) (hv : validTag c key P) (hm : rdU16 P 7 ≠ 1)
    (h0 : rdU16 P 5 = 0 → 25 ≤ P.length - 16)
    (hexp : ∀ fb ∈ fm.fragmentBuffers, bufferMatches (rdU32 P 1) (rdU16 P 7) fb = true →
      FRAGMENT_TIMEOUT_MS < msSince now fb.firstSeenMs) :
    (∀ fb ∈ fm.fragmentBuffers, 15000 < msSince now fb.firstSeenMs →
      fb ∉ purgeOldFragments now fm.fragmentBuffers) ∧
    (purgeOldFragments now fm.fragmentBuffers).find?
      (bufferMatches (rdU32 P 1) (rdU16 P 7)) = none ∧
    purgeOldFragments now fm.fragmentBuffers =
      purgeOldFragments now
        (fm.fragmentBuffers.filter (fun fb => !bufferMatches (rdU32 P 1) (rdU16 P 7) fb)) ∧
    (∀ now2,
      handleDataPacket c ⟨fm.pendingMessages, purgeOldFragments now fm.fragmentBuffers⟩ now2 P
          key =
        ⟨(storeFragment c key (newFragmentBuffer (rdU32 P 1) (rdU16 P 7) now2) (rdU16 P 5)
            (rdU16 P 5 == 0) (if rdU16 P 5 == 0 then dataIv P else []) (dataCipherFrag P)).ret,
          ⟨fm.pendingMessages,
            purgeOldFragments now2 (purgeOldFragments now fm.fragmentBuffers) ++
              [(storeFragment c key (newFragmentBuffer (rdU32 P 1) (rdU16 P 7) now2)
                (rdU16 P 5) (rdU16 P 5 == 0) (if rdU16 P 5 == 0 then dataIv P else [])
                (dataCipherFrag P)).fb]⟩,
          [sendAck c (rdU32 P 1) (rdU16 P 5) key],
          (storeFragment c key (newFragmentBuffer (rdU32 P 1) (rdU16 P 7) now2) (rdU16 P 5)
            (rdU16 P 5 == 0) (if rdU16 P 5 == 0 then dataIv P else [])
            (dataCipherFrag P)).delivered⟩) ∧
    (∀ now2, (newFragmentBuffer (rdU32 P 1) (rdU16 P 7) now2).fragments =
        List.replicate (rdU16 P 7) [] ∧
      (newFragmentBuffer (rdU32 P 1) (rdU16 P 7) now2).hasIv = false) := by
  have hnone := find_none_of_expired now fm.fragmentBuffers (rdU32 P 1) (rdU16 P 7) hexp
  refine ⟨?_, hnone, purge_without_expired now fm.fragmentBuffers _ _ hexp, ?_,
    fun _ => ⟨rfl, rfl⟩⟩
  · intro fb _ hold
    exact purge_expired_absent now fm.fragmentBuffers fb hold
  · intro now2
    have hnone2 : (purgeOldFragments now2 (purgeOldFragments now fm.fragmentBuffers)).find?
        (bufferMatches (rdU32 P 1) (rdU16 P 7)) = none :=
      find_filter_none _ _ _ hnone
    obtain ⟨o, bufs, ho, hr, -, hb⟩ := handle_multi c
      ⟨fm.pendingMessages, purgeOldFragments now fm.fragmentBuffers⟩ now2 P key hv hm h0
    simp only [] at ho hb
    rw [hnone2] at ho
    rw [locateBuffer_notfound _ _ _ _ hnone2] at hb
    simp only [Option.getD_none] at ho
    simp only [List.set_append_right _ _ (le_refl _), Nat.sub_self, List.set_cons_zero] at hb
    rw [hr, ← ho, hb]

set_option maxRecDepth 8000 in
/-- C26, witness: the receiver `fmAfterFrag0` holds fragment 0 of the message
`(0, 2)` since clock reading 0. After the purge at 20000 it has no buffer, and
fragment 1 of that message, handled at 20001, does not complete anything:
nothing is delivered, and slot 0 of the new buffer is empty. -/
theorem C26_timed_out_buffer_is_gone_witness :
    validTag xorCrypto demoKey packetCollision ∧ rdU16 packetCollision 7 ≠ 1 ∧
    (∀ fb ∈ fmAfterFrag0.fragmentBuffers,
      bufferMatches (rdU32 packetCollision 1) (rdU16 packetCollision 7) fb = true →
      FRAGMENT_TIMEOUT_MS < msSince 20000 fb.firstSeenMs) ∧
    fmAfterFrag0.fragmentBuffers = [fbAfterFrag0] ∧
    purgeOldFragments 20000 fmAfterFrag0.fragmentBuffers = [] ∧
    (handleDataPacket xorCrypto ⟨[], purgeOldFragments 20000 fmAfterFrag0.fragmentBuffers⟩
      20001 packetCollision demoKey).delivered = none ∧
    (handleDataPacket xorCrypto ⟨[], purgeOldFragments 20000 fmAfterFrag0.fragmentBuffers⟩
      20001 packetCollision demoKey).fm.fragmentBuffers =
      [{ seq := 0, totalFrags := 2, iv := List.replicate 16 0, fragments := [[], [0x02]],
         firstSeenMs := 20001, complete := false, hasIv := false }] :=
  have hv : validTag xorCrypto demoKey packetCollision := ⟨by decide, by decide⟩
  have h := C26_timed_out_buffer_is_gone xorCrypto fmAfterFrag0 20000 packetCollision demoKey
    hv (by decide) (by decide) (by decide)
  ⟨hv, by decide, by decide, by decide, by decide,
    (congrArg DataResult.delivered (h.2.2.2.1 20001)).trans (by decide), by decide⟩

/-! ## C27: `encodeMessage` and `decodeMessage` -/

/-- The buffer `encodeMessage` leaves behind and the size it returns, for data
that fits and an output buffer that is large enough. -/
theorem encodeMessage_eq (type sourceId : Byte) (data output : List Byte)
    (hn : data.length ≤ 249) (hout : data.length + 3 ≤ output.length) :
    encodeMessage type sourceId (some data) data.length output =
      ([type, sourceId, toByte data.length] ++ data ++ output.drop (data.length + 3),
        3 + data.length) := by
  obtain ⟨a, b, d, rest, rfl⟩ : ∃ a b d rest, output = a :: b :: d :: rest := by
    match output, hout with
    | [], h => exact absurd h (by simp)
    | [_], h => exact absurd h (by simp)
    | [_, _], h => exact absurd h (by simp)
    | a :: b :: d :: rest, _ => exact ⟨a, b, d, rest, rfl⟩
  unfold encodeMessage
  have hsz : (if data.length > PROTOCOL_MAX_DATA_SIZE then PROTOCOL_MAX_DATA_SIZE
      else data.length) = data.length := if_neg (by simp only [PROTOCOL_MAX_DATA_SIZE]; omega)
  simp only [hsz, PROTOCOL_HEADER_SIZE, List.set_cons_zero, List.set_cons_succ]
  have hdrop : List.drop (data.length + 3) (a :: b :: d :: rest) = rest.drop data.length := rfl
  rw [hdrop]
  by_cases h0 : data.length > 0
  · rw [if_pos h0, List.take_length]
    unfold writeAt
    have e1 : List.drop (3 + data.length) (type :: sourceId :: toByte data.length :: rest)
        = rest.drop data.length := by
      rw [show 3 + data.length = data.length + 3 by omega]
      rfl
    rw [e1]
    rfl
  · rw [if_neg h0]
    have hd : data = [] := List.eq_nil_of_length_eq_zero (by omega)
    subst hd
    rfl

/-- C27: for every type, source id and data of `n ≤ 249` bytes, and every
output buffer that has room for them, `encodeMessage` returns `3 + n` and
writes `n + 3` bytes, the header `type, sourceId, n` and the data, leaving the
rest of the buffer as it was; `decodeMessage` applied to that buffer with the
returned size returns true, sets `valid`, and yields the same type, the same
source id, `dataSize = n` and the same `n` data bytes. -/
theorem C27_encode_decode_roundtrip (type sourceId : Byte) (data output : List Byte)
    (msg : ProtocolMessage) (hn : data.length ≤ 249)
    (hout : data.length + 3 ≤ output.length) :
    (encodeMessage type sourceId (some data) data.length output).2 = 3 + data.length ∧
    (encodeMessage type sourceId (some data) data.length output).1.take (data.length + 3) =
      [type, sourceId, toByte data.length] ++ data ∧
    (encodeMessage type sourceId (some data) data.length output).1.drop (data.length + 3) =
      output.drop (data.length + 3) ∧
    (encodeMessage type sourceId (some data) data.length output).1.length = output.length ∧
    (decodeMessage (encodeMessage type sourceId (some data) data.length output).1
      (encodeMessage type sourceId (some data) data.length output).2 msg).1 = true ∧
    (decodeMessage (encodeMessage type sourceId (some data) data.length output).1
      (encodeMessage type sourceId (some data) data.length output).2 msg).2.valid = true ∧
    (decodeMessage (encodeMessage type sourceId (some data) data.length output).1
      (encodeMessage type sourceId (some data) data.length output).2 msg).2.type = type ∧
    (decodeMessage (encodeMessage type sourceId (some data) data.length output).1
      (encodeMessage type sourceId (some data) data.length output).2 msg).2.sourceId
      = sourceId ∧
    (decodeMessage (encodeMessage type sourceId (some data) data.length output).1
      (encodeMessage type sourceId (some data) data.length output).2 msg).2.dataSize.val
      = data.length ∧
    (decodeMessage (encodeMessage type sourceId (some data) data.length output).1
      (encodeMessage type sourceId (some data) data.length output).2 msg).2.data.take
      data.length = data := by
  rw [encodeMessage_eq type sourceId data output hn hout]
  have hval : (toByte data.length).val = data.length := toByte_val_of_lt _ (by omega)
  have hpre : ([type, sourceId, toByte data.length] ++ data).length = data.length + 3 := by
    simp
  refine ⟨rfl, ?_, ?_, ?_, ?_⟩
  · rw [← hpre, List.take_left]
  · rw [← hpre, List.drop_left]
  · simp only [List.length_append, List.length_drop, List.length_cons, List.length_nil]
    omega
  · generalize hr : decodeMessage
      ([type, sourceId, toByte data.length] ++ data ++ output.drop (data.length + 3))
      (3 + data.length) msg = r
    unfold decodeMessage at hr
    simp only [PROTOCOL_HEADER_SIZE, PROTOCOL_MAX_DATA_SIZE] at hr
    rw [if_neg (by omega)] at hr
    have g0 : ([type, sourceId, toByte data.length] ++ data ++
        output.drop (data.length + 3)).getD 0 0 = type := rfl
    have g1 : ([type, sourceId, toByte data.length] ++ data ++
        output.drop (data.length + 3)).getD 1 0 = sourceId := rfl
    have g2 : ([type, sourceId, toByte data.length] ++ data ++
        output.drop (data.length + 3)).getD 2 0 = toByte data.length := rfl
    have g3 : (([type, sourceId, toByte data.length] ++ data ++
        output.drop (data.length + 3)).drop 3).take data.length = data := by
      show (data ++ output.drop (data.length + 3)).take data.length = data
      exact List.take_left _ _
    rw [g0, g1, g2] at hr
    simp only [hval] at hr
    rw [if_neg (by omega), if_neg (by omega), g3] at hr
    by_cases h0 : data.length > 0
    · rw [if_pos h0] at hr
      subst hr
      refine ⟨rfl, rfl, rfl, rfl, hval, ?_⟩
      simp [writeAt]
    · rw [if_neg h0] at hr
      subst hr
      have hd : data = [] := List.eq_nil_of_length_eq_zero (by omega)
      refine ⟨rfl, rfl, rfl, rfl, hval, ?_⟩
      subst hd
      rfl

/-- C27, witness: the text type 0x10, source 7 and the data `68 69`, encoded
into a buffer of eight bytes `EE` and decoded into a message whose data array
holds 249 bytes `AA`. -/
theorem C27_encode_decode_roundtrip_witness :
    ([0x68, 0x69] : List Byte).length ≤ 249 ∧
    ([0x68, 0x69] : List Byte).length + 3 ≤ (List.replicate 8 (0xEE : Byte)).length ∧
    (encodeMessage 0x10 7 (some [0x68, 0x69]) 2 (List.replicate 8 0xEE)) =
      ([0x10, 7, 2, 0x68, 0x69, 0xEE, 0xEE, 0xEE], 5) ∧
    (decodeMessage (encodeMessage 0x10 7 (some [0x68, 0x69]) 2 (List.replicate 8 0xEE)).1
      (encodeMessage 0x10 7 (some [0x68, 0x69]) 2 (List.replicate 8 0xEE)).2
      ⟨0, 0, 0, List.replicate 249 0xAA, false⟩).1 = true ∧
    (decodeMessage (encodeMessage 0x10 7 (some [0x68, 0x69]) 2 (List.replicate 8 0xEE)).1
      (encodeMessage 0x10 7 (some [0x68, 0x69]) 2 (List.replicate 8 0xEE)).2
      ⟨0, 0, 0, List.replicate 249 0xAA, false⟩).2.data.take 2 = [0x68, 0x69] :=
  have h := C27_encode_decode_roundtrip 0x10 7 [0x68, 0x69] (List.replicate 8 0xEE)
    ⟨0, 0, 0, List.replicate 249 0xAA, false⟩ (by decide) (by decide)
  ⟨by decide, by decide, by decide, h.2.2.2.2.1, h.2.2.2.2.2.2.2.2.2⟩

/-! ## C28: the length of a DATA packet -/

theorem sendPacketAccepts_iff (p : List Byte) :
    sendPacketAccepts p = true ↔ (1 ≤ p.length ∧ p.length ≤ MAX_SEND_SIZE) := by
  unfold sendPacketAccepts
  cases p with
  | nil => simp
  | cons a l =>
    simp only [List.isEmpty_cons, Bool.false_eq_true, if_false, List.length_cons]
    by_cases h : l.length + 1 > MAX_SEND_SIZE
    · rw [if_pos h]; simp; omega
    · rw [if_neg h]; simp; omega

/-- The packets `sendSecureMessage` hands to the radio, for every text: the
16-bit fragment count decides between the single packet with the whole
ciphertext and the loop over the fragments. -/
theorem sendSecureMessage_sent_cases (c : Crypto) (env : SendEnv) (pms : List PendingMessage)
    (text key : List Byte) (seqNumber : Nat) :
    (sendSecureMessage c env pms text key seqNumber).sent =
      if ((text.length + 2 + 155) / 156) % 2 ^ 16 = 1 then
        [dataPacket c (aesCtrCrypt c key (generateRandomBytes env.rnd 16) (serializeText text))
          seqNumber 0 1 (generateRandomBytes env.rnd 16) key]
      else
        (List.range (((text.length + 2 + 155) / 156) % 2 ^ 16)).map
          (fun i => dataPacket c
            (fragmentChunk (aesCtrCrypt c key (generateRandomBytes env.rnd 16)
              (serializeText text)) i)
            seqNumber i (((text.length + 2 + 155) / 156) % 2 ^ 16)
            (generateRandomBytes env.rnd 16) key) := by
  have hcl : (aesCtrCrypt c key (generateRandomBytes env.rnd 16) (serializeText text)).length =
      text.length + 2 := by rw [aesCtrCrypt_length, serializeText_length]
  have hn : (text.length + 2 + MAX_FRAGMENT_PAYLOAD - 1) / MAX_FRAGMENT_PAYLOAD
      = (text.length + 2 + 155) / 156 := rfl
  unfold sendSecureMessage
  simp only [hcl, hn]
  by_cases h1 : ((text.length + 2 + 155) / 156) % 2 ^ 16 = 1
  · rw [if_pos (by simpa using h1), if_pos h1]
    rfl
  · rw [if_neg (by simpa using h1), if_neg h1]
    simp only [sendFragments_sent, List.nil_append]

/-- C28 (amended): for every text whose 16-bit fragment count is 1 only when
its ciphertext really fits one fragment (so for every text that needs at most
65535 fragments), every DATA packet that `sendSecureMessage` hands to the
transport has length 9 + (16 if its fragment index is 0) + ciphertext length +
16 with at most 156 ciphertext bytes, which is at most 197 bytes and so within
the 200-byte `MAX_SEND_SIZE`: `sendPacket` does not refuse it. -/
theorem C28_data_packets_fit (c : Crypto) (env : SendEnv) (pms : List PendingMessage)
    (text key : List Byte) (seqNumber : Nat) (hs : seqNumber < 2 ^ 32)
    (hw : ((text.length + 2 + 155) / 156) % 2 ^ 16 = 1 → (text.length + 2 + 155) / 156 = 1) :
    ∀ p ∈ (sendSecureMessage c env pms text key seqNumber).sent,
      p.length = 9 + (if rdU16 p 5 = 0 then 16 else 0) + (dataCipherFrag p).length + 16 ∧
      (dataCipherFrag p).length ≤ 156 ∧
      p.length ≤ 197 ∧ p.length ≤ MAX_SEND_SIZE ∧ sendPacketAccepts p = true := by
  have hcl : (aesCtrCrypt c key (generateRandomBytes env.rnd 16) (serializeText text)).length =
      text.length + 2 := by rw [aesCtrCrypt_length, serializeText_length]
  have hfinish : ∀ (chunk : List Byte) (i n : Nat), i < 65536 → n < 65536 →
      chunk.length ≤ 156 →
      (dataPacket c chunk seqNumber i n (generateRandomBytes env.rnd 16) key).length =
        9 + (if rdU16 (dataPacket c chunk seqNumber i n (generateRandomBytes env.rnd 16) key) 5
          = 0 then 16 else 0) +
          (dataCipherFrag (dataPacket c chunk seqNumber i n (generateRandomBytes env.rnd 16)
            key)).length + 16 ∧
      (dataCipherFrag (dataPacket c chunk seqNumber i n (generateRandomBytes env.rnd 16)
        key)).length ≤ 156 ∧
      (dataPacket c chunk seqNumber i n (generateRandomBytes env.rnd 16) key).length ≤ 197 ∧
      (dataPacket c chunk seqNumber i n (generateRandomBytes env.rnd 16) key).length
        ≤ MAX_SEND_SIZE ∧
      sendPacketAccepts (dataPacket c chunk seqNumber i n (generateRandomBytes env.rnd 16) key)
        = true := by
    intro chunk i n hi hn hc
    obtain ⟨-, hlen, -, h5, -, -, hfrag⟩ := dataPacket_parse c chunk seqNumber i n
      (generateRandomBytes env.rnd 16) key hs hi hn (generateRandomBytes_length _ _)
    have hle : (dataPacket c chunk seqNumber i n (generateRandomBytes env.rnd 16) key).length
        ≤ 197 := by
      rw [hlen]
      split <;> omega
    refine ⟨by rw [h5, hfrag]; exact hlen, by rw [hfrag]; exact hc, hle, ?_, ?_⟩
    · unfold MAX_SEND_SIZE; omega
    · rw [sendPacketAccepts_iff]
      unfold MAX_SEND_SIZE
      refine ⟨?_, by omega⟩
      rw [hlen]
      omega
  intro p hp
  rw [sendSecureMessage_sent_cases] at hp
  have hlt : ((text.length + 2 + 155) / 156) % 2 ^ 16 < 65536 := Nat.mod_lt _ (by norm_num)
  by_cases h1 : ((text.length + 2 + 155) / 156) % 2 ^ 16 = 1
  · rw [if_pos h1, List.mem_singleton] at hp
    rw [hp]
    exact hfinish _ 0 1 (by norm_num) (by norm_num) (by rw [hcl]; have := hw h1; omega)
  · rw [if_neg h1, List.mem_map] at hp
    obtain ⟨i, hi, rfl⟩ := hp
    rw [List.mem_range] at hi
    exact hfinish _ i _ (by omega) hlt (by
      rw [fragmentChunk_length]
      unfold MAX_FRAGMENT_PAYLOAD
      omega)

/-- C28, witness: the three packets of a 400-byte text. -/
theorem C28_data_packets_fit_witness :
    (5 < 2 ^ 32 ∧
      (((text400.length + 2 + 155) / 156) % 2 ^ 16 = 1 → (text400.length + 2 + 155) / 156 = 1)) ∧
    ∀ p ∈ (sendSecureMessage xorCrypto demoEnv [] text400 demoKey 5).sent,
      p.length ≤ 197 ∧ sendPacketAccepts p = true :=
  ⟨⟨by decide, by rw [text400_length]; decide⟩,
    fun p hp =>
      have h := C28_data_packets_fit xorCrypto demoEnv [] text400 demoKey 5 (by decide)
        (by rw [text400_length]; decide) p hp
      ⟨h.2.2.1, h.2.2.2.2⟩⟩

theorem textWrapsToOne_length : textWrapsToOne.length = 10223615 := by
  unfold textWrapsToOne
  exact List.length_replicate _ _

/-- C28, counterexample: a text of 10223615 bytes needs 65537 fragments; the
16-bit count is 1, so the whole ciphertext goes into one DATA packet of
10223658 bytes, which `sendPacket` refuses. -/
theorem C28_counterexample_one_huge_packet :
    (textWrapsToOne.length + 2 + 155) / 156 = 65537 ∧
    (sendSecureMessage xorCrypto demoEnv [] textWrapsToOne demoKey 0).sent =
      [dataPacket xorCrypto
        (aesCtrCrypt xorCrypto demoKey (generateRandomBytes demoEnv.rnd 16)
          (serializeText textWrapsToOne))
        0 0 1 (generateRandomBytes demoEnv.rnd 16) demoKey] ∧
    (dataPacket xorCrypto
        (aesCtrCrypt xorCrypto demoKey (generateRandomBytes demoEnv.rnd 16)
          (serializeText textWrapsToOne))
        0 0 1 (generateRandomBytes demoEnv.rnd 16) demoKey).length = 10223658 ∧
    sendPacketAccepts (dataPacket xorCrypto
        (aesCtrCrypt xorCrypto demoKey (generateRandomBytes demoEnv.rnd 16)
          (serializeText textWrapsToOne))
        0 0 1 (generateRandomBytes demoEnv.rnd 16) demoKey) = false := by
  have hl := textWrapsToOne_length
  obtain ⟨-, hlen, -⟩ := dataPacket_parse xorCrypto
    (aesCtrCrypt xorCrypto demoKey (generateRandomBytes demoEnv.rnd 16)
      (serializeText textWrapsToOne))
    0 0 1 (generateRandomBytes demoEnv.rnd 16) demoKey (by decide) (by decide) (by decide)
    (generateRandomBytes_length _ _)
  rw [aesCtrCrypt_length, serializeText_length, hl] at hlen
  have hlen' : (dataPacket xorCrypto
      (aesCtrCrypt xorCrypto demoKey (generateRandomBytes demoEnv.rnd 16)
        (serializeText textWrapsToOne))
      0 0 1 (generateRandomBytes demoEnv.rnd 16) demoKey).length = 10223658 := by
    rw [hlen]
    decide
  refine ⟨by rw [hl], ?_, hlen', ?_⟩
  · rw [sendSecureMessage_sent_cases, hl, if_pos (by decide)]
  · have hnot : ¬ sendPacketAccepts (dataPacket xorCrypto
        (aesCtrCrypt xorCrypto demoKey (generateRandomBytes demoEnv.rnd 16)
          (serializeText textWrapsToOne))
        0 0 1 (generateRandomBytes demoEnv.rnd 16) demoKey) = true := by
      rw [sendPacketAccepts_iff, hlen']
      unfold MAX_SEND_SIZE
      omega
    simpa using hnot

/-! ## C29: the responder nonce is stored before the tag is checked -/

/-- C29: `handleBindResponse` copies the nonce of the packet into
`nonceResponder` before it verifies the tag. For every well-formed
BIND_RESPONSE addressed to the local id whose tag does not verify, or for which
the key agreement or the export of the public key fails, the handler returns
false and sends nothing, and afterwards the stored responder nonce is the 16
nonce bytes of the rejected packet (bytes 9 to 24), while every other member of
the `PairingManager` (the paired flag, the session key, the paired peer id and
the pending-bind fields among them) and the persisted state are as before. -/
theorem C29_nonce_stored_before_tag_check (c : Crypto) (env : PairEnv) (dev : Device)
    (packet : List Byte)
    (hlen : 26 + byteAt packet 25 + 16 ≤ packet.length)
    (hid : rdU32 packet 1 = dev.pm.deviceId)
    (hbad : ∀ shared pubI,
      c.ecdhRaw dev.sec.ecdhD ((packet.drop 26).take (byteAt packet 25)) = some shared →
      exportPublicKey { dev.sec with initialized := true } = some pubI →
      packet.drop (packet.length - 16) ≠
        hmacSha256Trunc16 c
          (deriveSessionKeyFromShared c shared dev.pm.nonceInitiator ((packet.drop 9).take 16))
          (labelRESP ++ dev.pm.nonceInitiator ++ (packet.drop 9).take 16 ++ pubI ++
            (packet.drop 26).take (byteAt packet 25))) :
    (handleBindResponse c env dev packet).ret = false ∧
    (handleBindResponse c env dev packet).sent = [] ∧
    (handleBindResponse c env dev packet).dev.pm =
      { dev.pm with nonceResponder := (packet.drop 9).take 16 } ∧
    (handleBindResponse c env dev packet).dev.pm.nonceResponder = (packet.drop 9).take 16 ∧
    ((packet.drop 9).take 16).length = 16 ∧
    (handleBindResponse c env dev packet).dev.pm.paired = dev.pm.paired ∧
    (handleBindResponse c env dev packet).dev.pm.sessionKey = dev.pm.sessionKey ∧
    (handleBindResponse c env dev packet).dev.pm.pairedDeviceId = dev.pm.pairedDeviceId ∧
    (handleBindResponse c env dev packet).dev.pm.pendingBind = dev.pm.pendingBind ∧
    (handleBindResponse c env dev packet).dev.pm.pendingInitiatorId
      = dev.pm.pendingInitiatorId ∧
    (handleBindResponse c env dev packet).dev.pm.pendingPubI = dev.pm.pendingPubI ∧
    (handleBindResponse c env dev packet).dev.pm.pendingNonceI = dev.pm.pendingNonceI ∧
    (handleBindResponse c env dev packet).dev.nvs = dev.nvs := by
  have hn : ((packet.drop 9).take 16).length = 16 := by
    rw [List.length_take, List.length_drop]
    omega
  generalize hr : handleBindResponse c env dev packet = r
  unfold handleBindResponse at hr
  have h1 : ¬ packet.length < 1 + 4 + 4 + 16 + 1 + 16 := by omega
  rw [if_neg h1] at hr
  simp only [] at hr
  rw [if_neg (by simpa using hid)] at hr
  have h3 : ¬ packet.length < 1 + 4 + 4 + 16 + 1 + byteAt packet (1 + 4 + 4 + 16) + 16 := by
    show ¬ packet.length < 26 + byteAt packet 25 + 16
    omega
  rw [if_neg h3] at hr
  simp only [computeSharedSecret] at hr
  cases hsh : c.ecdhRaw dev.sec.ecdhD
      ((packet.drop (1 + 4 + 4 + 16 + 1)).take (byteAt packet (1 + 4 + 4 + 16))) with
  | none =>
    rw [hsh] at hr; subst hr
    exact ⟨rfl, rfl, rfl, rfl, hn, rfl, rfl, rfl, rfl, rfl, rfl, rfl, rfl⟩
  | some shared =>
    rw [hsh] at hr
    simp only [] at hr
    cases hex : exportPublicKey { dev.sec with initialized := true } with
    | none =>
      rw [hex] at hr; subst hr
      exact ⟨rfl, rfl, rfl, rfl, hn, rfl, rfl, rfl, rfl, rfl, rfl, rfl, rfl⟩
    | some pubI =>
      rw [hex] at hr
      simp only [] at hr
      have hne := hbad shared pubI hsh hex
      rw [if_pos (by simpa using hne)] at hr
      subst hr
      exact ⟨rfl, rfl, rfl, rfl, hn, rfl, rfl, rfl, rfl, rfl, rfl, rfl, rfl⟩

set_option maxRecDepth 8000 in
/-- C29, witness: the device `devicePending` handles `responseBadTag`, whose
nonce is sixteen bytes `09` and whose tag is sixteen zero bytes. -/
theorem C29_nonce_stored_before_tag_check_witness :
    26 + byteAt responseBadTag 25 + 16 ≤ responseBadTag.length ∧
    rdU32 responseBadTag 1 = devicePending.pm.deviceId ∧
    devicePending.pm.nonceResponder = List.replicate 16 0 ∧
    (handleBindResponse xorCrypto (demoPairEnv 7) devicePending responseBadTag).ret = false ∧
    (handleBindResponse xorCrypto (demoPairEnv 7) devicePending
      responseBadTag).dev.pm.nonceResponder = List.replicate 16 9 ∧
    (handleBindResponse xorCrypto (demoPairEnv 7) devicePending responseBadTag).dev.pm.paired
      = devicePending.pm.paired :=
  have h := C29_nonce_stored_before_tag_check xorCrypto (demoPairEnv 7) devicePending
    responseBadTag (by decide) (by decide) (by
      intro shared pubI hs hp
      have e1 : some [35] = some shared := Eq.trans (by decide) hs
      have e2 : some [7] = some pubI := Eq.trans (by decide) hp
      cases e1
      cases e2
      decide)
  ⟨by decide, by decide, by decide, h.1, h.2.2.2.1.trans (by decide), h.2.2.2.2.2.1⟩

/-! ## C30: every access of `handleDataPacket` is in bounds -/

theorem readChecked_ok (p : List Byte) (i : Nat) (h : i < p.length) :
    readChecked p i = some (byteAt p i) := by
  unfold readChecked byteAt
  rw [List.getD_eq_getElem?_getD, List.getElem?_eq_getElem h]
  rfl

theorem rdU32Checked_ok (p : List Byte) (i : Nat) (h : i + 4 ≤ p.length) :
    rdU32Checked p i = some (rdU32 p i) := by
  unfold rdU32Checked rdU32
  rw [readChecked_ok p i (by omega), readChecked_ok p (i + 1) (by omega),
    readChecked_ok p (i + 2) (by omega), readChecked_ok p (i + 3) (by omega)]

theorem rdU16Checked_ok (p : List Byte) (i : Nat) (h : i + 2 ≤ p.length) :
    rdU16Checked p i = some (rdU16 p i) := by
  unfold rdU16Checked rdU16
  rw [readChecked_ok p i (by omega), readChecked_ok p (i + 1) (by omega)]

theorem sliceChecked_ok (p : List Byte) (a b : Nat) (hab : a ≤ b) (hb : b ≤ p.length) :
    sliceChecked p a b = some ((p.take b).drop a) := by
  unfold sliceChecked
  rw [if_pos ⟨hab, hb⟩]

/-- The slot accesses of `storeFragment` are in bounds for every buffer. -/
theorem storeFragmentChecked_eq (c : Crypto) (key : List Byte) (fb : FragmentBuffer)
    (fragId : Nat) (hasIv : Bool) (iv chunk : List Byte) :
    storeFragmentChecked c key fb fragId hasIv iv chunk =
      some (storeFragment c key fb fragId hasIv iv chunk) := by
  unfold storeFragmentChecked storeFragment
  cases captureIv fb hasIv iv with
  | none => rfl
  | some fb1 =>
    simp only []
    by_cases hge : fragId ≥ fb1.fragments.length
    · rw [if_pos hge, if_pos hge]
    · rw [if_neg hge, if_neg hge]
      have hlt : fragId < fb1.fragments.length := by omega
      rw [List.getElem?_eq_getElem hlt]
      simp only []
      have hget : fb1.fragments.getD fragId [] = fb1.fragments[fragId] := by
        rw [List.getD_eq_getElem?_getD, List.getElem?_eq_getElem hlt]
        rfl
      rw [hget]
      by_cases hdup : (!(fb1.fragments[fragId]).isEmpty && fb1.fragments[fragId] == chunk) = true
      · rw [if_pos hdup, if_pos hdup]
      · rw [if_neg hdup, if_neg hdup, if_pos hlt]

/-- The buffer `fb` points to after the search is an element of the list. -/
theorem locateBuffer_get (bufs : List FragmentBuffer) (seq total now : Nat) :
    (locateBuffer bufs seq total now).1[(locateBuffer bufs seq total now).2]? =
      some ((locateBuffer bufs seq total now).1.getD (locateBuffer bufs seq total now).2
        (newFragmentBuffer seq total now)) := by
  unfold locateBuffer
  cases h : bufs.findIdx? (bufferMatches seq total) with
  | none =>
    simp only []
    rw [List.getD_eq_getElem?_getD, List.getElem?_append_right (le_refl _)]
    simp
  | some i =>
    simp only []
    obtain ⟨x, -, hd, hg, -⟩ := findIdx_some_spec (bufferMatches seq total)
      (newFragmentBuffer seq total now) bufs i h
    rw [hd]
    simpa [List.get?_eq_getElem?] using hg

/-- C30: for every byte vector and every receiver state, `handleDataPacket`
written with every access checked (the header bytes 1 to 8, the 16 bytes of
the tag from `size - 16`, the bytes before the tag, the 16 bytes of the IV from
index 9, the ciphertext slice from the offset to the tag, the located buffer,
and the slot read and written at the fragment index) never meets an index out
of bounds and computes what `handleDataPacket` computes. After the check
`size ≥ 25` the header reads and the tag lie inside the packet; the IV is only
read when it ends at or before the tag; the ciphertext slice starts at or
before the tag; and the slot accesses are in bounds for every buffer. -/
theorem C30_accesses_in_bounds (c : Crypto) (fm : FragmentManager) (now : Nat)
    (packet key : List Byte) :
    handleDataPacketChecked c fm now packet key = some (handleDataPacket c fm now packet key) ∧
    (25 ≤ packet.length →
      rdU32Checked packet 1 = some (rdU32 packet 1) ∧
      rdU16Checked packet 5 = some (rdU16 packet 5) ∧
      rdU16Checked packet 7 = some (rdU16 packet 7) ∧
      sliceChecked packet (packet.length - 16) (packet.length - 16 + 16) =
        some (packet.drop (packet.length - 16)) ∧
      (¬ packet.length - 16 < 9 + 16 → sliceChecked packet 9 (9 + 16) = some (dataIv packet)) ∧
      (¬ ((rdU16 packet 5 == 0) && decide (packet.length - 16 < 9 + 16)) = true →
        (if rdU16 packet 5 == 0 then 9 + 16 else 9) ≤ packet.length - 16 ∧
        sliceChecked packet (if rdU16 packet 5 == 0 then 9 + 16 else 9) (packet.length - 16) =
          some (dataCipherFrag packet))) ∧
    (∀ (fb : FragmentBuffer) (fragId : Nat) (hasIv : Bool) (iv chunk : List Byte),
      storeFragmentChecked c key fb fragId hasIv iv chunk =
        some (storeFragment c key fb fragId hasIv iv chunk)) := by
  have hmac : 25 ≤ packet.length →
      sliceChecked packet (packet.length - 16) (packet.length - 16 + 16) =
        some (packet.drop (packet.length - 16)) := by
    intro h
    rw [sliceChecked_ok packet _ _ (by omega) (by omega)]
    rw [show packet.length - 16 + 16 = packet.length by omega, List.take_length]
  have hbody : sliceChecked packet 0 (packet.length - 16) =
      some (packet.take (packet.length - 16)) := by
    rw [sliceChecked_ok packet _ _ (by omega) (by omega), List.drop_zero]
  have hiv : ¬ packet.length - 16 < 9 + 16 →
      sliceChecked packet 9 (9 + 16) = some (dataIv packet) := by
    intro h
    rw [sliceChecked_ok packet _ _ (by omega) (by omega)]
    unfold dataIv
    rw [List.drop_take]
  have hcipher : 25 ≤ packet.length →
      ¬ ((rdU16 packet 5 == 0) && decide (packet.length - 16 < 9 + 16)) = true →
      (if rdU16 packet 5 == 0 then 9 + 16 else 9) ≤ packet.length - 16 ∧
      sliceChecked packet (if rdU16 packet 5 == 0 then 9 + 16 else 9) (packet.length - 16) =
        some (dataCipherFrag packet) := by
    intro hlen h
    have hoff : (if rdU16 packet 5 == 0 then 9 + 16 else 9) ≤ packet.length - 16 := by
      by_cases h5 : (rdU16 packet 5 == 0) = true
      · rw [if_pos h5]
        rw [h5] at h
        simp only [Bool.true_and, decide_eq_true_eq] at h
        omega
      · rw [if_neg h5]; omega
    refine ⟨hoff, ?_⟩
    rw [sliceChecked_ok packet _ _ hoff (by omega)]
    rfl
  refine ⟨?_, fun hlen => ⟨rdU32Checked_ok packet 1 (by omega), rdU16Checked_ok packet 5 (by omega),
    rdU16Checked_ok packet 7 (by omega), hmac hlen, hiv, hcipher hlen⟩,
    storeFragmentChecked_eq c key⟩
  unfold handleDataPacketChecked handleDataPacket
  by_cases hshort : packet.length < 1 + 4 + 2 + 2 + 16
  · rw [if_pos hshort, if_pos hshort]
  rw [if_neg hshort, if_neg hshort]
  have hlen : 25 ≤ packet.length := by omega
  simp only []
  rw [hmac hlen, hbody]
  simp only []
  by_cases htag : (packet.drop (packet.length - 16) !=
      hmacSha256Trunc16 c key (packet.take (packet.length - 16))) = true
  · rw [if_pos htag, if_pos htag]
  rw [if_neg htag, if_neg htag]
  rw [rdU32Checked_ok packet 1 (by omega), rdU16Checked_ok packet 5 (by omega),
    rdU16Checked_ok packet 7 (by omega)]
  simp only []
  by_cases hroom : ((rdU16 packet 5 == 0) && decide (packet.length - 16 < 9 + 16)) = true
  · rw [if_pos hroom, if_pos hroom]
  rw [if_neg hroom, if_neg hroom]
  rw [(hcipher hlen hroom).2]
  have hivsel : (if (rdU16 packet 5 == 0) = true then sliceChecked packet 9 (9 + 16)
      else some []) = some (if (rdU16 packet 5 == 0) = true then dataIv packet else []) := by
    by_cases h5 : (rdU16 packet 5 == 0) = true
    · rw [if_pos h5, if_pos h5]
      rw [h5] at hroom
      simp only [Bool.true_and, decide_eq_true_eq] at hroom
      exact hiv hroom
    · rw [if_neg h5, if_neg h5]
  rw [hivsel]
  simp only []
  by_cases h1 : (rdU16 packet 7 == 1) = true
  · rw [if_pos h1, if_pos h1]
    by_cases hno : (!(rdU16 packet 5 == 0)) = true
    · rw [if_pos hno, if_pos hno]
    · rw [if_neg hno, if_neg hno]
      split <;> rfl
  · rw [if_neg h1, if_neg h1]
    rw [locateBuffer_get]
    simp only []
    rw [storeFragmentChecked_eq]

set_option maxRecDepth 8000 in
/-- C30, witness: fragment 1 of the message `(0, 2)` handled by a receiver
that holds fragment 0, and a packet of three bytes. -/
theorem C30_accesses_in_bounds_witness :
    25 ≤ packetCollision.length ∧
    handleDataPacketChecked xorCrypto fmAfterFrag0 500 packetCollision demoKey =
      some (handleDataPacket xorCrypto fmAfterFrag0 500 packetCollision demoKey) ∧
    rdU32Checked packetCollision 1 = some (rdU32 packetCollision 1) ∧
    sliceChecked packetCollision (packetCollision.length - 16)
        (packetCollision.length - 16 + 16) =
      some (packetCollision.drop (packetCollision.length - 16)) ∧
    handleDataPacketChecked xorCrypto fmAfterFrag0 500 [PKT_DATA, 0, 0] demoKey =
      some ⟨false, fmAfterFrag0, [], none⟩ :=
  have h := C30_accesses_in_bounds xorCrypto fmAfterFrag0 500 packetCollision demoKey
  have h2 := h.2.1 (by decide)
  ⟨by decide, h.1, h2.1, h2.2.2.2.1,
    (C30_accesses_in_bounds xorCrypto fmAfterFrag0 500 [PKT_DATA, 0, 0] demoKey).1⟩

end TestLora
